import Mathlib

/-!
# go3mf: diagnostics model and slice validator

A shallow embedding of `errors/errors.go`, `slices/slices.go`, `slices/validate.go`
and the parts of `math.go` they use.

Conventions of the embedding

* A Go `error` interface value is a `specerr.GoError`: `nil`, or one constructor per
  dynamic type that the package produces (`*errors.errorString` for the sentinels,
  `*MissingFieldError`, `*ParseFieldError`, `*Error`, `*ErrorList`).
* Pointers are modelled by the values they point to. Functions that update their
  argument in place and return it (`New`, `NewPath`, `NewIndexed`, `Append`) return the
  updated value. Two positions of a list are independent values; typed nil pointers
  are outside the model.
* `interface{}` elements of a breadcrumb frame are observed by the code only through
  the verb `%T`, so a frame stores that type name.
* `float32` quantities are compared only (`==`, `<`, `<=`); finite values are modelled
  by the rationals they denote, NaN and the infinities are outside the model.
* `uint32` identifiers are natural numbers; the code only compares them.
-/

set_option autoImplicit false

/-! ## Standard-library helpers (`strings`, `fmt`) -/

namespace strings

/-- The Go call `strings.Join(elems, sep)`. -/
def Join : List String → String → String
  | [], _ => ""
  | [a], _ => a
  | a :: b :: rest, sep => a ++ sep ++ Join (b :: rest) sep

/-- Characters after the last occurrence of `sep`, written with an accumulator that is
reset at each separator: the last field of `strings.Split(s, sep)` for a one-character
separator. -/
def lastFieldAux (sep : Char) : List Char → List Char → List Char
  | acc, [] => acc.reverse
  | acc, c :: cs => if c = sep then lastFieldAux sep [] cs else lastFieldAux sep (c :: acc) cs

/-- The expression `s[len(s)-1]` for `s := strings.Split(name, ".")`. -/
def SplitLast (name : String) (sep : Char) : String :=
  String.mk (lastFieldAux sep [] name.data)

/-- The Go call `strings.Replace(s, old, "", -1)` for a one-character `old`: every
occurrence is removed. -/
def RemoveAll (s : String) (old : Char) : String :=
  String.mk (s.data.filter (fun c => c ≠ old))

end strings

/-! ## Package `errors` (imported by the validators as `specerr`) -/

namespace specerr

/-- One breadcrumb frame: `Element` is the `%T` name of the element, `Index` is `-1`
when no index is needed. -/
structure Level where
  Element : String
  Index : Int
deriving DecidableEq

/-- The method `(*Level).String`: package name and pointer stars are removed from the
type name, the index is appended after `#` unless it is `-1`. -/
def Level.String (l : Level) : String :=
  let name := strings.RemoveAll (strings.SplitLast l.Element '.') '*'
  if l.Index = -1 then name else name ++ "#" ++ toString l.Index

/-- A Go `error` interface value of this package. -/
inductive GoError where
  | nil : GoError
  | errorString (s : String) : GoError
  | MissingFieldError (Name : String) : GoError
  | ParseFieldError (Context : String) (ResourceID : Nat) (Name : String) (Required : Bool) : GoError
  | Error (Target : List Level) (Err : GoError) (Path : String) : GoError
  | ErrorList (Errors : List GoError) : GoError

/-- The sentinel `ErrRecursion`. -/
def ErrRecursion : GoError := .errorString "MUST NOT contain recursive references"
/-- The sentinel `ErrMissingResource`. -/
def ErrMissingResource : GoError := .errorString "resource MUST be defined prior to referencing"
/-- The sentinel `ErrSliceExtRequired`. -/
def ErrSliceExtRequired : GoError :=
  .errorString "a 3MF package which uses low resolution objects MUST enlist the slice extension as required"
/-- The sentinel `ErrNonSliceStack`. -/
def ErrNonSliceStack : GoError := .errorString "slicestackid MUST reference a slice stack resource"
/-- The sentinel `ErrSlicesAndRefs`. -/
def ErrSlicesAndRefs : GoError :=
  .errorString "may either contain slices or refs, but they MUST NOT contain both element types"
/-- The sentinel `ErrSliceRefSamePart`. -/
def ErrSliceRefSamePart : GoError :=
  .errorString "the path of the referenced slice stack MUST be different than the path of the original slice stack"
/-- The sentinel `ErrSliceRefRef`. -/
def ErrSliceRefRef : GoError :=
  .errorString "a referenced slice stack MUST NOT contain any further sliceref elements"
/-- The sentinel `ErrSliceSmallTopZ`. -/
def ErrSliceSmallTopZ : GoError := .errorString "slice ztop is smaller than stack zbottom"
/-- The sentinel `ErrSliceNoMonotonic`. -/
def ErrSliceNoMonotonic : GoError :=
  .errorString "the first ztop in the next slicestack MUST be greater than the last ztop in the previous slicestack"
/-- The sentinel `ErrSliceInsufficientVertices`. -/
def ErrSliceInsufficientVertices : GoError := .errorString "slice MUST contain at least 2 vertices"
/-- The sentinel `ErrSliceInsufficientPolygons`. -/
def ErrSliceInsufficientPolygons : GoError := .errorString "slice MUST contain at least 1 polygon"
/-- The sentinel `ErrSliceInsufficientSegments`. -/
def ErrSliceInsufficientSegments : GoError := .errorString "slice polygon MUST contain at least 1 segment"
/-- The sentinel `ErrSlicePolygonNotClosed`. -/
def ErrSlicePolygonNotClosed : GoError :=
  .errorString "objects with type 'model' and 'solidsupport' MUST not reference slices with open polygons"
/-- The sentinel `ErrSliceInvalidTranform`. -/
def ErrSliceInvalidTranform : GoError :=
  .errorString "any transform applied to an object that references a slice stack MUST be planar"

mutual
/-- The function `New(element, err)` on values: an `*Error` and an `*ErrorList` are given
by their contents, so that the update in place is the new value. This describes the code
when no pointer is reached twice; `Heap.New` keeps the pointers. -/
def New (element : String) : GoError → GoError
  | .Error t c p => .Error (t ++ [⟨element, -1⟩]) c p
  | .ErrorList es => .ErrorList (NewEach element es)
  | err => .Error [⟨element, -1⟩] err ""
/-- The loop `for i, e1 := range e.Errors { e.Errors[i] = New(element, e1) }` on values:
the entries are independent of each other, as they are when no two of them share a
pointer (`Heap.wrapEach` is the loop with pointers). -/
def NewEach (element : String) : List GoError → List GoError
  | [] => []
  | e1 :: rest => New element e1 :: NewEach element rest
end

mutual
/-- The function `NewPath(element, path, err)` on values, as `New`; `Heap.NewPath` keeps
the pointers. -/
def NewPath (element : String) (path : String) : GoError → GoError
  | .Error t c _ => .Error (t ++ [⟨element, -1⟩]) c path
  | .ErrorList es => .ErrorList (NewPathEach element path es)
  | err => .Error [⟨element, -1⟩] err path
/-- The loop `for i, e1 := range e.Errors { e.Errors[i] = NewPath(element, path, e1) }`
on values, as `NewEach`. -/
def NewPathEach (element : String) (path : String) : List GoError → List GoError
  | [] => []
  | e1 :: rest => NewPath element path e1 :: NewPathEach element path rest
end

mutual
/-- The function `NewIndexed(element, index, err)` on values, as `New`;
`Heap.NewIndexed` keeps the pointers. -/
def NewIndexed (element : String) (index : Int) : GoError → GoError
  | .Error t c p => .Error (t ++ [⟨element, index⟩]) c p
  | .ErrorList es => .ErrorList (NewIndexedEach element index es)
  | err => .Error [⟨element, index⟩] err ""
/-- The loop `for i, e1 := range e.Errors { e.Errors[i] = NewIndexed(element, index, e1) }`
on values, as `NewEach`. -/
def NewIndexedEach (element : String) (index : Int) : List GoError → List GoError
  | [] => []
  | e1 :: rest => NewIndexed element index e1 :: NewIndexedEach element index rest
end

/-- The function `listFormatFunc`, applied to the already formatted entries (`%s` of
each error). -/
def listFormatFunc (es : List String) : String :=
  match es with
  | [e] => "1 error occurred:\n\t* " ++ e ++ "\n\n"
  | _ => toString es.length ++ " errors occurred:\n\t"
          ++ strings.Join (es.map (fun e => "* " ++ e)) "\n\t" ++ "\n\n"

mutual
/-- Text that `fmt` prints for an error value: `nilText` for the nil interface
(`<nil>` under `%v`, `%!s(<nil>)` under `%s`), the result of the method `Error()`
otherwise. -/
def format (nilText : String) : GoError → String
  | .nil => nilText
  | .errorString s => s
  | .MissingFieldError name => "required field '" ++ name ++ "' is not set"
  | .ParseFieldError ctx rid name req =>
      ctx ++ "#" ++ toString rid ++ ": error parsing "
        ++ (if req then "required" else "optional") ++ " attribute '" ++ name ++ "'"
  | .Error target err path =>
      let levels := path :: (target.map Level.String).reverse
      let levels := if path = "" then levels.drop 1 else levels
      strings.Join levels "@" ++ ": " ++ format "<nil>" err
  | .ErrorList es => listFormatFunc (formatEach es)
/-- The verb `%s` applied to each entry of a list. -/
def formatEach : List GoError → List String
  | [] => []
  | e :: rest => format "%!s(<nil>)" e :: formatEach rest
end

/-- The method `Error()` of a non-nil error value. -/
def GoError.ErrorText (e : GoError) : String := format "" e

/-- The verb `%v` applied to an error value. -/
def fmtV (e : GoError) : String := format "<nil>" e

mutual
/-- One iteration of the loop of `(*ErrorList).Append`: `acc` is `e.Errors`. -/
def AppendOne (acc : List GoError) : GoError → List GoError
  | .nil => acc
  | .ErrorList es => Append acc es
  | err => acc ++ [err]
/-- The method `(*ErrorList).Append(errs...)`: `acc` is `e.Errors` before the call, the
result is `e.Errors` after it. -/
def Append (acc : List GoError) : List GoError → List GoError
  | [] => acc
  | err :: rest => Append (AppendOne acc err) rest
end

/-- Whether an error value is an `*ErrorList`. -/
def GoError.isList : GoError → Bool
  | .ErrorList _ => true
  | _ => false

mutual
/-- The non-nil leaves of an error value, in order: an `ErrorList` stands for the leaves
of its elements, nil for nothing, any other error for itself. -/
def leaves : GoError → List GoError
  | .nil => []
  | .ErrorList es => leavesAll es
  | err => [err]
/-- The leaves of a sequence of error values, concatenated in order. -/
def leavesAll : List GoError → List GoError
  | [] => []
  | err :: rest => leaves err ++ leavesAll rest
end

/-- One re-wrap of an error: a call of `New`, `NewIndexed` or `NewPath`. -/
inductive Wrap where
  | new (element : String) : Wrap
  | indexed (element : String) (index : Int) : Wrap
  | path (element : String) (path : String) : Wrap

/-- The re-wrap applied to an error. -/
def Wrap.apply : Wrap → GoError → GoError
  | .new el, e => New el e
  | .indexed el i, e => NewIndexed el i e
  | .path el p, e => NewPath el p e

/-- The frame that a re-wrap pushes. -/
def Wrap.frame : Wrap → Level
  | .new el => ⟨el, -1⟩
  | .indexed el i => ⟨el, i⟩
  | .path el _ => ⟨el, -1⟩

/-- A sequence of re-wraps applied in order, the first of the list first. -/
def applyWraps : List Wrap → GoError → GoError
  | [], e => e
  | w :: ws, e => applyWraps ws (w.apply e)

/-- The path an `Error` carries after a sequence of re-wraps: the argument of the last
`NewPath` of the sequence, the initial path `p` when there is none. -/
def lastPath : List Wrap → String → String
  | [], p => p
  | .path _ q :: ws, _ => lastPath ws q
  | _ :: ws, p => lastPath ws p

/-- Every `NewPath` of the sequence is given a non-empty path. -/
def pathsNonEmpty : List Wrap → Prop
  | [] => True
  | .path _ q :: ws => q ≠ "" ∧ pathsNonEmpty ws
  | _ :: ws => pathsNonEmpty ws

/-! ### The pointer model of `New`, `NewPath` and `NewIndexed`

The three functions update an `*Error` and the slice of an `*ErrorList` in place. The
value model above describes them when no `*Error` and no `*ErrorList` is reached twice;
the model below keeps the pointers. -/

/-- A Go `error` interface value with the identity of its pointers: an `*Error` and an
`*ErrorList` are addresses into a `Heap`, the other values are as in `GoError`. -/
inductive Ref where
  | nil : Ref
  | errorString (s : String) : Ref
  | MissingFieldError (Name : String) : Ref
  | ParseFieldError (Context : String) (ResourceID : Nat) (Name : String) (Required : Bool) : Ref
  | Error (addr : Nat) : Ref
  | ErrorList (addr : Nat) : Ref
deriving DecidableEq

/-- The struct `Error` as an object of the heap: the field `Err` is an interface
value. -/
structure ErrorObj where
  Target : List Level
  Err : Ref
  Path : String
deriving DecidableEq

/-- The heap: the `Error` objects and the `Errors` slices of the `ErrorList` objects,
each found by its address. Every `ErrorList` has a backing array of its own. -/
structure Heap where
  errors : List ErrorObj
  lists : List (List Ref)
deriving DecidableEq

/-- The assignment `e.Errors[i] = r` for the `ErrorList` at address `a`. -/
def Heap.setEntry (h : Heap) (a i : Nat) (r : Ref) : Heap :=
  match h.lists[a]? with
  | some es => { errors := h.errors, lists := h.lists.set a (es.set i r) }
  | none => h

/-- The loop `for i, e1 := range e.Errors { e.Errors[i] = f(e1) }` for the `ErrorList` at
address `a`, over the indices still to visit: `e1` is read from the heap when its
iteration starts, `f` is the recursive call, which updates the heap. -/
def Heap.wrapEach (f : Heap → Ref → Option (Heap × Ref)) (a : Nat) :
    List Nat → Heap → Option Heap
  | [], h => some h
  | i :: rest, h =>
      match (h.lists[a]?).bind (fun es => es[i]?) with
      | none => none
      | some e1 =>
          match f h e1 with
          | none => none
          | some (h1, r) => Heap.wrapEach f a rest (h1.setEntry a i r)

/-- The common body of `New`, `NewPath` and `NewIndexed`, which differ in the frame they
push and in the path they set (`NewPath` only). An `*Error` gets the path and the frame
in place and is returned; the entries of an `*ErrorList` are replaced in place by their
wraps and the list is returned; any other value is wrapped in a new `Error`, allocated at
the end of the heap. The result is `none` when the fuel runs out, as for a list that
contains itself, on which the code does not return, and for an address that is not
allocated. -/
def Heap.wrap (frame : Level) (path : Option String) :
    Nat → Heap → Ref → Option (Heap × Ref)
  | 0, _, _ => none
  | _ + 1, h, .Error b =>
      match h.errors[b]? with
      | none => none
      | some e =>
          some ({ errors := h.errors.set b
                    { Target := e.Target ++ [frame], Err := e.Err, Path := path.getD e.Path },
                  lists := h.lists },
                .Error b)
  | fuel + 1, h, .ErrorList a =>
      match h.lists[a]? with
      | none => none
      | some es =>
          (Heap.wrapEach (fun h1 e1 => Heap.wrap frame path fuel h1 e1) a
            (List.range es.length) h).map (fun h2 => (h2, .ErrorList a))
  | _ + 1, h, err =>
      some ({ errors := h.errors ++ [{ Target := [frame], Err := err, Path := path.getD "" }],
              lists := h.lists },
            .Error h.errors.length)

/-- The function `New(element, err)` on the heap. -/
def Heap.New (fuel : Nat) (h : Heap) (element : String) (err : Ref) : Option (Heap × Ref) :=
  Heap.wrap ⟨element, -1⟩ none fuel h err

/-- The function `NewPath(element, path, err)` on the heap. -/
def Heap.NewPath (fuel : Nat) (h : Heap) (element : String) (path : String) (err : Ref) :
    Option (Heap × Ref) :=
  Heap.wrap ⟨element, -1⟩ (some path) fuel h err

/-- The function `NewIndexed(element, index, err)` on the heap. -/
def Heap.NewIndexed (fuel : Nat) (h : Heap) (element : String) (index : Int) (err : Ref) :
    Option (Heap × Ref) :=
  Heap.wrap ⟨element, index⟩ none fuel h err

/-- The value of a reference that is not a pointer. -/
def Ref.leaf? : Ref → Option GoError
  | .nil => some .nil
  | .errorString s => some (.errorString s)
  | .MissingFieldError n => some (.MissingFieldError n)
  | .ParseFieldError c r n q => some (.ParseFieldError c r n q)
  | .Error _ => none
  | .ErrorList _ => none

/-- The values of the entries of a list, each read by `f`: `none` when one of them has
none. -/
def Heap.readEach (f : Ref → Option GoError) : List Ref → Option (List GoError)
  | [] => some []
  | r :: rest =>
      match f r with
      | none => none
      | some v =>
          match Heap.readEach f rest with
          | none => none
          | some vs => some (v :: vs)

/-- The value that a reference denotes in a heap, in the value model `GoError`: `none`
when the fuel runs out or an address is not allocated. -/
def Heap.read : Nat → Heap → Ref → Option GoError
  | 0, _, _ => none
  | fuel + 1, h, .Error b =>
      match h.errors[b]? with
      | none => none
      | some e => (Heap.read fuel h e.Err).map (fun c => GoError.Error e.Target c e.Path)
  | fuel + 1, h, .ErrorList a =>
      match h.lists[a]? with
      | none => none
      | some es => (Heap.readEach (fun r => Heap.read fuel h r) es).map GoError.ErrorList
  | _ + 1, _, r => r.leaf?

/-- The `Error` object that a reference points to. -/
def Heap.deref (h : Heap) : Ref → Option ErrorObj
  | .Error b => h.errors[b]?
  | _ => none

/-- The `Error` object that one wrap of `r` in the heap `h` yields. -/
def Heap.wrapped (frame : Level) (path : Option String) (h : Heap) (r : Ref) :
    Option ErrorObj :=
  match Heap.wrap frame path 1 h r with
  | some (h1, r1) => h1.deref r1
  | none => none

/-- Modelled from the spec: the wrap `f` of the list at address `a`, whose entries are
`es`, is element-wise. It returns the same list, of the same length, whose `k`-th entry
points to the object that `f` alone yields on the original `k`-th entry, and the value of
the new entry is the value-model wrap `g` of the value of the original one; an entry
that was a pointer is the same pointer, and no two entries are the same pointer. The
value of the list after the wrap is the value-model wrap of its value before. -/
def elementWise (f : Nat → Heap → Ref → Option (Heap × Ref)) (g : GoError → GoError)
    (fuel : Nat) (h : Heap) (a : Nat) (es : List Ref) : Prop :=
  ∃ (h2 : Heap) (es2 : List Ref), f (fuel + 2) h (.ErrorList a) = some (h2, .ErrorList a)
    ∧ h2.lists[a]? = some es2 ∧ es2.length = es.length
    ∧ (∀ (k : Nat) (r : Ref), es[k]? = some r →
        ∃ (h1 : Heap) (r1 r2 : Ref) (obj : ErrorObj), f 1 h r = some (h1, r1) ∧ h1.deref r1 = some obj
          ∧ es2[k]? = some r2 ∧ h2.deref r2 = some obj
          ∧ (∀ b, r = .Error b → r2 = .Error b)
          ∧ (∃ v : GoError, h.read 2 r = some v ∧ h2.read 2 r2 = some (g v)))
    ∧ (∀ (k1 k2 : Nat) (r2 : Ref), es2[k1]? = some r2 → es2[k2]? = some r2 → k1 = k2)
    ∧ (∃ vs : List GoError, h.read 3 (.ErrorList a) = some (.ErrorList vs)
        ∧ h2.read 3 (.ErrorList a) = some (g (.ErrorList vs)))

/-- A heap with one `Error`, of frame `A` and cause `e`, and one `ErrorList` whose two
entries are that same `*Error`. -/
def sharedHeap : Heap :=
  { errors := [{ Target := [⟨"A", -1⟩], Err := .errorString "e", Path := "" }],
    lists := [[.Error 0, .Error 0]] }

/-- A heap with two `Error` objects and an `ErrorList` of four entries: the two
pointers, a sentinel and a nil. -/
def flatHeap : Heap :=
  { errors := [{ Target := [⟨"A", -1⟩], Err := .errorString "e", Path := "" },
               { Target := [⟨"C", 2⟩], Err := .MissingFieldError "id", Path := "/3d/1.model" }],
    lists := [[.Error 0, .errorString "s", .Error 1, .nil]] }

end specerr


/-! ## The Go type `float32` -/

/-- A value of the Go type `float32`: not-a-number, an infinity, or a finite value, which
is held as the rational number it denotes (the two zeros are one value). Every finite
`float32` is such a rational; the comparisons below are exact on them. -/
inductive float32 where
  | NaN : float32
  | NegInf : float32
  | finite (q : ℚ) : float32
  | PosInf : float32
deriving DecidableEq

namespace float32

/-- The Go comparison `x <= y` of two `float32` values: false when an operand is
not-a-number. -/
def le : float32 → float32 → Bool
  | NaN, _ => false
  | _, NaN => false
  | NegInf, _ => true
  | _, PosInf => true
  | finite a, finite b => decide (a ≤ b)
  | _, _ => false

/-- The Go comparison `x < y` of two `float32` values: false when an operand is
not-a-number. -/
def lt : float32 → float32 → Bool
  | NaN, _ => false
  | _, NaN => false
  | PosInf, _ => false
  | _, NegInf => false
  | finite a, finite b => decide (a < b)
  | _, _ => true

/-- The Go comparison `x <= y`. -/
instance : LE float32 := ⟨fun a b => le a b = true⟩
/-- The Go comparison `x < y`. -/
instance : LT float32 := ⟨fun a b => lt a b = true⟩
/-- The comparison `x <= y` is decidable. -/
instance (a b : float32) : Decidable (a ≤ b) := inferInstanceAs (Decidable (le a b = true))
/-- The comparison `x < y` is decidable. -/
instance (a b : float32) : Decidable (a < b) := inferInstanceAs (Decidable (lt a b = true))
/-- A natural number literal as a `float32` value; the literals used are exact. -/
instance (n : Nat) : OfNat float32 n := ⟨finite (n : ℚ)⟩

/-- The largest finite `float32`, `math.MaxFloat32`: `(2^24 - 1) * 2^104`. -/
def Max : ℚ := 340282346638528859811704183484516925440

/-- Rounding of a rational to the nearest integer, ties to the even one. -/
def roundEven (s : ℚ) : Int :=
  if s - Int.floor s < 1 / 2 then Int.floor s
  else if 1 / 2 < s - Int.floor s then Int.floor s + 1
  else if Int.floor s % 2 = 0 then Int.floor s else Int.floor s + 1

/-- The `float32` nearest to the rational `q`, as the arithmetic of `float32` rounds an
exact result: 24 significant bits, ties to even, the least exponent -126 (below it the
values are the multiples of `2^-149`), an infinity when the rounded value exceeds
`MaxFloat32`. -/
def ofRat (q : ℚ) : float32 :=
  if q = 0 then finite 0
  else
    let e : Int := max (Int.log 2 |q|) (-126)
    let r : ℚ := roundEven (q / (2 : ℚ) ^ (e - 23)) * (2 : ℚ) ^ (e - 23)
    if Max < |r| then (if 0 < q then PosInf else NegInf) else finite r

/-- The quotient `x / y` of two `float32` values for a finite divisor `y > 0`, given as
the rational it denotes: the exact quotient, rounded; NaN and the infinities are kept. -/
def divPos (x : float32) (y : ℚ) : float32 :=
  match x with
  | finite a => ofRat (a / y)
  | NaN => NaN
  | NegInf => NegInf
  | PosInf => PosInf

/-- The conversion `int32(math.Floor(float64(x)))`: the conversion to `float64` and the
floor are exact, and the conversion to `int32` gives the floor when it is in the range
of `int32`. Outside that range, and for NaN and the infinities, the result depends on
the implementation; the value here is that of amd64, the least `int32`. -/
def floorInt32 : float32 → Int
  | finite q =>
      if -2147483648 ≤ Int.floor q ∧ Int.floor q ≤ 2147483647 then Int.floor q
      else -2147483648
  | _ => -2147483648

/-- The comparison `x < y` is transitive. -/
instance : IsTrans float32 (fun a b => a < b) :=
  ⟨fun a b c => by
    show lt a b = true → lt b c = true → lt a c = true
    cases a <;> cases b <;> cases c <;> simp [lt]
    exact fun h1 h2 => lt_trans h1 h2⟩

end float32

/-! ## Package `slices`: data model (`slices.go`) -/

namespace slices

/-- The constant `Namespace`. -/
def Namespace : String := "http://schemas.microsoft.com/3dmanufacturing/slice/2015/07"

/-- The struct `Segment`. -/
structure Segment where
  V2 : Nat
  PID : Nat
  P1 : Nat
  P2 : Nat

/-- The struct `Polygon`. -/
structure Polygon where
  StartV : Nat
  Segments : List Segment

/-- The struct `Slice`; a vertex is a `Point2D`, a pair of coordinates. -/
structure Slice where
  TopZ : float32
  Vertices : List (float32 × float32)
  Polygons : List Polygon

/-- The type `MeshResolution`. -/
inductive MeshResolution where
  | ResolutionFull : MeshResolution
  | ResolutionLow : MeshResolution
deriving DecidableEq

/-- The struct `SliceRef`. -/
structure SliceRef where
  SliceStackID : Nat
  Path : String

/-- The struct `SliceStack`. -/
structure SliceStack where
  ID : Nat
  BottomZ : float32
  Slices : List Slice
  Refs : List SliceRef

/-- The struct `SliceStackInfo`; `validate.go` reads the resolution field under the name
`SliceResolution`. -/
structure SliceStackInfo where
  SliceStackID : Nat
  MeshResolution : MeshResolution

/-- The constant `attrSliceRefID`. -/
def attrSliceRefID : String := "slicestackid"
/-- The constant `attrSlicePath`. -/
def attrSlicePath : String := "slicepath"
/-- The constant `attrZTop`. -/
def attrZTop : String := "ztop"

end slices

/-! ## Package `encoding/xml` of the standard library: names, attributes, start elements -/

namespace xml

/-- The struct `xml.Name`: a namespace identifier `Space` and a local name `Local`. -/
structure Name where
  Space : String
  Local : String
deriving DecidableEq

/-- The struct `xml.Attr`: an attribute of a start element. -/
structure Attr where
  Name : Name
  Value : String
deriving DecidableEq

/-- The struct `xml.StartElement`. -/
structure StartElement where
  Name : Name
  Attr : List Attr
deriving DecidableEq

end xml

/-! ## Package `go3mf`: matrices (`math.go`) and the resource graph -/

namespace go3mf

/-- The type `Matrix`, a 4x4 matrix in row major order: sixteen entries. -/
abbrev Matrix := Fin 16 → ℚ

/-- The function `Identity`. -/
def Identity : Matrix := ![1, 0, 0, 0, 0, 1, 0, 0, 0, 0, 1, 0, 0, 0, 0, 1]

/-- Modelled from the spec: the object type enum of the core package, which is not
among the sources: `{Model, SolidSupport, Support, Surface, Other}`. -/
inductive ObjectType where
  | ObjectTypeModel : ObjectType
  | ObjectTypeSolidSupport : ObjectType
  | ObjectTypeSupport : ObjectType
  | ObjectTypeSurface : ObjectType
  | ObjectTypeOther : ObjectType
deriving DecidableEq

/-- Modelled from the spec: a `Component`, "a reference to another Object, with
placement: target (path, object-id), optional affine Transform". `Path` is the explicit
target path, empty when the component has none. -/
structure Component where
  ObjectID : Nat
  Path : String
  Transform : Option Matrix

/-- Modelled from the spec: a build `Item`, "a top-level placement instruction: target
(path, object-id), optional affine Transform". -/
structure Item where
  ObjectID : Nat
  Path : String
  Transform : Option Matrix

/-- Modelled from the spec: an `Object` of the core package, with the fields the slice
validator reads and the default property `DefaultPID`, `DefaultPIndex` that the encoder
reads; the two are zero, the Go zero value, when they are not given. -/
structure Object where
  ID : Nat
  ObjectType : ObjectType
  Components : List Component
  DefaultPID : Nat := 0
  DefaultPIndex : Nat := 0

/-- Modelled from the spec: an `Asset`, "any addressable asset" of a part other than an
object; a slice stack or a resource of another kind. -/
inductive Asset where
  | SliceStack (s : slices.SliceStack) : Asset
  | Other (id : Nat) : Asset

/-- The method `Identify` of an asset. -/
def Asset.Identify : Asset → Nat
  | .SliceStack s => s.ID
  | .Other id => id

/-- Modelled from the spec: the `Resources` table of one part. -/
structure Resources where
  Assets : List Asset
  Objects : List Object

/-- Modelled from the spec: the `Build` section, a list of items. -/
structure Build where
  Items : List Item

/-- Modelled from the spec: the document graph, "Parts keyed by path, each with a
Resources table keyed by id, and a Build item list", with the "declared namespaces and
the set of required-extension URIs". `Units` is the text that `m.Units.String()`
returns; `Language` and `Thumbnail` are the fields of that name that the encoder reads.
The fields that only the encoder reads are empty, the Go zero value, when they are not
given. -/
structure Model where
  Parts : List (String × Resources)
  Build : Build
  RequiredExtensions : List String
  Units : String := ""
  Language : String := ""
  Thumbnail : String := ""
  Namespaces : List xml.Name := []

/-- Modelled from the spec: `Component.ObjectPath(defaultPath)`, "a Component with no
explicit path targets its own owning Part": the explicit path when there is one, the
default path otherwise. -/
def Component.ObjectPath (c : Component) (defaultPath : String) : String :=
  if c.Path = "" then defaultPath else c.Path

/-- Modelled from the spec: `Item.ObjectPath(defaultPath)`, as for a component. -/
def Item.ObjectPath (item : Item) (defaultPath : String) : String :=
  if item.Path = "" then defaultPath else item.Path

/-- Modelled from the spec: `Component.HasTransform()`, whether the optional transform
is present. -/
def Component.HasTransform (c : Component) : Bool := c.Transform.isSome

/-- Modelled from the spec: `Item.HasTransform()`, whether the optional transform is
present. -/
def Item.HasTransform (item : Item) : Bool := item.Transform.isSome

/-- Modelled from the spec: `Model.FindResources(path)`, "given a Part path, return its
Resources table (or not found)". -/
def Model.FindResources (m : Model) (path : String) : Option Resources :=
  (m.Parts.find? (fun part => part.1 = path)).map (fun part => part.2)

/-- Modelled from the spec: `Resources.FindObject(id)`, the object of the table with that
id. -/
def Resources.FindObject (rs : Resources) (id : Nat) : Option Object :=
  rs.Objects.find? (fun o => o.ID = id)

/-- Modelled from the spec: `Resources.FindAsset(id)`, the asset of the table with that
id. -/
def Resources.FindAsset (rs : Resources) (id : Nat) : Option Asset :=
  rs.Assets.find? (fun a => a.Identify = id)

/-- Modelled from the spec: `Model.FindObject(path, id)`, "given a Part path and an
object id, return the Object (or not found)". -/
def Model.FindObject (m : Model) (path : String) (id : Nat) : Option Object :=
  (m.FindResources path).bind (fun rs => rs.FindObject id)

/-- Modelled from the spec: `Model.FindAsset(path, id)`, "given a Part path and a
resource id, return the typed Resource (or not found)". -/
def Model.FindAsset (m : Model) (path : String) (id : Nat) : Option Asset :=
  (m.FindResources path).bind (fun rs => rs.FindAsset id)

/-- The element handed to an extension validator: `e interface{}`, an `*Object` or a
value of another type. -/
inductive Element where
  | Object (o : Object) : Element
  | Other : Element

end go3mf

namespace specerr

mutual
/-- Modelled from the spec: the four-argument `NewIndexed(path, element, index, err)`
that `validate.go` calls, while `errors.go` holds the three-argument form: "each error is
wrapped with a breadcrumb frame for the element and its index, and with the owning
Part path". It is `NewIndexed` that also attaches the path, as `NewPath` does. -/
def NewIndexedAt (path : String) (element : String) (index : Int) : GoError → GoError
  | .Error t c _ => .Error (t ++ [⟨element, index⟩]) c path
  | .ErrorList es => .ErrorList (NewIndexedAtEach path element index es)
  | err => .Error [⟨element, index⟩] err path
/-- The four-argument wrap applied to every element of a list. -/
def NewIndexedAtEach (path : String) (element : String) (index : Int) :
    List GoError → List GoError
  | [] => []
  | e1 :: rest => NewIndexedAt path element index e1 :: NewIndexedAtEach path element index rest
end

mutual
/-- Decidable equality of error values. -/
def GoError.decEq : (x y : GoError) → Decidable (x = y)
  | .nil, .nil => isTrue rfl
  | .errorString a, .errorString b =>
      if h : a = b then isTrue (by rw [h]) else isFalse (by intro h1; cases h1; exact h rfl)
  | .MissingFieldError a, .MissingFieldError b =>
      if h : a = b then isTrue (by rw [h]) else isFalse (by intro h1; cases h1; exact h rfl)
  | .ParseFieldError c r n q, .ParseFieldError c2 r2 n2 q2 =>
      if h : c = c2 ∧ r = r2 ∧ n = n2 ∧ q = q2 then isTrue (by rw [h.1, h.2.1, h.2.2.1, h.2.2.2])
      else isFalse (by intro h1; cases h1; exact h ⟨rfl, rfl, rfl, rfl⟩)
  | .Error t e p, .Error t2 e2 p2 =>
      match GoError.decEq e e2 with
      | isTrue he =>
          if h : t = t2 ∧ p = p2 then isTrue (by rw [he, h.1, h.2])
          else isFalse (by intro h1; cases h1; exact h ⟨rfl, rfl⟩)
      | isFalse he => isFalse (by intro h1; cases h1; exact he rfl)
  | .ErrorList es, .ErrorList es2 =>
      match GoError.decEqList es es2 with
      | isTrue h => isTrue (by rw [h])
      | isFalse h => isFalse (by intro h1; cases h1; exact h rfl)
  | .nil, .errorString _ => isFalse (by intro h; cases h)
  | .nil, .MissingFieldError _ => isFalse (by intro h; cases h)
  | .nil, .ParseFieldError _ _ _ _ => isFalse (by intro h; cases h)
  | .nil, .Error _ _ _ => isFalse (by intro h; cases h)
  | .nil, .ErrorList _ => isFalse (by intro h; cases h)
  | .errorString _, .nil => isFalse (by intro h; cases h)
  | .errorString _, .MissingFieldError _ => isFalse (by intro h; cases h)
  | .errorString _, .ParseFieldError _ _ _ _ => isFalse (by intro h; cases h)
  | .errorString _, .Error _ _ _ => isFalse (by intro h; cases h)
  | .errorString _, .ErrorList _ => isFalse (by intro h; cases h)
  | .MissingFieldError _, .nil => isFalse (by intro h; cases h)
  | .MissingFieldError _, .errorString _ => isFalse (by intro h; cases h)
  | .MissingFieldError _, .ParseFieldError _ _ _ _ => isFalse (by intro h; cases h)
  | .MissingFieldError _, .Error _ _ _ => isFalse (by intro h; cases h)
  | .MissingFieldError _, .ErrorList _ => isFalse (by intro h; cases h)
  | .ParseFieldError _ _ _ _, .nil => isFalse (by intro h; cases h)
  | .ParseFieldError _ _ _ _, .errorString _ => isFalse (by intro h; cases h)
  | .ParseFieldError _ _ _ _, .MissingFieldError _ => isFalse (by intro h; cases h)
  | .ParseFieldError _ _ _ _, .Error _ _ _ => isFalse (by intro h; cases h)
  | .ParseFieldError _ _ _ _, .ErrorList _ => isFalse (by intro h; cases h)
  | .Error _ _ _, .nil => isFalse (by intro h; cases h)
  | .Error _ _ _, .errorString _ => isFalse (by intro h; cases h)
  | .Error _ _ _, .MissingFieldError _ => isFalse (by intro h; cases h)
  | .Error _ _ _, .ParseFieldError _ _ _ _ => isFalse (by intro h; cases h)
  | .Error _ _ _, .ErrorList _ => isFalse (by intro h; cases h)
  | .ErrorList _, .nil => isFalse (by intro h; cases h)
  | .ErrorList _, .errorString _ => isFalse (by intro h; cases h)
  | .ErrorList _, .MissingFieldError _ => isFalse (by intro h; cases h)
  | .ErrorList _, .ParseFieldError _ _ _ _ => isFalse (by intro h; cases h)
  | .ErrorList _, .Error _ _ _ => isFalse (by intro h; cases h)
/-- Decidable equality of lists of error values. -/
def GoError.decEqList : (xs ys : List GoError) → Decidable (xs = ys)
  | [], [] => isTrue rfl
  | a :: as, b :: bs =>
      match GoError.decEq a b, GoError.decEqList as bs with
      | isTrue h1, isTrue h2 => isTrue (by rw [h1, h2])
      | isFalse h1, _ => isFalse (by intro h; cases h; exact h1 rfl)
      | _, isFalse h2 => isFalse (by intro h; cases h; exact h2 rfl)
  | [], _ :: _ => isFalse (by intro h; cases h)
  | _ :: _, [] => isFalse (by intro h; cases h)
end

/-- Equality of error values is decidable. -/
instance : DecidableEq GoError := GoError.decEq

/-- The cause at the bottom of an error: the wrapped `Err` of an `Error`, the error
itself otherwise. -/
def GoError.cause : GoError → GoError
  | .Error _ c _ => c
  | err => err

/-- Whether the cause of `e` is the sentinel `target`; the sentinels of the package have
pairwise different messages, so the message identifies the sentinel. -/
def GoError.isSentinel (e : GoError) (target : GoError) : Bool :=
  match target, e.cause with
  | .errorString a, .errorString b => a == b
  | _, _ => false

end specerr

/-! ## Package `slices`: the validator (`validate.go`) -/

namespace slices

open specerr go3mf

/-- Modelled from the spec: the constant `ExtensionName` that `validate.go` compares with
the required extensions and that is not among the sources: the URI of the slice
extension, which `slices.go` calls `Namespace`. -/
def ExtensionName : String := Namespace

/-- The constant `math.MaxFloat32`. -/
def MaxFloat32 : ℚ := 340282346638528859811704183484516925440

/-- The `%T` name of a `*Slice` element. -/
def typeSlice : String := "*slices.Slice"
/-- The `%T` name of a `Polygon` element. -/
def typePolygon : String := "slices.Polygon"
/-- The `%T` name of a `SliceRef` element. -/
def typeSliceRef : String := "slices.SliceRef"

/-- The function `validTransform`. -/
def validTransform (t : Matrix) : Bool :=
  t 2 == 0 && t 6 == 0 && t 8 == 0 && t 9 == 0 && t 10 == 1

/-- The condition `x.HasTransform() && !validTransform(x.Transform)` on the optional
transform of an item or component. -/
def nonPlanar : Option Matrix → Bool
  | none => false
  | some t => !validTransform t

/-- The loop of `validateObjectTransforms` over the components of the object with id
`oID`; `recur` is the recursive call. The result is `none` when a recursive call does not
return. -/
def validateObjectTransforms.loop (m : Model) (path : String) (id : Nat) (oID : Nat)
    (recur : Object → Option Bool) : List Component → Option Bool
  | [] => some true
  | c :: cs =>
      if c.ObjectID = id ∧ c.ObjectPath path = path ∧ nonPlanar c.Transform = true then
        some false
      else if c.ObjectID = oID ∧ c.ObjectPath path = path then
        some true
      else
        match m.FindObject (c.ObjectPath path) c.ObjectID with
        | some o1 =>
            match recur o1 with
            | none => none
            | some false => some false
            | some true => validateObjectTransforms.loop m path id oID recur cs
        | none => validateObjectTransforms.loop m path id oID recur cs

/-- The function `validateObjectTransforms`, with a bound `fuel` on the depth of the
recursion: `none` when the bound is reached, `some b` when the call returns `b`. -/
def validateObjectTransforms (m : Model) (path : String) (id : Nat) : Nat → Object → Option Bool
  | 0, _ => none
  | fuel + 1, o =>
      validateObjectTransforms.loop m path id o.ID (validateObjectTransforms m path id fuel)
        o.Components

/-- The loop of `validateBuildTransforms` over the build items. -/
def validateBuildTransforms.loop (m : Model) (path : String) (id : Nat) (fuel : Nat) :
    List Item → Option Bool
  | [] => some true
  | item :: rest =>
      if item.ObjectID = id ∧ item.ObjectPath path = path ∧ nonPlanar item.Transform = true then
        some false
      else
        match m.FindObject (item.ObjectPath path) item.ObjectID with
        | some o =>
            match validateObjectTransforms m path id fuel o with
            | none => none
            | some false => some false
            | some true => validateBuildTransforms.loop m path id fuel rest
        | none => validateBuildTransforms.loop m path id fuel rest

/-- The function `validateBuildTransforms`; `fuel` bounds the depth of the recursion of
`validateObjectTransforms`. -/
def validateBuildTransforms (m : Model) (path : String) (id : Nat) (fuel : Nat) : Option Bool :=
  validateBuildTransforms.loop m path id fuel m.Build.Items

/-- The function `isSliceStackClosed`. -/
def isSliceStackClosed (r : SliceStack) : Bool :=
  r.Slices.all fun slice =>
    slice.Polygons.all fun p =>
      match p.Segments.getLast? with
      | some last => p.StartV == last.V2
      | none => true

/-- The function `checkAllClosed`. -/
def checkAllClosed (m : Model) (r : SliceStack) : Bool :=
  isSliceStackClosed r &&
    r.Refs.all fun ref =>
      match m.FindAsset ref.Path ref.SliceStackID with
      | some (.SliceStack st) => isSliceStackClosed st
      | _ => true

/-- The method `(*SliceStackInfo).Validate`; `none` when the transform walk does not
return. A lookup in the table of a part that does not exist finds nothing. -/
def SliceStackInfo.Validate (ext : SliceStackInfo) (m : Model) (path : String) (e : Element)
    (fuel : Nat) : Option (List GoError) :=
  match e with
  | .Other => some []
  | .Object obj =>
      let res := m.FindResources path
      let errs : Option (List GoError) :=
        if ext.SliceStackID = 0 then
          some [.MissingFieldError attrSliceRefID]
        else
          match res.bind (fun rs => rs.FindAsset ext.SliceStackID) with
          | some (.SliceStack r) =>
              match validateBuildTransforms m path obj.ID fuel with
              | none => none
              | some ok =>
                  some ((if ok then [] else [ErrSliceInvalidTranform])
                    ++ (if (obj.ObjectType = .ObjectTypeModel ∨ obj.ObjectType = .ObjectTypeSolidSupport)
                          ∧ checkAllClosed m r = false
                        then [ErrSlicePolygonNotClosed] else []))
          | some _ => some [ErrNonSliceStack]
          | none => some [ErrMissingResource]
      let extErrs : List GoError :=
        if ext.MeshResolution = .ResolutionLow ∧ ExtensionName ∉ m.RequiredExtensions then
          [ErrSliceExtRequired]
        else []
      errs.map (fun es => es ++ extErrs)

/-- The list `perrs` of `validateSlices`: the loop over the polygons of one slice, from
polygon number `k` on. -/
def validateSlices.polygons (path : String) : Nat → List Polygon → List GoError
  | _, [] => []
  | k, p :: rest =>
      (if p.Segments.length < 1 then
          [NewIndexedAt path typePolygon k ErrSliceInsufficientSegments]
        else [])
      ++ validateSlices.polygons path (k + 1) rest

/-- The errors that one iteration of the loop of `validateSlices` appends, for slice
number `j` with `lastTopZ` the value left by the previous iteration. -/
def validateSlices.step (path : String) (BottomZ : float32) (lastTopZ : float32) (j : Nat) (slice : Slice) :
    List GoError :=
  (if slice.TopZ = 0 then
      [NewIndexedAt path typeSlice j (.MissingFieldError attrZTop)]
    else if slice.TopZ < BottomZ then
      [NewIndexedAt path typeSlice j ErrSliceSmallTopZ]
    else [])
  ++ (if slice.TopZ ≤ lastTopZ then
      [NewIndexedAt path typeSlice j ErrSliceNoMonotonic]
    else [])
  ++ (if slice.Polygons.length = 0 ∧ slice.Vertices.length = 0 then []
    else
      (if slice.Vertices.length < 2 then
          [NewIndexedAt path typeSlice j ErrSliceInsufficientVertices]
        else [])
      ++ (if slice.Polygons.length = 0 then
          [NewIndexedAt path typeSlice j ErrSliceInsufficientPolygons]
        else [])
      ++ (validateSlices.polygons path 0 slice.Polygons).map (NewIndexedAt path typeSlice j))

/-- The loop of `validateSlices` from slice number `j` on. -/
def validateSlices.loop (path : String) (BottomZ : float32) : Nat → float32 → List Slice → List GoError
  | _, _, [] => []
  | j, lastTopZ, slice :: rest =>
      validateSlices.step path BottomZ lastTopZ j slice
        ++ validateSlices.loop path BottomZ (j + 1) slice.TopZ rest

/-- The method `(*SliceStack).validateSlices`. -/
def SliceStack.validateSlices (r : SliceStack) (_m : Model) (path : String) : List GoError :=
  validateSlices.loop path r.BottomZ 0 (.finite (-MaxFloat32)) r.Slices

/-- The errors that one iteration of the loop of `validateRefs` appends for ref number
`i`, and the value of `lastTopZ` after it. -/
def validateRefs.step (m : Model) (path : String) (lastTopZ : float32) (i : Nat) (ref : SliceRef) :
    List GoError × float32 :=
  let pathErrs : List GoError :=
    if ref.Path = "" then [NewIndexedAt path typeSliceRef i (.MissingFieldError attrSlicePath)]
    else if ref.Path = path then [NewIndexedAt path typeSliceRef i ErrSliceRefSamePart]
    else []
  let idErrs : List GoError :=
    if ref.SliceStackID = 0 then [NewIndexedAt path typeSliceRef i (.MissingFieldError attrSliceRefID)]
    else []
  let valid : Bool := !(ref.Path = "" ∨ ref.Path = path) && !(ref.SliceStackID = 0)
  if valid = false then (pathErrs ++ idErrs, lastTopZ)
  else
    match m.FindAsset ref.Path ref.SliceStackID with
    | some (.SliceStack st) =>
        ((if st.Refs.length ≠ 0 then [NewIndexedAt path typeSliceRef i ErrSliceRefRef] else [])
          ++ (match st.Slices.head? with
              | some first =>
                  if first.TopZ ≤ lastTopZ then [NewIndexedAt path typeSliceRef i ErrSliceNoMonotonic]
                  else []
              | none => []),
         match st.Slices.getLast? with
         | some last => last.TopZ
         | none => lastTopZ)
    | some _ => ([NewIndexedAt path typeSliceRef i ErrNonSliceStack], lastTopZ)
    | none => ([NewIndexedAt path typeSliceRef i ErrMissingResource], lastTopZ)

/-- The loop of `validateRefs` from ref number `i` on. -/
def validateRefs.loop (m : Model) (path : String) : Nat → float32 → List SliceRef → List GoError
  | _, _, [] => []
  | i, lastTopZ, ref :: rest =>
      (validateRefs.step m path lastTopZ i ref).1
        ++ validateRefs.loop m path (i + 1) (validateRefs.step m path lastTopZ i ref).2 rest

/-- The method `(*SliceStack).validateRefs`. -/
def SliceStack.validateRefs (r : SliceStack) (m : Model) (path : String) : List GoError :=
  validateRefs.loop m path 0 (.finite (-MaxFloat32)) r.Refs

/-- The method `(*SliceStack).Validate`. -/
def SliceStack.Validate (r : SliceStack) (m : Model) (path : String) : List GoError :=
  (if (r.Slices.length ≠ 0 ∧ r.Refs.length ≠ 0) ∨ (r.Slices.length = 0 ∧ r.Refs.length = 0) then
      [ErrSlicesAndRefs]
    else [])
  ++ r.validateRefs m path ++ r.validateSlices m path

/-- The objects that the transform walk can reach: the target of a build item, or the
target of a component of a reached object, resolved as the walk resolves them. -/
inductive Reached (m : Model) (path : String) : Object → Prop where
  | item (item : Item) (o : Object) : item ∈ m.Build.Items →
      m.FindObject (item.ObjectPath path) item.ObjectID = some o → Reached m path o
  | component (o : Object) (c : Component) (o1 : Object) : Reached m path o →
      c ∈ o.Components → m.FindObject (c.ObjectPath path) c.ObjectID = some o1 →
      Reached m path o1

/-- An acyclic component graph, certified by a rank that decreases along every component
reference of a reached object. -/
def Acyclic (m : Model) (path : String) (rank : Object → Nat) : Prop :=
  ∀ o c o1, Reached m path o → c ∈ o.Components →
    m.FindObject (c.ObjectPath path) c.ObjectID = some o1 → rank o1 < rank o

/-- No component of a reached object carries the id of its own owner (with the validated
part as its path): the guard `// avoid circular references` never fires. -/
def NoSelfReference (m : Model) (path : String) : Prop :=
  ∀ o c, Reached m path o → c ∈ o.Components → ¬ (c.ObjectID = o.ID ∧ c.ObjectPath path = path)

/-- A bound on the depth of the walk: one more than the largest rank of a build item
target. -/
def walkBound (m : Model) (path : String) (rank : Object → Nat) : List Item → Nat
  | [] => 0
  | item :: rest =>
      match m.FindObject (item.ObjectPath path) item.ObjectID with
      | some o => max (rank o + 1) (walkBound m path rank rest)
      | none => walkBound m path rank rest

/-- A ref that passes the checks made before the lookup: a non-empty path, different
from the path of the validated part, and a non-zero stack id. -/
def SliceRef.wellFormed (ref : SliceRef) (path : String) : Prop :=
  ref.Path ≠ "" ∧ ref.Path ≠ path ∧ ref.SliceStackID ≠ 0

/-- The slice stack that a ref resolves to, if any: the lookup
`m.FindAsset(ref.Path, ref.SliceStackID)` followed by the type assertion. -/
def refStack (m : Model) (ref : SliceRef) : Option SliceStack :=
  match m.FindAsset ref.Path ref.SliceStackID with
  | some (.SliceStack st) => some st
  | _ => none

/-- The `TopZ` values of the slices of the stacks that the refs resolve to, concatenated
in ref order. -/
def refsTopZ (m : Model) : List SliceRef → List float32
  | [] => []
  | ref :: rest =>
      (match refStack m ref with
        | some st => st.Slices.map (fun s => s.TopZ)
        | none => [])
      ++ refsTopZ m rest

/-- A polygon that is not closed: it has a last segment, and the target `V2` of that
segment differs from `StartV`. -/
def Polygon.isOpen (p : Polygon) : Prop :=
  ∃ last, p.Segments.getLast? = some last ∧ p.StartV ≠ last.V2

/-- Some polygon of some slice of the stack is not closed. -/
def SliceStack.hasOpenPolygon (r : SliceStack) : Prop :=
  ∃ slice ∈ r.Slices, ∃ p ∈ slice.Polygons, p.isOpen

/-- The errors that the resolution check at the end of `SliceStackInfo.Validate` appends:
`ErrSliceExtRequired` when the resolution is low and the extension is not required. -/
def SliceStackInfo.extErrors (ext : SliceStackInfo) (m : Model) : List GoError :=
  if ext.MeshResolution = .ResolutionLow ∧ ExtensionName ∉ m.RequiredExtensions then
    [ErrSliceExtRequired]
  else []

/-- The asset that the stack id of the extension data resolves to in the part `path`:
`res.FindAsset(ext.SliceStackID)` for `res, _ := m.FindResources(path)`. -/
def SliceStackInfo.lookup (ext : SliceStackInfo) (m : Model) (path : String) : Option Asset :=
  (m.FindResources path).bind (fun rs => rs.FindAsset ext.SliceStackID)

/-- The value of `lastTopZ` when the loop of `validateSlices` reaches slice number `k`:
the initial value for the first slice, the `TopZ` of slice `k - 1` afterwards. -/
def prevTopZ (init : float32) (ss : List Slice) : Nat → float32
  | 0 => init
  | k + 1 =>
      match ss[k]? with
      | some s => s.TopZ
      | none => init

/-! ### Concrete models -/

/-- The stack of the spec example: `BottomZ = 0` and slices with `TopZ` 1 and 0.5. -/
def stackDecreasing : SliceStack :=
  { ID := 1, BottomZ := 0,
    Slices := [{ TopZ := 1, Vertices := [], Polygons := [] },
               { TopZ := .finite (1 / 2), Vertices := [], Polygons := [] }],
    Refs := [] }

/-- A stack whose only slice has one vertex and one polygon without segments. -/
def stackThin : SliceStack :=
  { ID := 3, BottomZ := 0,
    Slices := [{ TopZ := 1, Vertices := [(0, 0)], Polygons := [{ StartV := 0, Segments := [] }] }],
    Refs := [] }

/-- A stack with one ref that has neither a path nor a stack id. -/
def stackRefNothing : SliceStack :=
  { ID := 4, BottomZ := 0, Slices := [], Refs := [{ SliceStackID := 0, Path := "" }] }

/-- A stack with one ref that has a stack id and no path. -/
def stackRefNoPath : SliceStack :=
  { ID := 5, BottomZ := 0, Slices := [], Refs := [{ SliceStackID := 7, Path := "" }] }

/-- A model with no parts and an empty build. -/
def emptyModel : Model := { Parts := [], Build := { Items := [] }, RequiredExtensions := [] }


/-- The path of the root part of the example models. -/
def rootPath : String := "/3D/3dmodel.model"

/-- A slice stack with one slice and no refs. -/
def stack10 : SliceStack :=
  { ID := 10, BottomZ := 0, Slices := [{ TopZ := 1, Vertices := [], Polygons := [] }], Refs := [] }

/-- Object 1 of the cyclic model: one component that targets object 2. -/
def cycleA : Object :=
  { ID := 1, ObjectType := .ObjectTypeModel,
    Components := [{ ObjectID := 2, Path := "", Transform := none }] }

/-- Object 2 of the cyclic model: one component that targets object 1. -/
def cycleB : Object :=
  { ID := 2, ObjectType := .ObjectTypeModel,
    Components := [{ ObjectID := 1, Path := "", Transform := none }] }

/-- A model whose component graph has the two-hop cycle 1 → 2 → 1; the build places
object 1. -/
def cycleModel : Model :=
  { Parts := [(rootPath, { Assets := [.SliceStack stack10], Objects := [cycleA, cycleB] })],
    Build := { Items := [{ ObjectID := 1, Path := "", Transform := none }] },
    RequiredExtensions := [] }

/-- A transform that is not planar: the identity with the Z scale 2. -/
def scaleZ : Matrix := ![1, 0, 0, 0, 0, 1, 0, 0, 0, 0, 2, 0, 0, 0, 0, 1]

/-- The sliced object 2 of the chain model: no components. -/
def chainO : Object := { ID := 2, ObjectType := .ObjectTypeModel, Components := [] }

/-- Object 1 of the chain model: one component, without transform, that targets the
sliced object 2. -/
def chainA : Object :=
  { ID := 1, ObjectType := .ObjectTypeModel,
    Components := [{ ObjectID := 2, Path := "", Transform := none }] }

/-- An acyclic model: the build item places object 1 with a transform that is not
planar, object 1 has a component that targets the sliced object 2. -/
def chainModel : Model :=
  { Parts := [(rootPath, { Assets := [.SliceStack stack10], Objects := [chainA, chainO] })],
    Build := { Items := [{ ObjectID := 1, Path := "", Transform := some scaleZ }] },
    RequiredExtensions := [] }

/-- The rank of the objects of the chain model. -/
def chainRank (o : Object) : Nat := if o.ID = 1 then 1 else 0

/-- Object 1 of the direct model: one component, with a transform that is not planar,
that targets the sliced object 2. -/
def directA : Object :=
  { ID := 1, ObjectType := .ObjectTypeModel,
    Components := [{ ObjectID := 2, Path := "", Transform := some scaleZ }] }

/-- An acyclic model in which the component that targets the sliced object 2 itself has
a transform that is not planar. -/
def directModel : Model :=
  { Parts := [(rootPath, { Assets := [.SliceStack stack10], Objects := [directA, chainO] })],
    Build := { Items := [{ ObjectID := 1, Path := "", Transform := none }] },
    RequiredExtensions := [] }

/-- The path of a second part of the example models. -/
def otherPath : String := "/3D/other.model"

/-- A stack of the second part that has a ref of its own. -/
def stack30 : SliceStack :=
  { ID := 30, BottomZ := 0, Slices := [], Refs := [{ SliceStackID := 40, Path := rootPath }] }

/-- A stack of the root part with a ref to stack 30 of the second part. -/
def stack20 : SliceStack :=
  { ID := 20, BottomZ := 0, Slices := [], Refs := [{ SliceStackID := 30, Path := otherPath }] }

/-- A stack of the root part whose ref targets stack 20 of the same part. -/
def stack21 : SliceStack :=
  { ID := 21, BottomZ := 0, Slices := [], Refs := [{ SliceStackID := 20, Path := rootPath }] }

/-- A model with two parts: the root part holds stacks 20 and 21, the second part holds
stack 30. -/
def refModel : Model :=
  { Parts := [(rootPath, { Assets := [.SliceStack stack20, .SliceStack stack21], Objects := [] }),
              (otherPath, { Assets := [.SliceStack stack30], Objects := [] })],
    Build := { Items := [] },
    RequiredExtensions := [] }

/-- A stack of the second part with slices at `TopZ` 1 and 2. -/
def stack31 : SliceStack :=
  { ID := 31, BottomZ := 0,
    Slices := [{ TopZ := 1, Vertices := [], Polygons := [] },
               { TopZ := 2, Vertices := [], Polygons := [] }],
    Refs := [] }

/-- A stack of the second part with one slice at `TopZ` 3. -/
def stack32 : SliceStack :=
  { ID := 32, BottomZ := 0, Slices := [{ TopZ := 3, Vertices := [], Polygons := [] }], Refs := [] }

/-- A stack of the root part with refs to stacks 31 and 32 of the second part. -/
def stack33 : SliceStack :=
  { ID := 33, BottomZ := 0, Slices := [],
    Refs := [{ SliceStackID := 31, Path := otherPath }, { SliceStackID := 32, Path := otherPath }] }

/-- A model whose second part holds stacks 31 and 32 and whose root part holds stack 33. -/
def chainRefModel : Model :=
  { Parts := [(rootPath, { Assets := [.SliceStack stack33], Objects := [] }),
              (otherPath, { Assets := [.SliceStack stack31, .SliceStack stack32], Objects := [] })],
    Build := { Items := [] },
    RequiredExtensions := [] }

/-- A stack whose second slice has a `TopZ` that is not a number: `BottomZ = 0` and
slices with `TopZ` 1, NaN and 0.5. -/
def stackNaN : SliceStack :=
  { ID := 7, BottomZ := 0,
    Slices := [{ TopZ := 1, Vertices := [], Polygons := [] },
               { TopZ := .NaN, Vertices := [], Polygons := [] },
               { TopZ := .finite (1 / 2), Vertices := [], Polygons := [] }],
    Refs := [] }

/-- A stack of the second part with slices at `TopZ` 1 and NaN. -/
def stack41 : SliceStack :=
  { ID := 41, BottomZ := 0,
    Slices := [{ TopZ := 1, Vertices := [], Polygons := [] },
               { TopZ := .NaN, Vertices := [], Polygons := [] }],
    Refs := [] }

/-- A stack of the second part with one slice at `TopZ` 0.5. -/
def stack42 : SliceStack :=
  { ID := 42, BottomZ := 0,
    Slices := [{ TopZ := .finite (1 / 2), Vertices := [], Polygons := [] }], Refs := [] }

/-- A stack of the root part with refs to stacks 41 and 42 of the second part. -/
def stack43 : SliceStack :=
  { ID := 43, BottomZ := 0, Slices := [],
    Refs := [{ SliceStackID := 41, Path := otherPath }, { SliceStackID := 42, Path := otherPath }] }

/-- A model whose second part holds stacks 41 and 42 and whose root part holds stack 43. -/
def nanRefModel : Model :=
  { Parts := [(rootPath, { Assets := [.SliceStack stack43], Objects := [] }),
              (otherPath, { Assets := [.SliceStack stack41, .SliceStack stack42], Objects := [] })],
    Build := { Items := [] },
    RequiredExtensions := [] }

/-- A stack of the root part with one slice whose polygon is not closed: it starts at
vertex 0 and its last segment ends at vertex 1. -/
def stack52 : SliceStack :=
  { ID := 52, BottomZ := 0,
    Slices := [{ TopZ := 1, Vertices := [(0, 0), (1, 0)],
                 Polygons := [{ StartV := 0, Segments := [{ V2 := 1, PID := 0, P1 := 0, P2 := 0 }] }] }],
    Refs := [] }

/-- A stack of the second part, without slices, with a ref to stack 52 of the root part. -/
def stack51 : SliceStack :=
  { ID := 51, BottomZ := 0, Slices := [], Refs := [{ SliceStackID := 52, Path := rootPath }] }

/-- A stack of the root part, without slices, with a ref to stack 51 of the second
part: the open polygon of stack 52 is two ref hops away from it. -/
def stack50 : SliceStack :=
  { ID := 50, BottomZ := 0, Slices := [], Refs := [{ SliceStackID := 51, Path := otherPath }] }

/-- An object of type model without components. -/
def solidObject : Object := { ID := 1, ObjectType := .ObjectTypeModel, Components := [] }

/-- A model with an empty build: the root part holds stacks 50 and 52 and a texture-like
asset 60 that is not a slice stack, the second part holds stack 51. -/
def twoHopModel : Model :=
  { Parts := [(rootPath, { Assets := [.SliceStack stack50, .SliceStack stack52, .Other 60],
                           Objects := [solidObject] }),
              (otherPath, { Assets := [.SliceStack stack51], Objects := [] })],
    Build := { Items := [] },
    RequiredExtensions := [] }

/-- Extension data that names stack 50, full resolution. -/
def info50 : SliceStackInfo := { SliceStackID := 50, MeshResolution := .ResolutionFull }

/-- Extension data that names stack 51, full resolution. -/
def info51 : SliceStackInfo := { SliceStackID := 51, MeshResolution := .ResolutionFull }

/-- Extension data that names asset 60, which is not a slice stack, low resolution. -/
def info60 : SliceStackInfo := { SliceStackID := 60, MeshResolution := .ResolutionLow }

/-- Extension data without stack id, low resolution. -/
def info0 : SliceStackInfo := { SliceStackID := 0, MeshResolution := .ResolutionLow }

/-- The slice extension data of the sliced object of the example models. -/
def info10 : SliceStackInfo := { SliceStackID := 10, MeshResolution := .ResolutionFull }

end slices

/-! ## Package `go3mf`: pair index and translation (`math.go`) -/

namespace go3mf

/-- The struct `pairEntry`. -/
structure pairEntry where
  a : Nat
  b : Nat
deriving DecidableEq

/-- The type `pairMatch`, a Go map from `pairEntry` to `uint32`: the value stored under
each key, if any. -/
abbrev pairMatch := pairEntry → Option Nat

/-- The function `newPairEntry`. -/
def newPairEntry (data1 data2 : Nat) : pairEntry :=
  if data1 < data2 then { a := data1, b := data2 } else { a := data2, b := data1 }

/-- The method `pairMatch.AddMatch`: the map after the assignment
`t[newPairEntry(data1, data2)] = param`. -/
def pairMatch.AddMatch (t : pairMatch) (data1 data2 param : Nat) : pairMatch :=
  fun k => if k = newPairEntry data1 data2 then some param else t k

/-- The method `pairMatch.CheckMatch`: the pair `(val, ok)` of the map read
`val, ok = t[newPairEntry(data1, data2)]`, with the zero value when the key is absent. -/
def pairMatch.CheckMatch (t : pairMatch) (data1 data2 : Nat) : Nat × Bool :=
  match t (newPairEntry data1 data2) with
  | some val => (val, true)
  | none => (0, false)

/-- The method `Matrix.Translate`: entries 12, 13 and 14 are increased by `x`, `y`, `z`. -/
def Matrix.Translate (m1 : Matrix) (x y z : ℚ) : Matrix :=
  fun i => if i = 12 then m1 12 + x else if i = 13 then m1 13 + y
    else if i = 14 then m1 14 + z else m1 i

/-- The entry in row `r` and column `c` of a matrix: `m[4*r + c]`. -/
def Matrix.entry (m1 : Matrix) (r c : Fin 4) : ℚ :=
  m1 ⟨4 * r.val + c.val, by omega⟩

end go3mf

/-! ## Package `go3mf`: matrix product and vector index (`math.go`) -/

namespace go3mf

/-- The method `Matrix.Mul`. -/
def Matrix.Mul (m1 m2 : Matrix) : Matrix :=
  ![m1 0*m2 0 + m1 4*m2 1 + m1 8*m2 2 + m1 12*m2 3,
    m1 1*m2 0 + m1 5*m2 1 + m1 9*m2 2 + m1 13*m2 3,
    m1 2*m2 0 + m1 6*m2 1 + m1 10*m2 2 + m1 14*m2 3,
    m1 3*m2 0 + m1 7*m2 1 + m1 11*m2 2 + m1 15*m2 3,
    m1 0*m2 4 + m1 4*m2 5 + m1 8*m2 6 + m1 12*m2 7,
    m1 1*m2 4 + m1 5*m2 5 + m1 9*m2 6 + m1 13*m2 7,
    m1 2*m2 4 + m1 6*m2 5 + m1 10*m2 6 + m1 14*m2 7,
    m1 3*m2 4 + m1 7*m2 5 + m1 11*m2 6 + m1 15*m2 7,
    m1 0*m2 8 + m1 4*m2 9 + m1 8*m2 10 + m1 12*m2 11,
    m1 1*m2 8 + m1 5*m2 9 + m1 9*m2 10 + m1 13*m2 11,
    m1 2*m2 8 + m1 6*m2 9 + m1 10*m2 10 + m1 14*m2 11,
    m1 3*m2 8 + m1 7*m2 9 + m1 11*m2 10 + m1 15*m2 11,
    m1 0*m2 12 + m1 4*m2 13 + m1 8*m2 14 + m1 12*m2 15,
    m1 1*m2 12 + m1 5*m2 13 + m1 9*m2 14 + m1 13*m2 15,
    m1 2*m2 12 + m1 6*m2 13 + m1 10*m2 14 + m1 14*m2 15,
    m1 3*m2 12 + m1 7*m2 13 + m1 11*m2 14 + m1 15*m2 15]

/-- The empty map `pairMatch{}`. -/
def pairMatch.empty : pairMatch := fun _ => none

/-- A sequence of `AddMatch(a, b, v)` calls on a map, the first of the list first. -/
def pairMatch.addAll (t : pairMatch) : List (Nat × Nat × Nat) → pairMatch
  | [] => t
  | (a, b, v) :: rest => pairMatch.addAll (t.AddMatch a b v) rest

/-- The type `Point3D`: three `float32` coordinates. -/
abbrev Point3D := Fin 3 → float32

/-- The method `Point3D.X`. -/
def Point3D.X (v1 : Point3D) : float32 := v1 0
/-- The method `Point3D.Y`. -/
def Point3D.Y (v1 : Point3D) : float32 := v1 1
/-- The method `Point3D.Z`. -/
def Point3D.Z (v1 : Point3D) : float32 := v1 2

/-- The struct `vec3I`. -/
structure vec3I where
  X : Int
  Y : Int
  Z : Int
deriving DecidableEq

/-- The untyped constant `micronsAccuracy`, `1e-6`. -/
def micronsAccuracy : ℚ := 1 / 1000000

/-- The constant `micronsAccuracy` as the `float32` divisor of `newvec3IFromVec3`:
`float32(1e-6)`, which is `8796093 * 2^-43`, a little less than `1e-6`. -/
def micronsAccuracy32 : ℚ := 8796093 / 8796093022208

/-- The function `newvec3IFromVec3`: each coordinate is divided by `micronsAccuracy` in
`float32` arithmetic, floored and converted to `int32`. -/
def newvec3IFromVec3 (vec : Point3D) : vec3I :=
  { X := float32.floorInt32 (float32.divPos (Point3D.X vec) micronsAccuracy32),
    Y := float32.floorInt32 (float32.divPos (Point3D.Y vec) micronsAccuracy32),
    Z := float32.floorInt32 (float32.divPos (Point3D.Z vec) micronsAccuracy32) }

/-- An integer of the `int32` range. -/
def inInt32 (z : Int) : Prop := -2147483648 ≤ z ∧ z ≤ 2147483647

/-- A point whose coordinates are finite and whose three quotients have a floor in the
`int32` range: the conversion to `int32` in `newvec3IFromVec3` is exact on it. -/
def Point3D.inRange (vec : Point3D) : Prop :=
  ∀ i : Fin 3, ∃ r : ℚ, float32.divPos (vec i) micronsAccuracy32 = .finite r
    ∧ inInt32 (Int.floor r)

/-- The type `vectorTree`, a Go map from `vec3I` to `uint32`: the value stored under each
key, if any. -/
abbrev vectorTree := vec3I → Option Nat

/-- The empty map `vectorTree{}`. -/
def vectorTree.empty : vectorTree := fun _ => none

/-- The method `vectorTree.AddVector`: the map after `t[newvec3IFromVec3(vec)] = value`. -/
def vectorTree.AddVector (t : vectorTree) (vec : Point3D) (value : Nat) : vectorTree :=
  fun k => if k = newvec3IFromVec3 vec then some value else t k

/-- The method `vectorTree.FindVector`: the pair `(val, ok)` of the map read, with the
zero value when the key is absent. -/
def vectorTree.FindVector (t : vectorTree) (vec : Point3D) : Nat × Bool :=
  match t (newvec3IFromVec3 vec) with
  | some val => (val, true)
  | none => (0, false)

/-- The method `vectorTree.RemoveVector`: the map after
`delete(t, newvec3IFromVec3(vec))`. -/
def vectorTree.RemoveVector (t : vectorTree) (vec : Point3D) : vectorTree :=
  fun k => if k = newvec3IFromVec3 vec then none else t k

/-- The point at `float32(1e-6) / 2` on the X axis, about half a micron from the
origin. -/
def pointNear : Point3D := ![.finite (micronsAccuracy32 / 2), 0, 0]

/-- The point at `5 * 2^-22` on the X axis, about 1.19 micron from the origin. -/
def pointAbove : Point3D := ![.finite (5 / 4194304), 0, 0]

/-- The point at `2^-20` on the X axis, about 0.95 micron from the origin. -/
def pointBelow : Point3D := ![.finite (1 / 1048576), 0, 0]

/-- The point at `2^-19` on the X axis, about 1.9 micron from the origin. -/
def pointTwoMicron : Point3D := ![.finite (1 / 524288), 0, 0]

/-- The point at `float32(1e-6)` on the X axis, a little less than a micron from the
origin. -/
def pointMicron : Point3D := ![.finite micronsAccuracy32, 0, 0]

/-- The point at 3000 on the X axis: its quotient, 3000000000, is above the range of
`int32`. -/
def pointLarge : Point3D := ![3000, 0, 0]

/-- The point at `17 + 11 * 2^-19`, about 17.000021, on the X axis. -/
def pointFar : Point3D := ![.finite (8912907 / 524288), 0, 0]

/-- The point at `17 + 12 * 2^-19`, about 17.000023, on the X axis: the `float32` next
to that of `pointFar`, about 1.9 micron from it. -/
def pointFarNext : Point3D := ![.finite (8912908 / 524288), 0, 0]

end go3mf

/-! ## Package `errors`: list access -/

namespace specerr

/-- The method `(*ErrorList).Len`, on the field `Errors` of the list. -/
def ErrorList.Len (errors : List GoError) : Nat := errors.length

/-- The method `(*ErrorList).Unwrap`, on the field `Errors` of the list. -/
def ErrorList.Unwrap (errors : List GoError) : GoError :=
  match errors with
  | [] => .nil
  | first :: _ => first

/-- The verb `%s` applied to an error value. -/
def fmtS (e : GoError) : String := format "%!s(<nil>)" e

end specerr

/-! ## Package `beamlattice` -/

namespace beamlattice

/-- Modelled from the spec: a `Beam`, "a lattice edge: two node indices"; the test file
builds it as `Beam{NodeIndices: [2]uint32{n1, n2}}`. -/
structure Beam where
  NodeIndices : Nat × Nat

/-- Modelled from the spec: a `BeamLattice`, the list of its beams. -/
structure BeamLattice where
  Beams : List Beam

/-- Modelled from the spec: the method `(*BeamLattice).checkSanity(nodeCount)`, of which
only the test is among the sources: "for a Beam (n1,n2) and node count N: sanity check
fails iff n1==n2 or n1≥N or n2≥N". -/
def BeamLattice.checkSanity (b : BeamLattice) (nodeCount : Nat) : Bool :=
  b.Beams.all fun beam =>
    !(beam.NodeIndices.1 == beam.NodeIndices.2
      || decide (nodeCount ≤ beam.NodeIndices.1) || decide (nodeCount ≤ beam.NodeIndices.2))

end beamlattice

/-! ## Package `slices`: the blocks of the result of `SliceStack.Validate` -/

namespace slices

open specerr go3mf

/-- The value of `lastTopZ` when the loop of `validateRefs`, started at ref number `i`
with the value `z`, reaches the ref `k` places further. -/
def validateRefs.lastTopZAt (m : Model) (path : String) : Nat → float32 → List SliceRef → Nat → float32
  | _, z, [], _ => z
  | _, z, _ :: _, 0 => z
  | i, z, ref :: rest, k + 1 =>
      validateRefs.lastTopZAt m path (i + 1) (validateRefs.step m path z i ref).2 rest k

/-- The errors that the iteration of `validateRefs` for ref number `i` appends; nothing
when the stack has no such ref. -/
def SliceStack.refErrors (r : SliceStack) (m : Model) (path : String) (i : Nat) : List GoError :=
  match r.Refs[i]? with
  | some ref =>
      (validateRefs.step m path (validateRefs.lastTopZAt m path 0 (.finite (-MaxFloat32)) r.Refs i) i ref).1
  | none => []

/-- The errors that the iteration of `validateSlices` for slice number `j` appends;
nothing when the stack has no such slice. -/
def SliceStack.sliceErrors (r : SliceStack) (path : String) (j : Nat) : List GoError :=
  match r.Slices[j]? with
  | some slice =>
      validateSlices.step path r.BottomZ (prevTopZ (.finite (-MaxFloat32)) r.Slices j) j slice
  | none => []

/-- The stack of the spec example with a first slice that has one vertex and no
polygon: `BottomZ = 0` and slices with `TopZ` 1 and 0.5. -/
def stackThinFirst : SliceStack :=
  { ID := 6, BottomZ := 0,
    Slices := [{ TopZ := 1, Vertices := [(0, 0)], Polygons := [] },
               { TopZ := .finite (1 / 2), Vertices := [], Polygons := [] }],
    Refs := [] }

/-- A stack of the second part with one slice at `TopZ` 5. -/
def stack61 : SliceStack :=
  { ID := 61, BottomZ := 0, Slices := [{ TopZ := 5, Vertices := [], Polygons := [] }], Refs := [] }

/-- A stack of the second part with one slice at `TopZ` 3. -/
def stack62 : SliceStack :=
  { ID := 62, BottomZ := 0, Slices := [{ TopZ := 3, Vertices := [], Polygons := [] }], Refs := [] }

/-- A stack of the root part with refs to stacks 61 and 62 of the second part. -/
def stack63 : SliceStack :=
  { ID := 63, BottomZ := 0, Slices := [],
    Refs := [{ SliceStackID := 61, Path := otherPath }, { SliceStackID := 62, Path := otherPath }] }

/-- The stack 63 with a first ref that names the root part itself: its second ref is
that of stack 63. -/
def stack64 : SliceStack :=
  { ID := 64, BottomZ := 0, Slices := [],
    Refs := [{ SliceStackID := 61, Path := rootPath }, { SliceStackID := 62, Path := otherPath }] }

/-- A model whose second part holds stacks 61 and 62 and whose root part holds stacks 63
and 64. -/
def suppressModel : Model :=
  { Parts := [(rootPath, { Assets := [.SliceStack stack63, .SliceStack stack64], Objects := [] }),
              (otherPath, { Assets := [.SliceStack stack61, .SliceStack stack62], Objects := [] })],
    Build := { Items := [] },
    RequiredExtensions := [] }

/-- Object 1 of the planar model: one component, translated, that targets the sliced
object 2. -/
def planarA : Object :=
  { ID := 1, ObjectType := .ObjectTypeModel,
    Components := [{ ObjectID := 2, Path := "", Transform := some (Identity.Translate 1 2 3) }] }

/-- An acyclic model in which every transform is planar: the build item places object 1
with the identity, the component of object 1 that targets the sliced object 2 is
translated. -/
def planarModel : Model :=
  { Parts := [(rootPath, { Assets := [.SliceStack stack10], Objects := [planarA, chainO] })],
    Build := { Items := [{ ObjectID := 1, Path := "", Transform := some Identity }] },
    RequiredExtensions := [] }

/-- A model whose component graph has the two-hop cycle 1 → 2 → 1, whose build places
object 1 and whose root part holds stack 52, which has a polygon that is not closed. No
extension is required. -/
def cycleOpenModel : Model :=
  { Parts := [(rootPath, { Assets := [.SliceStack stack52], Objects := [cycleA, cycleB] })],
    Build := { Items := [{ ObjectID := 1, Path := "", Transform := none }] },
    RequiredExtensions := [] }

/-- Extension data that names stack 52, low resolution. -/
def info52 : SliceStackInfo := { SliceStackID := 52, MeshResolution := .ResolutionLow }

/-- Extension data that names stack 10, low resolution. -/
def info10Low : SliceStackInfo := { SliceStackID := 10, MeshResolution := .ResolutionLow }

end slices

/-! ## Package `go3mf`: the encoder (`encoder.go`) -/

namespace go3mf

/-- The constant `nsXML`, with the value of the constant of that name in
`internal/io3mf/types.go`. -/
def nsXML : String := "http://www.w3.org/XML/1998/namespace"

/-- Modelled from the spec: the constant `ExtensionName` of the core package, which is
not among the sources: the URI of the core specification, which
`internal/io3mf/types.go` calls `nsCoreSpec`. -/
def ExtensionName : String := "http://schemas.microsoft.com/3dmanufacturing/core/2015/02"

/-- Modelled from the spec: the constant `attrXmlns`, which is not among the sources. -/
def attrXmlns : String := "xmlns"
/-- The constant `attrUnit`, as in `internal/io3mf/types.go`. -/
def attrUnit : String := "unit"
/-- The constant `attrLang`, as in `internal/io3mf/types.go`. -/
def attrLang : String := "lang"
/-- The constant `attrReqExt`, as in `internal/io3mf/types.go`. -/
def attrReqExt : String := "requiredextensions"
/-- Modelled from the spec: the constant `attrThumbnail`, which is not among the
sources. -/
def attrThumbnail : String := "thumbnail"
/-- Modelled from the spec: the constant `attrModel`, which is not among the sources. -/
def attrModel : String := "model"
/-- Modelled from the spec: the constant `attrTriangle`, which is not among the
sources. -/
def attrTriangle : String := "triangle"
/-- Modelled from the spec: the constant `attrV1`, which is not among the sources of the
core package; `slices.go` has it with this value. -/
def attrV1 : String := "v1"
/-- Modelled from the spec: the constant `attrV2`, as `attrV1`. -/
def attrV2 : String := "v2"
/-- Modelled from the spec: the constant `attrV3`, as `attrV1`. -/
def attrV3 : String := "v3"
/-- Modelled from the spec: the constant `attrPID`, as `attrV1`. -/
def attrPID : String := "pid"
/-- Modelled from the spec: the constant `attrP1`, as `attrV1`. -/
def attrP1 : String := "p1"
/-- Modelled from the spec: the constant `attrP2`, as `attrV1`. -/
def attrP2 : String := "p2"
/-- Modelled from the spec: the constant `attrP3`, which is not among the sources. -/
def attrP3 : String := "p3"

/-- The call `strconv.FormatUint(uint64(n), 10)`: the decimal digits of `n`. -/
def FormatUint (n : Nat) : String := toString n

/-- The inner loop of `modelToken` for the required extension `ns`: the value of
`exts[i]` after the loop over the namespaces, that is the `Local` of the first namespace
whose `Space` is `ns` (the loop breaks there), and the initial empty string when there
is none. -/
def Encoder.modelToken.ext (ns : String) : List xml.Name → String
  | [] => ""
  | a :: rest => if a.Space = ns then a.Local else Encoder.modelToken.ext ns rest

/-- The error that `modelToken` returns for the required extension `ns`. -/
def Encoder.modelToken.undefined (ns : String) : String :=
  "go3mf: cannot encode model with undefined required extension '" ++ ns ++ "'"

/-- The outer loop of `modelToken` over the required extensions: the slice `exts` after
the loop, or the error of the first iteration that leaves its entry empty. -/
def Encoder.modelToken.exts (namespaces : List xml.Name) :
    List String → Except String (List String)
  | [] => .ok []
  | ns :: rest =>
      if Encoder.modelToken.ext ns namespaces = "" then
        .error (Encoder.modelToken.undefined ns)
      else
        match Encoder.modelToken.exts namespaces rest with
        | .ok exts => .ok (Encoder.modelToken.ext ns namespaces :: exts)
        | .error err => .error err

/-- The list `attrs` of `modelToken` before the required extensions are looked at: the
three fixed attributes, the thumbnail of a root model, one attribute per namespace. -/
def Encoder.modelToken.attrs (m : Model) (isRoot : Bool) : List xml.Attr :=
  [{ Name := { Space := "", Local := attrXmlns }, Value := ExtensionName },
   { Name := { Space := "", Local := attrUnit }, Value := m.Units },
   { Name := { Space := nsXML, Local := attrLang }, Value := m.Language }]
  ++ (if isRoot = true ∧ m.Thumbnail ≠ "" then
        [{ Name := { Space := "", Local := attrThumbnail }, Value := m.Thumbnail }]
      else [])
  ++ m.Namespaces.map
      (fun a => { Name := { Space := attrXmlns, Local := a.Local }, Value := a.Space })

/-- The method `(*Encoder).modelToken`, up to the call `m.ExtensionAttr.encode(x, &tm)`:
the error, or the start element `tm` that is handed to the extension attributes of the
model, whose code is not among the sources. The relationship that the call adds to the
encoder `x` for the thumbnail does not enter `tm`. -/
def Encoder.modelToken (m : Model) (isRoot : Bool) : Except String xml.StartElement :=
  if m.RequiredExtensions.length ≠ 0 then
    match Encoder.modelToken.exts m.Namespaces m.RequiredExtensions with
    | .error err => .error err
    | .ok exts =>
        .ok { Name := { Space := "", Local := attrModel },
              Attr := Encoder.modelToken.attrs m isRoot
                ++ [{ Name := { Space := "", Local := attrReqExt },
                      Value := strings.Join exts " " }] }
  else
    .ok { Name := { Space := "", Local := attrModel }, Attr := Encoder.modelToken.attrs m isRoot }

/-- Modelled from the spec: a triangle of a mesh, "3 node indices + optional property
refs": the fields `NodeIndices`, `PID` and `PIndex` that the encoder reads. -/
structure Face where
  NodeIndices : Fin 3 → Nat
  PID : Nat
  PIndex : Fin 3 → Nat

/-- Modelled from the spec: a `Mesh`, "ordered sequence of 3D points (Nodes), ordered
sequence of Triangles". -/
structure Mesh where
  Nodes : List Point3D
  Faces : List Face

/-- The start element `t` that one iteration of the loop of `writeMesh` over `m.Faces`
hands to `x.EncodeToken`, for the face `v` of a mesh of the object `r`. -/
def Encoder.writeMesh.triangle (r : Object) (v : Face) : xml.StartElement :=
  let attr : List xml.Attr :=
    [{ Name := { Space := "", Local := attrV1 }, Value := FormatUint (v.NodeIndices 0) },
     { Name := { Space := "", Local := attrV2 }, Value := FormatUint (v.NodeIndices 1) },
     { Name := { Space := "", Local := attrV3 }, Value := FormatUint (v.NodeIndices 2) }]
  let p1 := v.PIndex 0
  let p2 := v.PIndex 1
  let p3 := v.PIndex 2
  { Name := { Space := "", Local := attrTriangle },
    Attr :=
      if v.PID ≠ 0 then
        if p1 ≠ p2 ∨ p1 ≠ p3 then
          attr ++ [{ Name := { Space := "", Local := attrPID }, Value := FormatUint v.PID },
                   { Name := { Space := "", Local := attrP1 }, Value := FormatUint p1 },
                   { Name := { Space := "", Local := attrP2 }, Value := FormatUint p2 },
                   { Name := { Space := "", Local := attrP3 }, Value := FormatUint p3 }]
        else if v.PID ≠ r.DefaultPID ∨ p1 ≠ r.DefaultPIndex then
          attr ++ [{ Name := { Space := "", Local := attrPID }, Value := FormatUint v.PID },
                   { Name := { Space := "", Local := attrP1 }, Value := FormatUint p1 }]
        else attr
      else attr }

/-- The start elements that the loop of `writeMesh` over `m.Faces` hands to
`x.EncodeToken`, in the order of the calls. -/
def Encoder.writeMesh.triangles (r : Object) (m : Mesh) : List xml.StartElement :=
  m.Faces.map (Encoder.writeMesh.triangle r)

/-- An attribute without namespace, with the name `name` and the decimal digits of `n` as
its value: `xml.Attr{Name: xml.Name{Local: name}, Value: strconv.FormatUint(uint64(n), 10)}`. -/
def uintAttr (name : String) (n : Nat) : xml.Attr :=
  { Name := { Space := "", Local := name }, Value := FormatUint n }

/-- A model that requires the extension `urn:ext` and declares its namespace twice: the
first declaration has no local name, the second has the local name `p`. -/
def shadowedModel : Model :=
  { Parts := [], Build := { Items := [] }, RequiredExtensions := ["urn:ext"],
    Namespaces := [{ Space := "urn:ext", Local := "" }, { Space := "urn:ext", Local := "p" }] }

/-- A model that requires the extensions `urn:b` and `urn:a`, in that order, and declares
them as `a` and `b`. -/
def declaredModel : Model :=
  { Parts := [], Build := { Items := [] }, RequiredExtensions := ["urn:b", "urn:a"],
    Units := "millimeter", Language := "en-US",
    Namespaces := [{ Space := "urn:a", Local := "a" }, { Space := "urn:b", Local := "b" }] }

/-- An object with the default property `(5, 2)`. -/
def paintedObject : Object :=
  { ID := 1, ObjectType := .ObjectTypeModel, Components := [], DefaultPID := 5,
    DefaultPIndex := 2 }

/-- A face without property. -/
def faceBare : Face := { NodeIndices := ![0, 1, 2], PID := 0, PIndex := ![0, 0, 0] }

/-- A face with three different property indices of group 5. -/
def faceMixed : Face := { NodeIndices := ![0, 1, 2], PID := 5, PIndex := ![2, 3, 4] }

/-- A face with the property `(5, 2)` on its three vertices. -/
def faceDefault : Face := { NodeIndices := ![0, 1, 2], PID := 5, PIndex := ![2, 2, 2] }

/-- A face with the property `(5, 7)` on its three vertices. -/
def faceUniform : Face := { NodeIndices := ![0, 1, 2], PID := 5, PIndex := ![7, 7, 7] }

end go3mf

open specerr

/-! ## Theorems: package `errors` -/

theorem Join_cons_of_ne_nil (a : String) (l : List String) (sep : String) (h : l ≠ []) :
    strings.Join (a :: l) sep = a ++ sep ++ strings.Join l sep := by
  cases l with
  | nil => exact absurd rfl h
  | cons b rest => rfl

mutual
theorem AppendOne_eq_leaves (acc : List GoError) : ∀ e : GoError, AppendOne acc e = acc ++ leaves e
  | .nil => by simp [AppendOne, leaves]
  | .errorString _ => by simp [AppendOne, leaves]
  | .MissingFieldError _ => by simp [AppendOne, leaves]
  | .ParseFieldError _ _ _ _ => by simp [AppendOne, leaves]
  | .Error _ _ _ => by simp [AppendOne, leaves]
  | .ErrorList es => by simp [AppendOne, leaves, Append_eq_leavesAll acc es]
theorem Append_eq_leavesAll (acc : List GoError) : ∀ es : List GoError, specerr.Append acc es = acc ++ leavesAll es
  | [] => by simp [specerr.Append, leavesAll]
  | e :: rest => by
      rw [specerr.Append, AppendOne_eq_leaves acc e, Append_eq_leavesAll _ rest]
      simp [leavesAll]
end

mutual
theorem leaves_not_list : ∀ (e x : GoError), x ∈ leaves e → x.isList = false ∧ x ≠ .nil
  | .nil, x, h => by simp [leaves] at h
  | .errorString _, x, h => by
      simp [leaves] at h; subst h; simp [GoError.isList]
  | .MissingFieldError _, x, h => by
      simp [leaves] at h; subst h; simp [GoError.isList]
  | .ParseFieldError _ _ _ _, x, h => by
      simp [leaves] at h; subst h; simp [GoError.isList]
  | .Error _ _ _, x, h => by
      simp [leaves] at h; subst h; simp [GoError.isList]
  | .ErrorList es, x, h => by
      rw [leaves] at h
      exact leavesAll_not_list es x h
theorem leavesAll_not_list : ∀ (es : List GoError) (x : GoError), x ∈ leavesAll es → x.isList = false ∧ x ≠ .nil
  | [], x, h => by simp [leavesAll] at h
  | e :: rest, x, h => by
      rw [leavesAll, List.mem_append] at h
      rcases h with h | h
      · exact leaves_not_list e x h
      · exact leavesAll_not_list rest x h
end

theorem leaves_of_leaf (e : GoError) (h1 : e.isList = false) (h2 : e ≠ .nil) : leaves e = [e] := by
  cases e <;> simp_all [leaves, GoError.isList]

/-- C1: `ErrorList.Append` flattens and skips nil. The list after `L.Append(errs...)` is
the old list followed, in order, by the non-nil leaves of `errs` (an `ErrorList` argument
contributes its elements, recursively); every leaf is neither nil nor an `ErrorList`;
when no element of `L` is an `ErrorList`, no element of the result is one; appending the
list `[e1, e2]` of two plain errors gives `L ++ [e1, e2]`; appending nil changes nothing. -/
theorem C1_Append_flattens (L errs : List GoError) (hL : ∀ e ∈ L, e.isList = false) :
    specerr.Append L errs = L ++ leavesAll errs
    ∧ (∀ x ∈ leavesAll errs, x.isList = false ∧ x ≠ .nil)
    ∧ (∀ x ∈ specerr.Append L errs, x.isList = false)
    ∧ (∀ e1 e2 : GoError, e1.isList = false → e1 ≠ .nil → e2.isList = false → e2 ≠ .nil →
        specerr.Append L [.ErrorList [e1, e2]] = L ++ [e1, e2])
    ∧ specerr.Append L [.nil] = L := by
  refine ⟨Append_eq_leavesAll L errs, leavesAll_not_list errs, ?_, ?_, ?_⟩
  · intro x hx
    rw [Append_eq_leavesAll, List.mem_append] at hx
    rcases hx with hx | hx
    · exact hL x hx
    · exact (leavesAll_not_list errs x hx).1
  · intro e1 e2 h1 h1n h2 h2n
    rw [Append_eq_leavesAll]
    simp [leavesAll, leaves, leaves_of_leaf e1 h1 h1n, leaves_of_leaf e2 h2 h2n]
  · simp [specerr.Append, AppendOne]

/-- Witness of C1 on the list `[e0]` and the argument `[e1, e2]`. -/
theorem C1_Append_flattens_witness :
    specerr.Append [GoError.errorString "e0"] [.ErrorList [.errorString "e1", .errorString "e2"]]
      = [GoError.errorString "e0"] ++ leavesAll [.ErrorList [.errorString "e1", .errorString "e2"]]
    ∧ specerr.Append [GoError.errorString "e0"] [.ErrorList [.errorString "e1", .errorString "e2"]]
      = [.errorString "e0", .errorString "e1", .errorString "e2"] :=
  ⟨(C1_Append_flattens [GoError.errorString "e0"]
      [.ErrorList [.errorString "e1", .errorString "e2"]]
      (by intro e he; simp at he; subst he; rfl)).1, rfl⟩

theorem ErrorText_with_path (T : List Level) (c : GoError) (p : String) (hp : p ≠ "")
    (hT : T ≠ []) : (GoError.Error T c p).ErrorText
      = p ++ "@" ++ strings.Join (T.map Level.String).reverse "@" ++ ": " ++ fmtV c := by
  have hne : (T.map Level.String).reverse ≠ [] := by simpa using hT
  simp only [GoError.ErrorText, format, fmtV, if_neg hp]
  rw [Join_cons_of_ne_nil _ _ _ hne]

/-- C2: `Error.Error` renders the breadcrumb outermost-first. With frames `T` in push
order (innermost first), cause `c` and path `p`, the text is `p@fn@...@f1: c` when `p` is
non-empty and there is a frame, and `fn@...@f1: c` with no leading `@` when `p` is empty.
Wrapping `e` with `B`, then with `A`, with path `/3d/1.model` renders
`/3d/1.model@A@B: e`, and without a path `A@B: e`. -/
theorem C2_Error_renders_outermost_first (T : List Level) (c : GoError) (p : String) :
    (p ≠ "" → T ≠ [] → (GoError.Error T c p).ErrorText
        = p ++ "@" ++ strings.Join (T.map Level.String).reverse "@" ++ ": " ++ fmtV c)
    ∧ (p ≠ "" → T = [] → (GoError.Error T c p).ErrorText = p ++ ": " ++ fmtV c)
    ∧ (p = "" → (GoError.Error T c p).ErrorText
        = strings.Join (T.map Level.String).reverse "@" ++ ": " ++ fmtV c)
    ∧ (NewPath "A" "/3d/1.model" (New "B" (.errorString "e"))).ErrorText = "/3d/1.model@A@B: e"
    ∧ (New "A" (NewPath "B" "/3d/1.model" (.errorString "e"))).ErrorText = "/3d/1.model@A@B: e"
    ∧ (New "A" (New "B" (.errorString "e"))).ErrorText = "A@B: e" := by
  refine ⟨?_, ?_, ?_, by decide, by decide, by decide⟩
  · exact ErrorText_with_path T c p
  · intro hp hT
    subst hT
    simp [GoError.ErrorText, format, fmtV, hp, strings.Join]
  · intro hp
    subst hp
    simp [GoError.ErrorText, format, fmtV]

/-- Witness of C2 on the frames `B` (inner) and `A#2` (outer). -/
theorem C2_Error_renders_outermost_first_witness :
    (GoError.Error [⟨"B", -1⟩, ⟨"pkg.A", 2⟩] (.errorString "e") "/3d/1.model").ErrorText
      = "/3d/1.model" ++ "@" ++ strings.Join ([⟨"B", -1⟩, ⟨"pkg.A", 2⟩].map Level.String).reverse "@"
          ++ ": " ++ fmtV (.errorString "e")
    ∧ (GoError.Error [⟨"B", -1⟩, ⟨"pkg.A", 2⟩] (.errorString "e") "/3d/1.model").ErrorText
      = "/3d/1.model@A#2@B: e" :=
  ⟨(C2_Error_renders_outermost_first [⟨"B", -1⟩, ⟨"pkg.A", 2⟩] (.errorString "e") "/3d/1.model").1
      (by decide) (by decide), by decide⟩

theorem NewEach_eq_map (el : String) (L : List GoError) : NewEach el L = L.map (New el) := by
  induction L with
  | nil => simp [NewEach]
  | cons a rest ih => simp [NewEach, ih]

theorem NewIndexedEach_eq_map (el : String) (i : Int) (L : List GoError) :
    NewIndexedEach el i L = L.map (NewIndexed el i) := by
  induction L with
  | nil => simp [NewIndexedEach]
  | cons a rest ih => simp [NewIndexedEach, ih]

theorem NewPathEach_eq_map (el p : String) (L : List GoError) :
    NewPathEach el p L = L.map (NewPath el p) := by
  induction L with
  | nil => simp [NewPathEach]
  | cons a rest ih => simp [NewPathEach, ih]

theorem New_of_plain (el : String) (err : GoError)
    (h1 : ∀ T c q, err ≠ .Error T c q) (h2 : ∀ es, err ≠ .ErrorList es) :
    New el err = .Error [⟨el, -1⟩] err "" := by
  cases err with
  | Error T c q => exact absurd rfl (h1 T c q)
  | ErrorList es => exact absurd rfl (h2 es)
  | _ => rfl

theorem NewIndexed_of_plain (el : String) (i : Int) (err : GoError)
    (h1 : ∀ T c q, err ≠ .Error T c q) (h2 : ∀ es, err ≠ .ErrorList es) :
    NewIndexed el i err = .Error [⟨el, i⟩] err "" := by
  cases err with
  | Error T c q => exact absurd rfl (h1 T c q)
  | ErrorList es => exact absurd rfl (h2 es)
  | _ => rfl

theorem NewPath_of_plain (el p : String) (err : GoError)
    (h1 : ∀ T c q, err ≠ .Error T c q) (h2 : ∀ es, err ≠ .ErrorList es) :
    NewPath el p err = .Error [⟨el, -1⟩] err p := by
  cases err with
  | Error T c q => exact absurd rfl (h1 T c q)
  | ErrorList es => exact absurd rfl (h2 es)
  | _ => rfl

/-- C3: re-wrapping pushes exactly one new outer frame and replaces nothing. On an
`Error` with frames `T`, cause `c` and path `q`, `New` yields frames `T ++ [(el, -1)]`,
`NewIndexed` yields `T ++ [(el, i)]`, `NewPath` yields `T ++ [(el, -1)]`; the earlier
frames and the cause are unchanged, `New` and `NewIndexed` keep the path `q`. On an
`err` that is neither an `Error` nor an `ErrorList` the result is a fresh `Error` with
the single frame and cause `err`. -/
theorem C3_rewrap_pushes_one_frame (el : String) (i : Int) (p : String)
    (T : List Level) (c : GoError) (q : String) :
    New el (.Error T c q) = .Error (T ++ [⟨el, -1⟩]) c q
    ∧ NewIndexed el i (.Error T c q) = .Error (T ++ [⟨el, i⟩]) c q
    ∧ NewPath el p (.Error T c q) = .Error (T ++ [⟨el, -1⟩]) c p
    ∧ (∀ err : GoError, (∀ T1 c1 q1, err ≠ .Error T1 c1 q1) → (∀ es, err ≠ .ErrorList es) →
        New el err = .Error [⟨el, -1⟩] err ""
        ∧ NewIndexed el i err = .Error [⟨el, i⟩] err ""
        ∧ NewPath el p err = .Error [⟨el, -1⟩] err p) :=
  ⟨rfl, rfl, rfl, fun err h1 h2 =>
    ⟨New_of_plain el err h1 h2, NewIndexed_of_plain el i err h1 h2, NewPath_of_plain el p err h1 h2⟩⟩

/-- Witness of C3 on the sentinel `ErrRecursion`, wrapped three times. -/
theorem C3_rewrap_pushes_one_frame_witness :
    New "Object" ErrRecursion = .Error [⟨"Object", -1⟩] ErrRecursion ""
    ∧ NewIndexed "Item" 4 (New "Object" ErrRecursion)
        = .Error [⟨"Object", -1⟩, ⟨"Item", 4⟩] ErrRecursion ""
    ∧ NewPath "Model" "/3d/1.model" (NewIndexed "Item" 4 (New "Object" ErrRecursion))
        = .Error [⟨"Object", -1⟩, ⟨"Item", 4⟩, ⟨"Model", -1⟩] ErrRecursion "/3d/1.model" :=
  ⟨((C3_rewrap_pushes_one_frame "Object" 4 "/3d/1.model" [] .nil "").2.2.2 ErrRecursion
      (by intro T1 c1 q1 h; cases h) (by intro es h; cases h)).1,
   rfl, rfl⟩

theorem wrap_Error_eq (frame : Level) (path : Option String) (n : Nat) (g : Heap) (b : Nat)
    (e : ErrorObj) (he : g.errors[b]? = some e) :
    Heap.wrap frame path (n + 1) g (.Error b)
      = some ({ errors := g.errors.set b
                  { Target := e.Target ++ [frame], Err := e.Err, Path := path.getD e.Path },
                lists := g.lists }, .Error b) := by
  simp [Heap.wrap, he]

theorem wrap_leaf_eq (frame : Level) (path : Option String) (n : Nat) (g : Heap) (r : Ref)
    (hr : r.leaf?.isSome) :
    Heap.wrap frame path (n + 1) g r
      = some ({ errors := g.errors ++ [{ Target := [frame], Err := r, Path := path.getD "" }],
                lists := g.lists }, .Error g.errors.length) := by
  cases r <;> simp [Heap.wrap, Ref.leaf?] at hr ⊢

theorem wrapped_Error (frame : Level) (path : Option String) (h : Heap) (b : Nat)
    (e : ErrorObj) (he : h.errors[b]? = some e) :
    Heap.wrapped frame path h (.Error b)
      = some { Target := e.Target ++ [frame], Err := e.Err, Path := path.getD e.Path } := by
  have hb : b < h.errors.length := (List.getElem?_eq_some.mp he).1
  rw [Heap.wrapped, wrap_Error_eq frame path 0 h b e he]
  simp [Heap.deref, hb]

theorem wrapped_leaf (frame : Level) (path : Option String) (h : Heap) (r : Ref)
    (hr : r.leaf?.isSome) :
    Heap.wrapped frame path h r = some { Target := [frame], Err := r, Path := path.getD "" } := by
  rw [Heap.wrapped, wrap_leaf_eq frame path 0 h r hr]
  simp [Heap.deref]

theorem wrapped_eq_some (frame : Level) (path : Option String) (h : Heap) (r : Ref)
    (obj : ErrorObj) (hw : Heap.wrapped frame path h r = some obj) :
    ∃ (h1 : Heap) (r1 : Ref), Heap.wrap frame path 1 h r = some (h1, r1)
      ∧ h1.deref r1 = some obj := by
  unfold Heap.wrapped at hw
  cases hx : Heap.wrap frame path 1 h r with
  | none => rw [hx] at hw; cases hw
  | some x =>
      rw [hx] at hw
      exact ⟨x.1, x.2, rfl, hw⟩

theorem leaf_of_not_pointer (r : Ref) (h1 : ∀ b, r ≠ .Error b) (h2 : ∀ b, r ≠ .ErrorList b) :
    r.leaf?.isSome := by
  cases r with
  | Error b => exact absurd rfl (h1 b)
  | ErrorList b => exact absurd rfl (h2 b)
  | _ => rfl

/-- One iteration on an entry that is not a list: the heap gets one object more or one
object replaced, at the address returned, and every other object is kept. -/
theorem wrap_step (frame : Level) (path : Option String) (fuel : Nat) (h g : Heap) (r : Ref)
    (hnl : ∀ b, r ≠ .ErrorList b) (hlen : h.errors.length ≤ g.errors.length)
    (hsame : ∀ b, r = .Error b → b < h.errors.length ∧ g.errors[b]? = h.errors[b]?) :
    ∃ (c : Nat) (E : List ErrorObj) (obj : ErrorObj),
      Heap.wrap frame path (fuel + 1) g r = some ({ errors := E, lists := g.lists }, .Error c)
      ∧ Heap.wrapped frame path h r = some obj
      ∧ g.errors.length ≤ E.length ∧ c < E.length ∧ E[c]? = some obj
      ∧ (∀ x, x ≠ c → x < g.errors.length → E[x]? = g.errors[x]?)
      ∧ (∀ b, r = .Error b → c = b)
      ∧ (r.leaf?.isSome → c = g.errors.length) := by
  by_cases hp : ∃ b, r = .Error b
  · obtain ⟨b, rfl⟩ := hp
    obtain ⟨hb, hg⟩ := hsame b rfl
    have he : h.errors[b]? = some (h.errors[b]) := List.getElem?_eq_getElem hb
    have hge : g.errors[b]? = some (h.errors[b]) := hg.trans he
    have hbg : b < g.errors.length := lt_of_lt_of_le hb hlen
    refine ⟨b, _, _, wrap_Error_eq frame path fuel g b _ hge, wrapped_Error frame path h b _ he,
      ?_, ?_, ?_, ?_, ?_, ?_⟩
    · simp
    · simpa using hbg
    · simp [hbg]
    · intro x hx _
      rw [List.getElem?_set_ne (Ne.symm hx)]
    · intro b2 hb2
      cases hb2
      rfl
    · intro hl
      simp [Ref.leaf?] at hl
  · have hleaf : r.leaf?.isSome :=
      leaf_of_not_pointer r (fun b hb => hp ⟨b, hb⟩) hnl
    refine ⟨g.errors.length, _, _, wrap_leaf_eq frame path fuel g r hleaf,
      wrapped_leaf frame path h r hleaf, ?_, ?_, ?_, ?_, ?_, ?_⟩
    · simp
    · simp
    · simp
    · intro x _ hx
      rw [List.getElem?_append_left hx]
    · intro b hb
      exact absurd ⟨b, hb⟩ hp
    · intro _
      rfl

/-- The loop on a list without list entries, whose pointers are allocated and pairwise
distinct: the invariant after the entries below `i`, and the result. -/
theorem wrapEach_flat (frame : Level) (path : Option String) (fuel : Nat) (h : Heap) (a : Nat)
    (es : List Ref) (hflat : ∀ r ∈ es, ∀ b, r ≠ Ref.ErrorList b)
    (hvalid : ∀ b, Ref.Error b ∈ es → b < h.errors.length)
    (hdist : ∀ (k1 k2 b : Nat), es[k1]? = some (.Error b) → es[k2]? = some (.Error b) → k1 = k2) :
    ∀ (m i : Nat) (g : Heap) (L : List Ref), i + m = es.length →
      g.lists[a]? = some L → L.length = es.length → (∀ k : Nat, i ≤ k → L[k]? = es[k]?) →
      h.errors.length ≤ g.errors.length →
      (∀ b : Nat, b < h.errors.length → (∀ k : Nat, k < i → es[k]? ≠ some (.Error b)) →
        g.errors[b]? = h.errors[b]?) →
      (∀ (k : Nat) (r : Ref), k < i → es[k]? = some r →
        ∃ (c : Nat) (obj : ErrorObj), L[k]? = some (.Error c) ∧ c < g.errors.length
          ∧ g.errors[c]? = some obj ∧ Heap.wrapped frame path h r = some obj
          ∧ (∀ b, r = .Error b → c = b) ∧ (r.leaf?.isSome → h.errors.length ≤ c)) →
      (∀ (k1 k2 c : Nat), k1 < i → k2 < i → L[k1]? = some (.Error c) →
        L[k2]? = some (.Error c) → k1 = k2) →
      ∃ (g2 : Heap) (L2 : List Ref),
        Heap.wrapEach (fun h1 e1 => Heap.wrap frame path (fuel + 1) h1 e1) a
            (List.range' i m) g = some g2
        ∧ g2.lists[a]? = some L2 ∧ L2.length = es.length
        ∧ (∀ (k : Nat) (r : Ref), es[k]? = some r →
            ∃ (c : Nat) (obj : ErrorObj), L2[k]? = some (.Error c)
              ∧ g2.errors[c]? = some obj ∧ Heap.wrapped frame path h r = some obj
              ∧ (∀ b, r = .Error b → c = b))
        ∧ (∀ (k1 k2 c : Nat), L2[k1]? = some (.Error c) → L2[k2]? = some (.Error c) →
            k1 = k2) := by
  intro m
  induction m with
  | zero =>
      intro i g L him hL hLlen _ _ _ hdone huniq
      have hi : i = es.length := by omega
      refine ⟨g, L, by simp [Heap.wrapEach], hL, hLlen, ?_, ?_⟩
      · intro k r hk
        have hki : k < i := by
          rw [hi]
          exact (List.getElem?_eq_some.mp hk).1
        obtain ⟨c, obj, h1, _, h3, h4, h5, _⟩ := hdone k r hki hk
        exact ⟨c, obj, h1, h3, h4, h5⟩
      · intro k1 k2 c h1 h2
        have hk1 : k1 < i := by
          rw [hi, ← hLlen]
          exact (List.getElem?_eq_some.mp h1).1
        have hk2 : k2 < i := by
          rw [hi, ← hLlen]
          exact (List.getElem?_eq_some.mp h2).1
        exact huniq k1 k2 c hk1 hk2 h1 h2
  | succ m ih =>
      intro i g L him hL hLlen hrest hlen hkeep hdone huniq
      have hi : i < es.length := by omega
      have hro : es[i]? = some (es[i]) := List.getElem?_eq_getElem hi
      have hLi : L[i]? = some (es[i]) := (hrest i (le_refl i)).trans hro
      have hmem : es[i] ∈ es := List.getElem_mem hi
      have hnotbefore : ∀ b, es[i] = Ref.Error b → ∀ k : Nat, k < i → es[k]? ≠ some (.Error b) := by
        intro b hb k hk hkb
        have := hdist k i b hkb (by rw [hro, hb])
        omega
      obtain ⟨c, E, obj, hwrap, hwrapped, hElen, hcE, hEc, hEkeep, hcptr, hcleaf⟩ :=
        wrap_step frame path fuel h g (es[i]) (hflat _ hmem) hlen (by
          intro b hb
          have hbv : b < h.errors.length := hvalid b (hb ▸ hmem)
          exact ⟨hbv, hkeep b hbv (hnotbefore b hb)⟩)
      have halt : a < g.lists.length := (List.getElem?_eq_some.mp hL).1
      -- the address of this entry differs from those of the entries before
      have hfresh : ∀ (k c2 : Nat), k < i → L[k]? = some (.Error c2) → c2 ≠ c := by
        intro k c2 hk hLk hc2
        have hkl : k < es.length := by omega
        obtain ⟨c3, obj3, h1, h2, _, _, h5, h6⟩ :=
          hdone k (es[k]) hk (List.getElem?_eq_getElem hkl)
        rw [hLk] at h1
        have hc3 : c2 = c3 := by
          cases h1
          rfl
        by_cases hp : ∃ b, es[i] = Ref.Error b
        · obtain ⟨b, hb⟩ := hp
          have hcb : c = b := hcptr b hb
          have hbv : b < h.errors.length := hvalid b (hb ▸ hmem)
          by_cases hpk : ∃ b2, es[k] = Ref.Error b2
          · obtain ⟨b2, hb2⟩ := hpk
            have : c3 = b2 := h5 b2 hb2
            have hkk := hdist k i b (by rw [List.getElem?_eq_getElem hkl, hb2]; congr 2; omega)
              (by rw [hro, hb])
            omega
          · have hleafk : (es[k]).leaf?.isSome :=
              leaf_of_not_pointer _ (fun b2 hb2 => hpk ⟨b2, hb2⟩) (hflat _ (List.getElem_mem hkl))
            have := h6 hleafk
            omega
        · have hleaf : (es[i]).leaf?.isSome :=
            leaf_of_not_pointer _ (fun b hb => hp ⟨b, hb⟩) (hflat _ hmem)
          have := hcleaf hleaf
          omega
      have hstep : Heap.wrapEach (fun h1 e1 => Heap.wrap frame path (fuel + 1) h1 e1) a
            (List.range' i (m + 1)) g
          = Heap.wrapEach (fun h1 e1 => Heap.wrap frame path (fuel + 1) h1 e1) a
            (List.range' (i + 1) m)
            { errors := E, lists := g.lists.set a (L.set i (.Error c)) } := by
        rw [List.range'_succ, Heap.wrapEach]
        simp [hL, hLi, hwrap, Heap.setEntry]
      obtain ⟨g2, L2, hres, hrest2⟩ := ih (i + 1)
        { errors := E, lists := g.lists.set a (L.set i (.Error c)) } (L.set i (.Error c))
        (by omega) (by simp [halt]) (by simp [hLlen])
        (by
          intro k hk
          rw [List.getElem?_set_ne (by omega)]
          exact hrest k (by omega))
        (le_trans hlen hElen)
        (by
          intro b hb hnot
          have hbc : b ≠ c := by
            intro hbc
            by_cases hp : ∃ b2, es[i] = Ref.Error b2
            · obtain ⟨b2, hb2⟩ := hp
              have := hcptr b2 hb2
              exact hnot i (by omega) (by rw [hro, hb2]; congr 2; omega)
            · have hleaf : (es[i]).leaf?.isSome :=
                leaf_of_not_pointer _ (fun b hb => hp ⟨b, hb⟩) (hflat _ hmem)
              have := hcleaf hleaf
              omega
          show E[b]? = h.errors[b]?
          rw [hEkeep b hbc (lt_of_lt_of_le hb hlen)]
          exact hkeep b hb (fun k hk => hnot k (by omega)))
        (by
          intro k r hk hkr
          by_cases hki : k = i
          · subst hki
            have hr : r = es[k] := by
              rw [hro] at hkr
              cases hkr
              rfl
            subst hr
            refine ⟨c, obj, ?_, hcE, hEc, hwrapped, hcptr, ?_⟩
            · simp [hLlen, hi]
            · intro hleaf
              have := hcleaf hleaf
              omega
          · have hk2 : k < i := by omega
            obtain ⟨c2, obj2, h1, h2, h3, h4, h5, h6⟩ := hdone k r hk2 hkr
            refine ⟨c2, obj2, ?_, lt_of_lt_of_le h2 hElen, ?_, h4, h5, h6⟩
            · rw [List.getElem?_set_ne (by omega)]
              exact h1
            · show E[c2]? = some obj2
              rw [hEkeep c2 (hfresh k c2 hk2 h1) h2]
              exact h3)
        (by
          intro k1 k2 c2 hk1 hk2 h1 h2
          by_cases hk1i : k1 = i
          · by_cases hk2i : k2 = i
            · omega
            · exfalso
              rw [hk1i] at h1
              rw [List.getElem?_set_ne (by omega)] at h2
              have hc : c2 = c := by
                simp [hLlen, hi] at h1
                exact h1.symm
              exact hfresh k2 c2 (by omega) h2 hc
          · by_cases hk2i : k2 = i
            · exfalso
              rw [hk2i] at h2
              rw [List.getElem?_set_ne (by omega)] at h1
              have hc : c2 = c := by
                simp [hLlen, hi] at h2
                exact h2.symm
              exact hfresh k1 c2 (by omega) h1 hc
            · rw [List.getElem?_set_ne (by omega)] at h1 h2
              exact huniq k1 k2 c2 (by omega) (by omega) h1 h2)
      exact ⟨g2, L2, hstep.trans hres, hrest2⟩

theorem read_leaf (n : Nat) (h : Heap) (r : Ref) (v : GoError) (hr : r.leaf? = some v) :
    h.read (n + 1) r = some v := by
  cases r <;> simp [Heap.read, Ref.leaf?] at hr ⊢ <;> exact hr

theorem read_Error_leaf (h : Heap) (c : Nat) (obj : ErrorObj) (v : GoError)
    (hc : h.errors[c]? = some obj) (hv : obj.Err.leaf? = some v) :
    h.read 2 (.Error c) = some (.Error obj.Target v obj.Path) := by
  simp [Heap.read, hc, read_leaf 0 h obj.Err v hv]

theorem readEach_pointwise (f1 f2 : Ref → Option GoError) (g : GoError → GoError) :
    ∀ (es L2 : List Ref), L2.length = es.length →
      (∀ (k : Nat) (r : Ref), es[k]? = some r →
        ∃ (r2 : Ref) (v : GoError), L2[k]? = some r2 ∧ f1 r = some v ∧ f2 r2 = some (g v)) →
      ∃ vs : List GoError, Heap.readEach f1 es = some vs
        ∧ Heap.readEach f2 L2 = some (vs.map g) := by
  intro es
  induction es with
  | nil =>
      intro L2 hlen _
      have : L2 = [] := List.length_eq_zero.mp hlen
      subst this
      exact ⟨[], rfl, rfl⟩
  | cons r rest ih =>
      intro L2 hlen hpt
      cases L2 with
      | nil => simp at hlen
      | cons r2 rest2 =>
          obtain ⟨r3, v, h1, h2, h3⟩ := hpt 0 r (by simp)
          have hr3 : r3 = r2 := by
            simp at h1
            exact h1.symm
          subst hr3
          obtain ⟨vs, hv1, hv2⟩ := ih rest2 (by simpa using hlen) (by
            intro k rk hk
            have := hpt (k + 1) rk (by simpa using hk)
            simpa using this)
          exact ⟨v :: vs, by simp [Heap.readEach, h2, hv1], by simp [Heap.readEach, h3, hv2]⟩

/-- The pointer model of a wrap is element-wise on a list whose entries are not lists,
whose pointers are allocated and pairwise distinct and point to errors whose cause is
not a pointer; `g` is the wrap in the value model. -/
theorem wrap_elementWise (frame : Level) (path : Option String) (g : GoError → GoError)
    (hg1 : ∀ T c q, g (.Error T c q) = .Error (T ++ [frame]) c (path.getD q))
    (hg2 : ∀ (r : Ref) (v : GoError), r.leaf? = some v → g v = .Error [frame] v (path.getD ""))
    (hg3 : ∀ vs : List GoError, g (.ErrorList vs) = .ErrorList (vs.map g))
    (fuel : Nat) (h : Heap) (a : Nat) (es : List Ref) (hl : h.lists[a]? = some es)
    (hflat : ∀ r ∈ es, ∀ b, r ≠ Ref.ErrorList b)
    (hvalid : ∀ b, Ref.Error b ∈ es → b < h.errors.length)
    (hdist : ∀ (k1 k2 b : Nat), es[k1]? = some (.Error b) → es[k2]? = some (.Error b) → k1 = k2)
    (hcause : ∀ (b : Nat) (e : ErrorObj), Ref.Error b ∈ es → h.errors[b]? = some e →
      e.Err.leaf?.isSome) :
    elementWise (Heap.wrap frame path) g fuel h a es := by
  obtain ⟨g2, L2, hres, hL2, hlen2, helem, huniq⟩ :=
    wrapEach_flat frame path fuel h a es hflat hvalid hdist es.length 0 h es (by simp) hl rfl
      (fun _ _ => rfl) (le_refl _) (fun _ _ _ => rfl)
      (fun k r hk _ => absurd hk (Nat.not_lt_zero k))
      (fun k1 _ _ hk1 _ _ _ => absurd hk1 (Nat.not_lt_zero k1))
  have hread : ∀ (k : Nat) (r : Ref) (c : Nat) (obj : ErrorObj), es[k]? = some r →
      g2.errors[c]? = some obj → Heap.wrapped frame path h r = some obj →
      ∃ v : GoError, h.read 2 r = some v ∧ g2.read 2 (.Error c) = some (g v) := by
    intro k r c obj hk h2 h3
    have hmem : r ∈ es := List.mem_iff_getElem?.mpr ⟨k, hk⟩
    by_cases hp : ∃ b, r = Ref.Error b
    · obtain ⟨b, rfl⟩ := hp
      have hb : b < h.errors.length := hvalid b hmem
      have he : h.errors[b]? = some (h.errors[b]) := List.getElem?_eq_getElem hb
      have hleaf := hcause b _ hmem he
      obtain ⟨v, hv⟩ := Option.isSome_iff_exists.mp hleaf
      have hobj : obj = ErrorObj.mk ((h.errors[b]).Target ++ [frame]) (h.errors[b]).Err
          (path.getD (h.errors[b]).Path) := by
        have := wrapped_Error frame path h b _ he
        rw [h3] at this
        exact Option.some.inj this
      refine ⟨.Error (h.errors[b]).Target v (h.errors[b]).Path,
        read_Error_leaf h b _ v he hv, ?_⟩
      rw [read_Error_leaf g2 c obj v h2 (by rw [hobj]; exact hv), hg1, hobj]
    · have hleaf : r.leaf?.isSome :=
        leaf_of_not_pointer r (fun b hb => hp ⟨b, hb⟩) (hflat r hmem)
      obtain ⟨v, hv⟩ := Option.isSome_iff_exists.mp hleaf
      have hobj : obj = ErrorObj.mk [frame] r (path.getD "") := by
        have := wrapped_leaf frame path h r hleaf
        rw [h3] at this
        exact Option.some.inj this
      refine ⟨v, read_leaf 1 h r v hv, ?_⟩
      rw [read_Error_leaf g2 c obj v h2 (by rw [hobj]; exact hv), hg2 r v hv, hobj]
  refine ⟨g2, L2, ?_, hL2, hlen2, ?_, ?_, ?_⟩
  · simp only [Heap.wrap, hl, List.range_eq_range', hres, Option.map_some']
  · intro k r hk
    obtain ⟨c, obj, h1, h2, h3, h4⟩ := helem k r hk
    obtain ⟨h1w, r1, hw1, hw2⟩ := wrapped_eq_some frame path h r obj h3
    refine ⟨h1w, r1, .Error c, obj, hw1, hw2, h1, h2, ?_, hread k r c obj hk h2 h3⟩
    intro b hb
    rw [h4 b hb]
  · intro k1 k2 r2 h1 h2
    have hk1 : k1 < es.length := by
      rw [← hlen2]
      exact (List.getElem?_eq_some.mp h1).1
    obtain ⟨c, obj, h3, _⟩ := helem k1 (es[k1]) (List.getElem?_eq_getElem hk1)
    rw [h3] at h1
    cases h1
    exact huniq k1 k2 c h3 h2
  · obtain ⟨vs, hv1, hv2⟩ := readEach_pointwise (fun r => h.read 2 r) (fun r => g2.read 2 r) g
      es L2 hlen2 (by
        intro k r hk
        obtain ⟨c, obj, h1, h2, h3, _⟩ := helem k r hk
        obtain ⟨v, hv1, hv2⟩ := hread k r c obj hk h2 h3
        exact ⟨.Error c, v, h1, hv1, hv2⟩)
    refine ⟨vs, ?_, ?_⟩
    · simp [Heap.read, hl, hv1]
    · simp [Heap.read, hL2, hv2, hg3]

theorem leaf_New (el : String) (r : Ref) (v : GoError) (hv : r.leaf? = some v) :
    New el v = .Error [⟨el, -1⟩] v "" := by
  cases r <;> simp [Ref.leaf?] at hv <;> subst hv <;> rfl

theorem leaf_NewIndexed (el : String) (i : Int) (r : Ref) (v : GoError)
    (hv : r.leaf? = some v) : NewIndexed el i v = .Error [⟨el, i⟩] v "" := by
  cases r <;> simp [Ref.leaf?] at hv <;> subst hv <;> rfl

theorem leaf_NewPath (el p : String) (r : Ref) (v : GoError) (hv : r.leaf? = some v) :
    NewPath el p v = .Error [⟨el, -1⟩] v p := by
  cases r <;> simp [Ref.leaf?] at hv <;> subst hv <;> rfl

theorem New_list (el : String) (vs : List GoError) :
    New el (.ErrorList vs) = .ErrorList (vs.map (New el)) := by
  rw [New, NewEach_eq_map]

theorem NewIndexed_list (el : String) (i : Int) (vs : List GoError) :
    NewIndexed el i (.ErrorList vs) = .ErrorList (vs.map (NewIndexed el i)) := by
  rw [NewIndexed, NewIndexedEach_eq_map]

theorem NewPath_list (el p : String) (vs : List GoError) :
    NewPath el p (.ErrorList vs) = .ErrorList (vs.map (NewPath el p)) := by
  rw [NewPath, NewPathEach_eq_map]

/-- C4 as stated fails for an `ErrorList` that holds the same `*Error` twice. In
`sharedHeap` the list at address 0 has the entries `[p, p]`, where `p` points to the
error of frame `A` and cause `e`. `New("B", p)` alone pushes the frame `B` once and the
error prints `B@A: e`. `New("B", list)` visits `p` twice and pushes the frame twice on
the one object: both entries then print `B@B@A: e`, and the same happens with
`NewIndexed` and `NewPath`. In the value model the two entries are independent and get
the frame once. -/
theorem C4_counterexample :
    sharedHeap.lists[0]? = some [.Error 0, .Error 0]
    ∧ sharedHeap.read 2 (.Error 0) = some (.Error [⟨"A", -1⟩] (.errorString "e") "")
    ∧ (Heap.New 1 sharedHeap "B" (.Error 0)).bind (fun x => x.1.read 2 x.2)
        = some (.Error [⟨"A", -1⟩, ⟨"B", -1⟩] (.errorString "e") "")
    ∧ (GoError.Error [⟨"A", -1⟩, ⟨"B", -1⟩] (.errorString "e") "").ErrorText = "B@A: e"
    ∧ Heap.New 2 sharedHeap "B" (.ErrorList 0)
        = some ({ errors := [{ Target := [⟨"A", -1⟩, ⟨"B", -1⟩, ⟨"B", -1⟩],
                               Err := .errorString "e", Path := "" }],
                  lists := [[.Error 0, .Error 0]] }, .ErrorList 0)
    ∧ (Heap.New 2 sharedHeap "B" (.ErrorList 0)).bind (fun x => x.1.read 3 x.2)
        = some (.ErrorList [.Error [⟨"A", -1⟩, ⟨"B", -1⟩, ⟨"B", -1⟩] (.errorString "e") "",
                            .Error [⟨"A", -1⟩, ⟨"B", -1⟩, ⟨"B", -1⟩] (.errorString "e") ""])
    ∧ (GoError.Error [⟨"A", -1⟩, ⟨"B", -1⟩, ⟨"B", -1⟩] (.errorString "e") "").ErrorText
        = "B@B@A: e"
    ∧ (Heap.NewIndexed 2 sharedHeap "B" 7 (.ErrorList 0)).bind (fun x => x.1.read 2 (.Error 0))
        = some (.Error [⟨"A", -1⟩, ⟨"B", 7⟩, ⟨"B", 7⟩] (.errorString "e") "")
    ∧ (Heap.NewPath 2 sharedHeap "B" "/m" (.ErrorList 0)).bind (fun x => x.1.read 2 (.Error 0))
        = some (.Error [⟨"A", -1⟩, ⟨"B", -1⟩, ⟨"B", -1⟩] (.errorString "e") "/m")
    ∧ New "B" (.ErrorList [.Error [⟨"A", -1⟩] (.errorString "e") "",
                           .Error [⟨"A", -1⟩] (.errorString "e") ""])
        = .ErrorList [.Error [⟨"A", -1⟩, ⟨"B", -1⟩] (.errorString "e") "",
                      .Error [⟨"A", -1⟩, ⟨"B", -1⟩] (.errorString "e") ""] :=
  ⟨rfl, rfl, rfl, by decide, by decide, rfl, by decide, rfl, rfl, rfl⟩

/-- C4 (amended): re-wrapping an aggregate list is element-wise when no entry is shared.
Let the `ErrorList` at address `a` of the heap `h` have the entries `es`, none of them an
`ErrorList`, its `*Error` entries allocated, pairwise distinct pointers to errors whose
cause is not a pointer. Then `New`, `NewIndexed` and `NewPath` return that list with the
same length and order: the `k`-th entry points to the object that the same wrap alone
yields on the original `k`-th entry, its value is the value-model wrap of the value of
the original entry, a pointer entry stays the same pointer, no two entries are the same
pointer, and the value of the list is the value-model wrap of its value before. -/
theorem C4_rewrap_list_elementwise (el : String) (i : Int) (p : String) (fuel : Nat)
    (h : Heap) (a : Nat) (es : List Ref) (hl : h.lists[a]? = some es)
    (hflat : ∀ r ∈ es, ∀ b, r ≠ Ref.ErrorList b)
    (hvalid : ∀ b, Ref.Error b ∈ es → b < h.errors.length)
    (hdist : ∀ (k1 k2 b : Nat), es[k1]? = some (.Error b) → es[k2]? = some (.Error b) → k1 = k2)
    (hcause : ∀ (b : Nat) (e : ErrorObj), Ref.Error b ∈ es → h.errors[b]? = some e →
      e.Err.leaf?.isSome) :
    elementWise (fun n h1 r => Heap.New n h1 el r) (New el) fuel h a es
    ∧ elementWise (fun n h1 r => Heap.NewIndexed n h1 el i r) (NewIndexed el i) fuel h a es
    ∧ elementWise (fun n h1 r => Heap.NewPath n h1 el p r) (NewPath el p) fuel h a es :=
  ⟨wrap_elementWise ⟨el, -1⟩ none (New el) (fun _ _ _ => rfl) (leaf_New el) (New_list el)
      fuel h a es hl hflat hvalid hdist hcause,
   wrap_elementWise ⟨el, i⟩ none (NewIndexed el i) (fun _ _ _ => rfl) (leaf_NewIndexed el i)
      (NewIndexed_list el i) fuel h a es hl hflat hvalid hdist hcause,
   wrap_elementWise ⟨el, -1⟩ (some p) (NewPath el p) (fun _ _ _ => rfl) (leaf_NewPath el p)
      (NewPath_list el p) fuel h a es hl hflat hvalid hdist hcause⟩

/-- Witness of the amended C4 on `flatHeap`: two distinct pointers, a sentinel and a
nil. -/
theorem C4_rewrap_list_elementwise_witness :
    elementWise (fun n h1 r => Heap.New n h1 "B" r) (New "B") 0 flatHeap 0
        [.Error 0, .errorString "s", .Error 1, .nil]
    ∧ elementWise (fun n h1 r => Heap.NewIndexed n h1 "B" 7 r) (NewIndexed "B" 7) 0 flatHeap 0
        [.Error 0, .errorString "s", .Error 1, .nil]
    ∧ elementWise (fun n h1 r => Heap.NewPath n h1 "B" "/m" r) (NewPath "B" "/m") 0 flatHeap 0
        [.Error 0, .errorString "s", .Error 1, .nil] :=
  C4_rewrap_list_elementwise "B" 7 "/m" 0 flatHeap 0 [.Error 0, .errorString "s", .Error 1, .nil]
    rfl
    (by
      intro r hr b
      simp at hr
      rcases hr with rfl | rfl | rfl | rfl <;> simp)
    (by
      intro b hb
      simp at hb
      rcases hb with rfl | rfl <;> decide)
    (by
      intro k1 k2 b h1 h2
      rcases k1 with _ | _ | _ | _ | k1 <;> rcases k2 with _ | _ | _ | _ | k2 <;>
        simp at h1 h2 ⊢ <;> omega)
    (by
      intro b e hb he
      simp at hb
      rcases hb with rfl | rfl <;> simp [flatHeap] at he <;> subst he <;> rfl)

theorem applyWraps_Error (ws : List Wrap) : ∀ (T : List Level) (c : GoError) (p : String),
    applyWraps ws (.Error T c p) = .Error (T ++ ws.map Wrap.frame) c (lastPath ws p) := by
  induction ws with
  | nil => intro T c p; simp [applyWraps, lastPath]
  | cons w ws ih =>
      intro T c p
      cases w with
      | new el => simp [applyWraps, Wrap.apply, New, ih, lastPath, Wrap.frame]
      | indexed el i => simp [applyWraps, Wrap.apply, NewIndexed, ih, lastPath, Wrap.frame]
      | path el q => simp [applyWraps, Wrap.apply, NewPath, ih, lastPath, Wrap.frame]

theorem lastPath_ne_empty (ws : List Wrap) : ∀ p : String, p ≠ "" → pathsNonEmpty ws →
    lastPath ws p ≠ "" := by
  induction ws with
  | nil => intro p hp _; simpa [lastPath] using hp
  | cons w ws ih =>
      intro p hp h
      cases w with
      | new el => exact ih p hp h
      | indexed el i => exact ih p hp h
      | path el q => exact ih q h.1 h.2

/-- C5 as stated fails: a later `NewPath` with the empty path erases the path that was
attached, and the rendering no longer begins with a path segment. -/
theorem C5_counterexample :
    NewPath "B" "" (NewPath "A" "/3d/1.model" (.errorString "e"))
      = .Error [⟨"A", -1⟩, ⟨"B", -1⟩] (.errorString "e") ""
    ∧ (NewPath "B" "" (NewPath "A" "/3d/1.model" (.errorString "e"))).ErrorText = "B@A: e" :=
  ⟨rfl, by decide⟩

/-- C5 (amended): the path of an `Error` is the one given to the latest `NewPath`; `New`
and `NewIndexed` keep it. Hence when an `Error` carries a non-empty path and at least one
frame, after every later sequence of re-wraps in which each `NewPath` is given a
non-empty path the `Error` still carries a non-empty path (the argument of the last
`NewPath`, the original path if there is none), its earlier frames and cause are
unchanged, and its rendering begins with that path followed by `@`. -/
theorem C5_path_kept_by_nonempty_rewraps (T : List Level) (c : GoError) (p : String)
    (ws : List Wrap) (hT : T ≠ []) (hp : p ≠ "") (hws : pathsNonEmpty ws) :
    applyWraps ws (.Error T c p) = .Error (T ++ ws.map Wrap.frame) c (lastPath ws p)
    ∧ lastPath ws p ≠ ""
    ∧ (applyWraps ws (.Error T c p)).ErrorText
        = lastPath ws p ++ "@"
          ++ strings.Join ((T ++ ws.map Wrap.frame).map Level.String).reverse "@"
          ++ ": " ++ fmtV c := by
  have hq := lastPath_ne_empty ws p hp hws
  refine ⟨applyWraps_Error ws T c p, hq, ?_⟩
  rw [applyWraps_Error]
  exact ErrorText_with_path (T ++ ws.map Wrap.frame) c (lastPath ws p) hq (by simp [hT])

/-- Witness of the amended C5: a path attached first, then `New`, `NewPath` with another
path, and `NewIndexed`. -/
theorem C5_path_kept_by_nonempty_rewraps_witness :
    applyWraps [.new "B", .path "C" "/3d/2.model", .indexed "D" 7]
        (.Error [⟨"A", -1⟩] (.errorString "e") "/3d/1.model")
      = .Error ([⟨"A", -1⟩] ++ [Wrap.new "B", .path "C" "/3d/2.model", .indexed "D" 7].map Wrap.frame)
          (.errorString "e") (lastPath [.new "B", .path "C" "/3d/2.model", .indexed "D" 7] "/3d/1.model")
    ∧ (applyWraps [.new "B", .path "C" "/3d/2.model", .indexed "D" 7]
        (.Error [⟨"A", -1⟩] (.errorString "e") "/3d/1.model")).ErrorText
      = "/3d/2.model@D#7@C@B@A: e" :=
  ⟨(C5_path_kept_by_nonempty_rewraps [⟨"A", -1⟩] (.errorString "e") "/3d/1.model"
      [.new "B", .path "C" "/3d/2.model", .indexed "D" 7] (by simp) (by decide)
      ⟨by decide, trivial⟩).1, by decide⟩

/-! ## Theorems: the transform walk -/

open slices go3mf

theorem cycle_FindObject_1 : cycleModel.FindObject rootPath 1 = some cycleA := by
  simp [Model.FindObject, Model.FindResources, Resources.FindObject, cycleModel, cycleA]

theorem cycle_FindObject_2 : cycleModel.FindObject rootPath 2 = some cycleB := by
  simp [Model.FindObject, Model.FindResources, Resources.FindObject, cycleModel, cycleA, cycleB]

theorem cycle_walk_none (fuel : Nat) :
    validateObjectTransforms cycleModel rootPath 1 fuel cycleA = none
    ∧ validateObjectTransforms cycleModel rootPath 1 fuel cycleB = none := by
  induction fuel with
  | zero => exact ⟨rfl, rfl⟩
  | succ n ih =>
      constructor
      · simp [validateObjectTransforms, validateObjectTransforms.loop, cycleA,
          Component.ObjectPath, cycle_FindObject_2, ih.2]
      · simp [validateObjectTransforms, validateObjectTransforms.loop, cycleB,
          Component.ObjectPath, cycle_FindObject_1, ih.1, nonPlanar]

/-- C6 fails on the code: on the model with the two-hop cycle 1 → 2 → 1 the transform
walk reaches every bound on its recursion depth, so `validateBuildTransforms` and
`SliceStackInfo.Validate` return no result, whatever the bound. -/
theorem C6_walk_diverges_on_two_hop_cycle (fuel : Nat) :
    validateBuildTransforms cycleModel rootPath 1 fuel = none
    ∧ SliceStackInfo.Validate info10 cycleModel rootPath (.Object cycleA) fuel = none := by
  have h : validateBuildTransforms cycleModel rootPath 1 fuel = none := by
    have hitems : cycleModel.Build.Items = [{ ObjectID := 1, Path := "", Transform := none }] := rfl
    simp [validateBuildTransforms, validateBuildTransforms.loop, hitems, Item.ObjectPath,
      nonPlanar, cycle_FindObject_1, (cycle_walk_none fuel).1]
  refine ⟨h, ?_⟩
  have hA : (cycleModel.FindResources rootPath).bind (fun rs => rs.FindAsset info10.SliceStackID)
      = some (.SliceStack stack10) := by
    simp [Model.FindResources, Resources.FindAsset, cycleModel, info10, Asset.Identify, stack10]
  simp only [SliceStackInfo.Validate, hA]
  have hid : cycleA.ID = 1 := rfl
  rw [hid, h]
  simp [info10]

/-! ## Theorems: slice stacks -/

theorem mem_ite_singleton {α : Type} (c : Prop) [Decidable c] (a x : α) :
    x ∈ (if c then [a] else []) ↔ c ∧ x = a := by
  split_ifs with h <;> simp [h]

theorem mem_ite_nil_left {α : Type} (c : Prop) [Decidable c] (l : List α) (x : α) :
    x ∈ (if c then [] else l) ↔ ¬ c ∧ x ∈ l := by
  split_ifs with h <;> simp [h]

theorem mem_polygons_form (path : String) (ps : List Polygon) : ∀ (k : Nat) (a : GoError),
    a ∈ validateSlices.polygons path k ps →
    ∃ k1 : Nat, a = .Error [⟨typePolygon, (k1 : Int)⟩] ErrSliceInsufficientSegments path := by
  induction ps with
  | nil => intro k a h; simp [validateSlices.polygons] at h
  | cons p rest ih =>
      intro k a h
      simp only [validateSlices.polygons, List.mem_append, mem_ite_singleton] at h
      rcases h with h | h
      · exact ⟨k, by rw [h.2]; rfl⟩
      · exact ih (k + 1) a h

theorem mem_step_NoMonotonic (path : String) (bz last : float32) (j j1 : Nat) (s : Slice) :
    NewIndexedAt path typeSlice j ErrSliceNoMonotonic ∈ validateSlices.step path bz last j1 s
      ↔ j1 = j ∧ s.TopZ ≤ last := by
  unfold validateSlices.step
  constructor
  · intro h
    simp only [List.mem_append] at h
    rcases h with (h | h) | h
    · split_ifs at h <;> simp [NewIndexedAt, ErrSliceNoMonotonic, ErrSliceSmallTopZ] at h
    · rw [mem_ite_singleton] at h
      obtain ⟨hc, h⟩ := h
      simp [NewIndexedAt, ErrSliceNoMonotonic] at h
      exact ⟨h.symm, hc⟩
    · simp only [mem_ite_nil_left, List.mem_append, List.mem_map, mem_ite_singleton] at h
      rcases h.2 with (h | h) | h
      · simp [NewIndexedAt, ErrSliceNoMonotonic, ErrSliceInsufficientVertices] at h
      · simp [NewIndexedAt, ErrSliceNoMonotonic, ErrSliceInsufficientPolygons] at h
      · obtain ⟨a, ha, hEq⟩ := h
        obtain ⟨k1, rfl⟩ := mem_polygons_form path _ 0 a ha
        simp [NewIndexedAt, ErrSliceNoMonotonic, ErrSliceInsufficientSegments] at hEq
  · rintro ⟨rfl, hc⟩
    simp only [List.mem_append]
    left; right
    simp [hc]

theorem prevTopZ_cons (init : float32) (s0 : Slice) (rest : List Slice) (k : Nat) (s : Slice)
    (h : rest[k]? = some s) : prevTopZ init (s0 :: rest) (k + 1) = prevTopZ s0.TopZ rest k := by
  cases k with
  | zero => simp [prevTopZ]
  | succ k1 =>
      have hlt : k1 + 1 < rest.length := (List.getElem?_eq_some.mp h).1
      have hk1 : k1 < rest.length := by omega
      simp [prevTopZ, List.getElem?_eq_getElem hk1]

theorem mem_validateSlices_loop (path : String) (bz : float32) (ss : List Slice) :
    ∀ (j0 : Nat) (init : float32) (e : GoError),
    e ∈ validateSlices.loop path bz j0 init ss
      ↔ ∃ k s, ss[k]? = some s ∧ e ∈ validateSlices.step path bz (prevTopZ init ss k) (j0 + k) s := by
  induction ss with
  | nil => intro j0 init e; simp [validateSlices.loop]
  | cons s0 rest ih =>
      intro j0 init e
      simp only [validateSlices.loop, List.mem_append, ih]
      constructor
      · rintro (h | ⟨k, s, hk, h⟩)
        · exact ⟨0, s0, by simp, by simpa [prevTopZ] using h⟩
        · refine ⟨k + 1, s, by simpa using hk, ?_⟩
          rw [prevTopZ_cons init s0 rest k s hk]
          have : j0 + (k + 1) = j0 + 1 + k := by omega
          rw [this]; exact h
      · rintro ⟨k, s, hk, h⟩
        cases k with
        | zero =>
            left
            simp at hk; subst hk
            simpa [prevTopZ] using h
        | succ k1 =>
            right
            have hk1 : rest[k1]? = some s := by simpa using hk
            refine ⟨k1, s, hk1, ?_⟩
            rw [prevTopZ_cons init s0 rest k1 s hk1] at h
            have : j0 + (k1 + 1) = j0 + 1 + k1 := by omega
            rw [this] at h; exact h

theorem mem_step_MissingZTop (path : String) (bz last : float32) (j j1 : Nat) (s : Slice) :
    NewIndexedAt path typeSlice j (.MissingFieldError attrZTop)
        ∈ validateSlices.step path bz last j1 s
      ↔ j1 = j ∧ s.TopZ = 0 := by
  unfold validateSlices.step
  constructor
  · intro h
    simp only [List.mem_append] at h
    rcases h with (h | h) | h
    · split_ifs at h with h0 h1
      · simp [NewIndexedAt] at h
        exact ⟨h.symm, h0⟩
      · simp [NewIndexedAt, ErrSliceSmallTopZ] at h
      · simp at h
    · rw [mem_ite_singleton] at h
      obtain ⟨_, h⟩ := h
      simp [NewIndexedAt, ErrSliceNoMonotonic] at h
    · simp only [mem_ite_nil_left, List.mem_append, List.mem_map, mem_ite_singleton] at h
      rcases h.2 with (h | h) | h
      · simp [NewIndexedAt, ErrSliceInsufficientVertices] at h
      · simp [NewIndexedAt, ErrSliceInsufficientPolygons] at h
      · obtain ⟨a, ha, hEq⟩ := h
        obtain ⟨k1, rfl⟩ := mem_polygons_form path _ 0 a ha
        simp [NewIndexedAt, ErrSliceInsufficientSegments] at hEq
  · rintro ⟨rfl, hc⟩
    simp only [List.mem_append]
    left; left
    simp [hc]

theorem mem_step_SmallTopZ (path : String) (bz last : float32) (j j1 : Nat) (s : Slice) :
    NewIndexedAt path typeSlice j ErrSliceSmallTopZ ∈ validateSlices.step path bz last j1 s
      ↔ j1 = j ∧ s.TopZ ≠ 0 ∧ s.TopZ < bz := by
  unfold validateSlices.step
  constructor
  · intro h
    simp only [List.mem_append] at h
    rcases h with (h | h) | h
    · split_ifs at h with h0 h1
      · simp [NewIndexedAt, ErrSliceSmallTopZ] at h
      · simp [NewIndexedAt, ErrSliceSmallTopZ] at h
        exact ⟨h.symm, h0, h1⟩
      · simp at h
    · rw [mem_ite_singleton] at h
      obtain ⟨_, h⟩ := h
      simp [NewIndexedAt, ErrSliceNoMonotonic, ErrSliceSmallTopZ] at h
    · simp only [mem_ite_nil_left, List.mem_append, List.mem_map, mem_ite_singleton] at h
      rcases h.2 with (h | h) | h
      · simp [NewIndexedAt, ErrSliceInsufficientVertices, ErrSliceSmallTopZ] at h
      · simp [NewIndexedAt, ErrSliceInsufficientPolygons, ErrSliceSmallTopZ] at h
      · obtain ⟨a, ha, hEq⟩ := h
        obtain ⟨k1, rfl⟩ := mem_polygons_form path _ 0 a ha
        simp [NewIndexedAt, ErrSliceInsufficientSegments, ErrSliceSmallTopZ] at hEq
  · rintro ⟨rfl, h0, h1⟩
    simp only [List.mem_append]
    left; left
    simp [h0, h1]

theorem reports_NoMonotonic_iff (r : SliceStack) (m : Model) (path : String) (j : Nat) :
    NewIndexedAt path typeSlice j ErrSliceNoMonotonic ∈ r.validateSlices m path
      ↔ ∃ s, r.Slices[j]? = some s ∧ s.TopZ ≤ prevTopZ (.finite (-MaxFloat32)) r.Slices j := by
  simp only [SliceStack.validateSlices, mem_validateSlices_loop, mem_step_NoMonotonic, Nat.zero_add]
  constructor
  · rintro ⟨k, s, hk, rfl, h⟩
    exact ⟨s, hk, h⟩
  · rintro ⟨s, hk, h⟩
    exact ⟨j, s, hk, rfl, h⟩

theorem reports_MissingZTop_iff (r : SliceStack) (m : Model) (path : String) (j : Nat) :
    NewIndexedAt path typeSlice j (.MissingFieldError attrZTop) ∈ r.validateSlices m path
      ↔ ∃ s, r.Slices[j]? = some s ∧ s.TopZ = 0 := by
  simp only [SliceStack.validateSlices, mem_validateSlices_loop, mem_step_MissingZTop, Nat.zero_add]
  constructor
  · rintro ⟨k, s, hk, rfl, h⟩
    exact ⟨s, hk, h⟩
  · rintro ⟨s, hk, h⟩
    exact ⟨j, s, hk, rfl, h⟩

theorem reports_SmallTopZ_iff (r : SliceStack) (m : Model) (path : String) (j : Nat) :
    NewIndexedAt path typeSlice j ErrSliceSmallTopZ ∈ r.validateSlices m path
      ↔ ∃ s, r.Slices[j]? = some s ∧ s.TopZ ≠ 0 ∧ s.TopZ < r.BottomZ := by
  simp only [SliceStack.validateSlices, mem_validateSlices_loop, mem_step_SmallTopZ, Nat.zero_add]
  constructor
  · rintro ⟨k, s, hk, rfl, h⟩
    exact ⟨s, hk, h⟩
  · rintro ⟨s, hk, h⟩
    exact ⟨j, s, hk, rfl, h⟩

theorem float32.ofNat_eq (n : ℕ) : (OfNat.ofNat n : float32) = .finite (n : ℚ) := rfl

theorem float32.finite_le_finite (a b : ℚ) : float32.finite a ≤ float32.finite b ↔ a ≤ b := by
  show float32.le _ _ = true ↔ _
  simp [float32.le]

theorem float32.finite_lt_finite (a b : ℚ) : float32.finite a < float32.finite b ↔ a < b := by
  show float32.lt _ _ = true ↔ _
  simp [float32.lt]

theorem float32.not_le_iff_lt (a b : float32) (ha : a ≠ .NaN) (hb : b ≠ .NaN) :
    ¬ a ≤ b ↔ b < a := by
  show ¬ float32.le _ _ = true ↔ float32.lt _ _ = true
  cases a <;> cases b <;> simp [float32.le, float32.lt] at ha hb ⊢

theorem float32.not_lt_iff_le (a b : float32) (ha : a ≠ .NaN) (hb : b ≠ .NaN) :
    ¬ a < b ↔ b ≤ a := by
  show ¬ float32.lt _ _ = true ↔ float32.le _ _ = true
  cases a <;> cases b <;> simp [float32.le, float32.lt] at ha hb ⊢

theorem float32.ne_NaN_of_le (a b : float32) (h : a ≤ b) : a ≠ .NaN ∧ b ≠ .NaN := by
  revert h
  show float32.le _ _ = true → _
  cases a <;> cases b <;> simp [float32.le]

theorem float32.ne_NaN_of_lt (a b : float32) (h : a < b) : a ≠ .NaN ∧ b ≠ .NaN := by
  revert h
  show float32.lt _ _ = true → _
  cases a <;> cases b <;> simp [float32.lt]

theorem float32.not_le_NaN (a : float32) : ¬ a ≤ float32.NaN := by
  show ¬ float32.le _ _ = true
  cases a <;> simp [float32.le]

theorem float32.not_NaN_le (a : float32) : ¬ float32.NaN ≤ a := by
  show ¬ float32.le _ _ = true
  cases a <;> simp [float32.le]

theorem float32.neg_max_lt (n : ℕ) :
    float32.finite (-MaxFloat32) < (OfNat.ofNat n : float32) := by
  show float32.lt (float32.finite (-MaxFloat32)) (float32.finite (n : ℚ)) = true
  have h : (0 : ℚ) ≤ n := Nat.cast_nonneg n
  simp only [float32.lt, decide_eq_true_eq, MaxFloat32]
  linarith

theorem float32.not_le_neg_max (n : ℕ) :
    ¬ (OfNat.ofNat n : float32) ≤ float32.finite (-MaxFloat32) := by
  show ¬ float32.le (float32.finite (n : ℚ)) (float32.finite (-MaxFloat32)) = true
  have h : (0 : ℚ) ≤ n := Nat.cast_nonneg n
  simp only [float32.le, decide_eq_true_eq, MaxFloat32, not_le]
  linarith

theorem float32.not_lt_of_le (a b : float32) (h : a ≤ b) : ¬ b < a := by
  revert h
  show float32.le _ _ = true → ¬ float32.lt _ _ = true
  cases a <;> cases b <;> simp [float32.le, float32.lt]

theorem prevTopZ_ne_NaN (init : float32) (ss : List Slice) (hinit : init ≠ .NaN)
    (hss : ∀ s ∈ ss, s.TopZ ≠ .NaN) (k : Nat) : prevTopZ init ss k ≠ .NaN := by
  cases k with
  | zero => exact hinit
  | succ k1 =>
      simp only [prevTopZ]
      cases h : ss[k1]? with
      | none => exact hinit
      | some s => exact hss s (List.mem_iff_getElem?.mpr ⟨k1, h⟩)

theorem chain_iff_prevTopZ (ss : List Slice) : ∀ init : float32,
    List.Chain (· < ·) init (ss.map (fun s => s.TopZ))
      ↔ ∀ k s, ss[k]? = some s → prevTopZ init ss k < s.TopZ := by
  induction ss with
  | nil => intro init; simp
  | cons s0 rest ih =>
      intro init
      simp only [List.map_cons, List.chain_cons, ih]
      constructor
      · rintro ⟨h0, hrest⟩ k s hk
        cases k with
        | zero =>
            simp at hk; subst hk
            simpa [prevTopZ] using h0
        | succ k1 =>
            have hk1 : rest[k1]? = some s := by simpa using hk
            rw [prevTopZ_cons init s0 rest k1 s hk1]
            exact hrest k1 s hk1
      · intro h
        refine ⟨by simpa [prevTopZ] using h 0 s0 (by simp), ?_⟩
        intro k s hk
        have := h (k + 1) s (by simpa using hk)
        rwa [prevTopZ_cons init s0 rest k s hk] at this

theorem stackNaN_no_NoMonotonic (m : Model) (path : String) (j : Nat) :
    NewIndexedAt path typeSlice (j : Int) ErrSliceNoMonotonic ∉ stackNaN.validateSlices m path := by
  rw [reports_NoMonotonic_iff]
  rintro ⟨s, hs, hle⟩
  rcases j with _ | _ | _ | j
  · simp only [stackNaN, List.getElem?_cons_zero, Option.some.injEq] at hs
    subst hs
    exact float32.not_le_neg_max 1 (by simpa [prevTopZ] using hle)
  · simp only [stackNaN, List.getElem?_cons_succ, List.getElem?_cons_zero,
      Option.some.injEq] at hs
    subst hs
    exact (float32.ne_NaN_of_le _ _ hle).1 rfl
  · simp only [stackNaN, List.getElem?_cons_succ, List.getElem?_cons_zero,
      Option.some.injEq] at hs
    subst hs
    have h2 := (float32.ne_NaN_of_le _ _ hle).2
    simp [prevTopZ, stackNaN] at h2
  · simp [stackNaN] at hs

/-- C9 as stated fails: in the stack with `TopZ` values 1, NaN and 0.5 no slice gets
`SliceNoMonotonic`, since every comparison with NaN is false, yet the sequence is not
strictly increasing: the `TopZ` of slice 1 is not greater than that of slice 0, and the
`TopZ` of slice 2 is not greater than that of slice 1. -/
theorem C9_counterexample :
    (∀ (m : Model) (path : String) (j : Nat),
        NewIndexedAt path typeSlice (j : Int) ErrSliceNoMonotonic
          ∉ stackNaN.validateSlices m path)
    ∧ stackNaN.Slices.map (fun s => s.TopZ) = [1, .NaN, .finite (1 / 2)]
    ∧ ¬ ((1 : float32) < float32.NaN)
    ∧ ¬ (float32.NaN < float32.finite (1 / 2))
    ∧ ¬ List.Chain (fun a b => a < b) (float32.finite (-MaxFloat32))
        (stackNaN.Slices.map (fun s => s.TopZ)) := by
  refine ⟨stackNaN_no_NoMonotonic, rfl, by decide, by decide, ?_⟩
  intro h
  simp only [stackNaN, List.map_cons, List.map_nil, List.chain_cons] at h
  exact (float32.ne_NaN_of_lt _ _ h.2.1).2 rfl

theorem noMonotonic_iff_chain (st : SliceStack) (m : Model) (path : String)
    (hnan : ∀ s ∈ st.Slices, s.TopZ ≠ .NaN) :
    (∀ j : Nat, NewIndexedAt path typeSlice (j : Int) ErrSliceNoMonotonic
        ∉ st.validateSlices m path)
      ↔ List.Chain (fun a b => a < b) (float32.finite (-MaxFloat32))
          (st.Slices.map (fun s => s.TopZ)) := by
  rw [chain_iff_prevTopZ]
  simp only [reports_NoMonotonic_iff, not_exists, not_and]
  constructor
  · intro h k s hk
    exact (float32.not_le_iff_lt _ _ (hnan s (List.mem_iff_getElem?.mpr ⟨k, hk⟩))
      (prevTopZ_ne_NaN _ _ (by simp) hnan k)).mp (h k s hk)
  · intro h k s hk hle
    exact float32.not_lt_of_le _ _ hle (h k s hk)

theorem chain_no_NaN (l : List float32) : ∀ a : float32, List.Chain (fun a b => a < b) a l →
    ∀ x ∈ l, x ≠ .NaN := by
  induction l with
  | nil => intro a _ x hx; simp at hx
  | cons b t ih =>
      intro a h x hx
      obtain ⟨hab, ht⟩ := List.chain_cons.mp h
      rcases List.mem_cons.mp hx with rfl | hx
      · exact (float32.ne_NaN_of_lt _ _ hab).2
      · exact ih b ht x hx

/-- C9 (amended): `SliceNoMonotonic` follows the comparison `<=` of the code.
`validateSlices` reports `SliceNoMonotonic` on slice `j + 1` if and only if its `TopZ` is
less than or equal to the `TopZ` of slice `j` in the `float32` comparison, which is false
as soon as one of the two is not a number, and on slice 0 if and only if its `TopZ` is
less than or equal to `-MaxFloat32`. When neither `TopZ` is NaN this is the case exactly
when the `TopZ` of slice `j + 1` is not strictly greater than that of slice `j`; in a
stack without NaN `TopZ` no `SliceNoMonotonic` is reported exactly when the `TopZ`
sequence, started from `-MaxFloat32`, is strictly increasing, and a strictly increasing
sequence never gets the error. For `BottomZ = 0` and `TopZ` values `[1, 0.5]` the error
is reported on the second slice and not on the first. -/
theorem C9_SliceNoMonotonic_iff_le_previous (r : SliceStack) (m : Model) (path : String) :
    (∀ (j : Nat) (sprev s : Slice), r.Slices[j]? = some sprev → r.Slices[j + 1]? = some s →
      (NewIndexedAt path typeSlice ((j + 1 : Nat) : Int) ErrSliceNoMonotonic
          ∈ r.validateSlices m path ↔ s.TopZ ≤ sprev.TopZ))
    ∧ (∀ s : Slice, r.Slices[0]? = some s →
      (NewIndexedAt path typeSlice ((0 : Nat) : Int) ErrSliceNoMonotonic ∈ r.validateSlices m path
        ↔ s.TopZ ≤ float32.finite (-MaxFloat32)))
    ∧ (∀ (j : Nat) (sprev s : Slice), r.Slices[j]? = some sprev → r.Slices[j + 1]? = some s →
      sprev.TopZ ≠ .NaN → s.TopZ ≠ .NaN →
      (NewIndexedAt path typeSlice ((j + 1 : Nat) : Int) ErrSliceNoMonotonic
          ∈ r.validateSlices m path ↔ ¬ sprev.TopZ < s.TopZ))
    ∧ (∀ (j : Nat) (sprev s : Slice), r.Slices[j]? = some sprev → r.Slices[j + 1]? = some s →
      (sprev.TopZ = .NaN ∨ s.TopZ = .NaN) →
      NewIndexedAt path typeSlice ((j + 1 : Nat) : Int) ErrSliceNoMonotonic
          ∉ r.validateSlices m path)
    ∧ ((∀ s ∈ r.Slices, s.TopZ ≠ .NaN) →
        ((∀ j : Nat, NewIndexedAt path typeSlice (j : Int) ErrSliceNoMonotonic
            ∉ r.validateSlices m path)
          ↔ List.Chain (fun a b => a < b) (float32.finite (-MaxFloat32))
              (r.Slices.map (fun s => s.TopZ))))
    ∧ (List.Chain (fun a b => a < b) (float32.finite (-MaxFloat32))
          (r.Slices.map (fun s => s.TopZ)) →
        ∀ j : Nat, NewIndexedAt path typeSlice (j : Int) ErrSliceNoMonotonic
            ∉ r.validateSlices m path)
    ∧ (NewIndexedAt path typeSlice ((1 : Nat) : Int) ErrSliceNoMonotonic
          ∈ stackDecreasing.validateSlices m path
        ∧ NewIndexedAt path typeSlice ((0 : Nat) : Int) ErrSliceNoMonotonic
          ∉ stackDecreasing.validateSlices m path) := by
  have hstep : ∀ (j : Nat) (sprev s : Slice), r.Slices[j]? = some sprev →
      r.Slices[j + 1]? = some s →
      (NewIndexedAt path typeSlice ((j + 1 : Nat) : Int) ErrSliceNoMonotonic
          ∈ r.validateSlices m path ↔ s.TopZ ≤ sprev.TopZ) := by
    intro j sprev s hprev hs
    rw [reports_NoMonotonic_iff]
    simp [hs, prevTopZ, hprev]
  refine ⟨hstep, ?_, ?_, ?_, ?_, ?_, ?_, ?_⟩
  · intro s hs
    rw [reports_NoMonotonic_iff]
    simp [hs, prevTopZ]
  · intro j sprev s hprev hs hn1 hn2
    rw [hstep j sprev s hprev hs]
    exact (float32.not_lt_iff_le _ _ hn1 hn2).symm
  · intro j sprev s hprev hs hn
    rw [hstep j sprev s hprev hs]
    intro hle
    have := float32.ne_NaN_of_le _ _ hle
    rcases hn with hn | hn
    · exact this.2 hn
    · exact this.1 hn
  · intro hnan
    exact noMonotonic_iff_chain r m path hnan
  · intro hch
    have hnan : ∀ s ∈ r.Slices, s.TopZ ≠ .NaN := by
      intro s hs
      exact chain_no_NaN _ _ hch s.TopZ (List.mem_map.mpr ⟨s, hs, rfl⟩)
    exact (noMonotonic_iff_chain r m path hnan).mpr hch
  · rw [reports_NoMonotonic_iff]
    refine ⟨⟨.finite (1 / 2), [], []⟩, rfl, ?_⟩
    simp [prevTopZ, stackDecreasing, float32.ofNat_eq, float32.finite_le_finite]
    norm_num
  · rw [reports_NoMonotonic_iff]
    rintro ⟨s, hs, hle⟩
    simp only [stackDecreasing, List.getElem?_cons_zero, Option.some.injEq] at hs
    subst hs
    exact float32.not_le_neg_max 1 (by simpa [prevTopZ] using hle)

/-- Witness of the amended C9 on the stack of the spec example. -/
theorem C9_SliceNoMonotonic_iff_le_previous_witness :
    (NewIndexedAt rootPath typeSlice ((0 + 1 : Nat) : Int) ErrSliceNoMonotonic
        ∈ stackDecreasing.validateSlices emptyModel rootPath
      ↔ ¬ ((1 : float32) < float32.finite (1 / 2))) :=
  (C9_SliceNoMonotonic_iff_le_previous stackDecreasing emptyModel rootPath).2.2.1 0
    { TopZ := 1, Vertices := [], Polygons := [] }
    { TopZ := .finite (1 / 2), Vertices := [], Polygons := [] } rfl rfl (by decide) (by decide)

/-- C10 as stated fails: slice 1 of the stack with `TopZ` values 1, NaN and 0.5 gets
neither the missing-field error nor `SliceSmallTopZ`, yet its `TopZ` is not at least
`BottomZ`, because every comparison with NaN is false. -/
theorem C10_counterexample :
    (∀ (m : Model) (path : String),
      NewIndexedAt path typeSlice ((1 : Nat) : Int) (.MissingFieldError attrZTop)
          ∉ stackNaN.validateSlices m path
      ∧ NewIndexedAt path typeSlice ((1 : Nat) : Int) ErrSliceSmallTopZ
          ∉ stackNaN.validateSlices m path)
    ∧ stackNaN.Slices[1]? = some { TopZ := .NaN, Vertices := [], Polygons := [] }
    ∧ ¬ (stackNaN.BottomZ ≤ float32.NaN) := by
  refine ⟨?_, rfl, by decide⟩
  intro m path
  rw [reports_MissingZTop_iff, reports_SmallTopZ_iff]
  constructor
  · rintro ⟨s, hs, h0⟩
    simp only [stackNaN, List.getElem?_cons_succ, List.getElem?_cons_zero,
      Option.some.injEq] at hs
    subst hs
    revert h0
    decide
  · rintro ⟨s, hs, _, hlt⟩
    simp only [stackNaN, List.getElem?_cons_succ, List.getElem?_cons_zero,
      Option.some.injEq] at hs
    subst hs
    exact (float32.ne_NaN_of_lt _ _ hlt).1 rfl

/-- C10 (amended): `TopZ` presence and lower bound. For slice `j` of a stack,
`validateSlices` reports a `MissingField` error for `ztop` on slice `j` if and only if
its `TopZ` is 0, reports `SliceSmallTopZ` on slice `j` if and only if its `TopZ` is not 0
and is below `BottomZ` in the `float32` comparison, and reports neither exactly when
`TopZ` is not 0 and is not below `BottomZ`; when neither `TopZ` nor `BottomZ` is NaN,
that is exactly when `TopZ` is not 0 and at least `BottomZ`. A slice whose `TopZ` is
NaN, and every slice with a non-zero `TopZ` of a stack whose `BottomZ` is NaN, gets
neither error. -/
theorem C10_TopZ_presence_and_lower_bound (r : SliceStack) (m : Model) (path : String)
    (j : Nat) (s : Slice) (hs : r.Slices[j]? = some s) :
    (NewIndexedAt path typeSlice (j : Int) (.MissingFieldError attrZTop) ∈ r.validateSlices m path
      ↔ s.TopZ = 0)
    ∧ (NewIndexedAt path typeSlice (j : Int) ErrSliceSmallTopZ ∈ r.validateSlices m path
      ↔ s.TopZ ≠ 0 ∧ s.TopZ < r.BottomZ)
    ∧ ((NewIndexedAt path typeSlice (j : Int) (.MissingFieldError attrZTop)
            ∉ r.validateSlices m path
          ∧ NewIndexedAt path typeSlice (j : Int) ErrSliceSmallTopZ ∉ r.validateSlices m path)
      ↔ s.TopZ ≠ 0 ∧ ¬ s.TopZ < r.BottomZ)
    ∧ (s.TopZ ≠ .NaN → r.BottomZ ≠ .NaN →
        ((NewIndexedAt path typeSlice (j : Int) (.MissingFieldError attrZTop)
              ∉ r.validateSlices m path
            ∧ NewIndexedAt path typeSlice (j : Int) ErrSliceSmallTopZ
              ∉ r.validateSlices m path)
          ↔ s.TopZ ≠ 0 ∧ r.BottomZ ≤ s.TopZ))
    ∧ ((s.TopZ = .NaN ∨ (r.BottomZ = .NaN ∧ s.TopZ ≠ 0)) →
        NewIndexedAt path typeSlice (j : Int) (.MissingFieldError attrZTop)
            ∉ r.validateSlices m path
          ∧ NewIndexedAt path typeSlice (j : Int) ErrSliceSmallTopZ
            ∉ r.validateSlices m path) := by
  have hM : NewIndexedAt path typeSlice (j : Int) (.MissingFieldError attrZTop)
      ∈ r.validateSlices m path ↔ s.TopZ = 0 := by
    rw [reports_MissingZTop_iff]; simp [hs]
  have hS : NewIndexedAt path typeSlice (j : Int) ErrSliceSmallTopZ ∈ r.validateSlices m path
      ↔ s.TopZ ≠ 0 ∧ s.TopZ < r.BottomZ := by
    rw [reports_SmallTopZ_iff]; simp [hs]
  have hN : (NewIndexedAt path typeSlice (j : Int) (.MissingFieldError attrZTop)
            ∉ r.validateSlices m path
          ∧ NewIndexedAt path typeSlice (j : Int) ErrSliceSmallTopZ ∉ r.validateSlices m path)
      ↔ s.TopZ ≠ 0 ∧ ¬ s.TopZ < r.BottomZ := by
    rw [hM, hS]
    constructor
    · rintro ⟨h0, h1⟩
      exact ⟨h0, fun hlt => h1 ⟨h0, hlt⟩⟩
    · rintro ⟨h0, h1⟩
      exact ⟨h0, fun h => h1 h.2⟩
  refine ⟨hM, hS, hN, ?_, ?_⟩
  · intro hn1 hn2
    rw [hN, float32.not_lt_iff_le _ _ hn1 hn2]
  · intro h
    rw [hN]
    rcases h with h | ⟨h, h0⟩
    · refine ⟨?_, fun hlt => (float32.ne_NaN_of_lt _ _ hlt).1 h⟩
      rw [h]
      decide
    · exact ⟨h0, fun hlt => (float32.ne_NaN_of_lt _ _ hlt).2 h⟩

/-- Witness of the amended C10 on the first slice of the stack of the spec example. -/
theorem C10_TopZ_presence_and_lower_bound_witness :
    (NewIndexedAt rootPath typeSlice ((0 : Nat) : Int) (.MissingFieldError attrZTop)
          ∉ stackDecreasing.validateSlices emptyModel rootPath
        ∧ NewIndexedAt rootPath typeSlice ((0 : Nat) : Int) ErrSliceSmallTopZ
          ∉ stackDecreasing.validateSlices emptyModel rootPath)
      ↔ (1 : float32) ≠ 0 ∧ stackDecreasing.BottomZ ≤ 1 :=
  (C10_TopZ_presence_and_lower_bound stackDecreasing emptyModel rootPath 0
    { TopZ := 1, Vertices := [], Polygons := [] } rfl).2.2.2.1 (by decide) (by decide)

theorem cause_NewIndexedAt_plain (path el : String) (i : Int) (x : GoError)
    (h1 : ∀ T c q, x ≠ .Error T c q) (h2 : ∀ es, x ≠ .ErrorList es) :
    (NewIndexedAt path el i x).cause = x := by
  cases x with
  | Error T c q => exact absurd rfl (h1 T c q)
  | ErrorList es => exact absurd rfl (h2 es)
  | _ => rfl

theorem step_not_SlicesAndRefs (path : String) (bz last : float32) (j : Nat) (s : Slice) (e : GoError)
    (h : e ∈ validateSlices.step path bz last j s) : e.isSentinel ErrSlicesAndRefs = false := by
  unfold validateSlices.step at h
  simp only [List.mem_append] at h
  rcases h with (h | h) | h
  · split_ifs at h
    · simp only [List.mem_singleton] at h; subst h; rfl
    · simp only [List.mem_singleton] at h; subst h; rfl
    · simp at h
  · rw [mem_ite_singleton] at h
    rw [h.2]; rfl
  · simp only [mem_ite_nil_left, List.mem_append, List.mem_map, mem_ite_singleton] at h
    rcases h.2 with (h | h) | h
    · rw [h.2]; rfl
    · rw [h.2]; rfl
    · obtain ⟨a, ha, hEq⟩ := h
      obtain ⟨k1, rfl⟩ := mem_polygons_form path _ 0 a ha
      subst hEq; rfl

theorem refs_step_not_SlicesAndRefs (m : Model) (path : String) (last : float32) (i : Nat)
    (ref : SliceRef) (e : GoError) (h : e ∈ (validateRefs.step m path last i ref).1) :
    e.isSentinel ErrSlicesAndRefs = false := by
  unfold validateRefs.step at h
  dsimp only at h
  split at h
  · simp only [List.mem_append, mem_ite_singleton] at h
    rcases h with h | h
    · split_ifs at h
      · simp only [List.mem_singleton] at h; subst h; rfl
      · simp only [List.mem_singleton] at h; subst h; rfl
      · simp at h
    · rw [h.2]; rfl
  · split at h
    · simp only [List.mem_append, mem_ite_singleton] at h
      rcases h with h | h
      · rw [h.2]; rfl
      · split at h
        · rw [mem_ite_singleton] at h
          rw [h.2]; rfl
        · simp at h
    · simp only [List.mem_singleton] at h; subst h; rfl
    · simp only [List.mem_singleton] at h; subst h; rfl

theorem refs_loop_not_SlicesAndRefs (m : Model) (path : String) (refs : List SliceRef) :
    ∀ (i : Nat) (last : float32) (e : GoError), e ∈ validateRefs.loop m path i last refs →
      e.isSentinel ErrSlicesAndRefs = false := by
  induction refs with
  | nil => intro i last e h; simp [validateRefs.loop] at h
  | cons ref rest ih =>
      intro i last e h
      simp only [validateRefs.loop, List.mem_append] at h
      rcases h with h | h
      · exact refs_step_not_SlicesAndRefs m path last i ref e h
      · exact ih _ _ e h

/-- C8: slices XOR refs. The result of `SliceStack.Validate` contains exactly one
`SlicesAndRefs` error when `Slices` and `Refs` are both non-empty or both empty, and
none when exactly one of them is non-empty. -/
theorem C8_Slices_xor_Refs (r : SliceStack) (m : Model) (path : String) :
    (((r.Slices ≠ [] ∧ r.Refs ≠ []) ∨ (r.Slices = [] ∧ r.Refs = [])) →
      (r.Validate m path).countP (fun e => e.isSentinel ErrSlicesAndRefs) = 1)
    ∧ (((r.Slices ≠ [] ∧ r.Refs = []) ∨ (r.Slices = [] ∧ r.Refs ≠ [])) →
      (r.Validate m path).countP (fun e => e.isSentinel ErrSlicesAndRefs) = 0) := by
  have hrefs : (r.validateRefs m path).countP (fun e => e.isSentinel ErrSlicesAndRefs) = 0 := by
    rw [List.countP_eq_zero]
    intro e he
    simp [refs_loop_not_SlicesAndRefs m path r.Refs 0 _ e he]
  have hslices : (r.validateSlices m path).countP (fun e => e.isSentinel ErrSlicesAndRefs) = 0 := by
    rw [List.countP_eq_zero]
    intro e he
    obtain ⟨k, s, _, hstep⟩ := (mem_validateSlices_loop path r.BottomZ r.Slices 0 _ e).mp he
    simp [step_not_SlicesAndRefs path r.BottomZ _ _ s e hstep]
  have hself : GoError.isSentinel ErrSlicesAndRefs ErrSlicesAndRefs = true := by decide
  constructor
  · intro h
    have hc : (r.Slices.length ≠ 0 ∧ r.Refs.length ≠ 0)
        ∨ (r.Slices.length = 0 ∧ r.Refs.length = 0) := by
      simpa [List.length_eq_zero] using h
    simp only [SliceStack.Validate, if_pos hc, List.countP_append, hrefs, hslices]
    simp [List.countP_cons, hself]
  · intro h
    have hc : ¬ ((r.Slices.length ≠ 0 ∧ r.Refs.length ≠ 0)
        ∨ (r.Slices.length = 0 ∧ r.Refs.length = 0)) := by
      rcases h with ⟨h1, h2⟩ | ⟨h1, h2⟩ <;> simp [List.length_eq_zero, h1, h2]
    simp only [SliceStack.Validate, if_neg hc, List.countP_append, hrefs, hslices]
    simp

/-- Witness of C8 on a stack with slices and no refs, and on a stack with neither. -/
theorem C8_Slices_xor_Refs_witness :
    (stackDecreasing.Validate emptyModel rootPath).countP (fun e => e.isSentinel ErrSlicesAndRefs) = 0
    ∧ (({ ID := 2, BottomZ := 0, Slices := [], Refs := [] } : SliceStack).Validate
        emptyModel rootPath).countP (fun e => e.isSentinel ErrSlicesAndRefs) = 1 :=
  ⟨(C8_Slices_xor_Refs stackDecreasing emptyModel rootPath).2
      (Or.inl ⟨by simp [stackDecreasing], rfl⟩),
   (C8_Slices_xor_Refs { ID := 2, BottomZ := 0, Slices := [], Refs := [] } emptyModel rootPath).1
      (Or.inr ⟨rfl, rfl⟩)⟩

/-! ## Theorems: transforms of the ancestry -/

theorem objLoop_returns (m : Model) (path : String) (id oID : Nat)
    (recur : Object → Option Bool) (cs : List Component)
    (h : ∀ c ∈ cs, ∀ o1, m.FindObject (c.ObjectPath path) c.ObjectID = some o1 →
      ∃ b, recur o1 = some b) :
    ∃ b, validateObjectTransforms.loop m path id oID recur cs = some b := by
  induction cs with
  | nil => exact ⟨true, rfl⟩
  | cons c rest ih =>
      have ihr := ih (fun c1 hc1 => h c1 (List.mem_cons_of_mem c hc1))
      unfold validateObjectTransforms.loop
      split_ifs
      · exact ⟨false, rfl⟩
      · exact ⟨true, rfl⟩
      · cases hfo : m.FindObject (c.ObjectPath path) c.ObjectID with
        | none => simpa using ihr
        | some o1 =>
            obtain ⟨b, hb⟩ := h c (List.mem_cons_self c rest) o1 hfo
            cases b with
            | false => exact ⟨false, by simp [hb]⟩
            | true => simpa [hb] using ihr

theorem walk_returns (m : Model) (path : String) (id : Nat) (rank : Object → Nat)
    (hacyc : Acyclic m path rank) : ∀ (fuel : Nat) (o : Object), Reached m path o →
      rank o < fuel → ∃ b, validateObjectTransforms m path id fuel o = some b := by
  intro fuel
  induction fuel with
  | zero => intro o _ h; exact absurd h (Nat.not_lt_zero _)
  | succ n ih =>
      intro o ho hlt
      unfold validateObjectTransforms
      apply objLoop_returns
      intro c hc o1 hfo
      have hr := hacyc o c o1 ho hc hfo
      exact ih o1 (Reached.component o c o1 ho hc hfo) (by omega)

theorem objLoop_true (m : Model) (path : String) (id oID : Nat)
    (recur : Object → Option Bool) (cs : List Component)
    (hself : ∀ c ∈ cs, ¬ (c.ObjectID = oID ∧ c.ObjectPath path = path))
    (h : validateObjectTransforms.loop m path id oID recur cs = some true) :
    ∀ c ∈ cs, ¬ (c.ObjectID = id ∧ c.ObjectPath path = path ∧ nonPlanar c.Transform = true)
      ∧ ∀ o1, m.FindObject (c.ObjectPath path) c.ObjectID = some o1 → recur o1 = some true := by
  induction cs with
  | nil => intro c hc; simp at hc
  | cons c0 rest ih =>
      have hself0 := hself c0 (List.mem_cons_self c0 rest)
      have hselfr : ∀ c ∈ rest, ¬ (c.ObjectID = oID ∧ c.ObjectPath path = path) :=
        fun c hc => hself c (List.mem_cons_of_mem c0 hc)
      unfold validateObjectTransforms.loop at h
      by_cases hbad : c0.ObjectID = id ∧ c0.ObjectPath path = path ∧ nonPlanar c0.Transform = true
      · rw [if_pos hbad] at h
        simp at h
      · rw [if_neg hbad, if_neg hself0] at h
        cases hfo : m.FindObject (c0.ObjectPath path) c0.ObjectID with
        | none =>
            simp only [hfo] at h
            intro c hc
            rcases List.mem_cons.mp hc with rfl | hc
            · exact ⟨hbad, by intro o1 ho1; rw [hfo] at ho1; cases ho1⟩
            · exact ih hselfr h c hc
        | some o0 =>
            simp only [hfo] at h
            cases hrec : recur o0 with
            | none => simp [hrec] at h
            | some b =>
                simp only [hrec] at h
                cases b with
                | false => simp at h
                | true =>
                    intro c hc
                    rcases List.mem_cons.mp hc with rfl | hc
                    · refine ⟨hbad, ?_⟩
                      intro o1 ho1
                      rw [hfo] at ho1
                      cases ho1
                      exact hrec
                    · exact ih hselfr h c hc

theorem buildLoop_returns (m : Model) (path : String) (id fuel : Nat) (items : List Item)
    (h : ∀ item ∈ items, ∀ o, m.FindObject (item.ObjectPath path) item.ObjectID = some o →
      ∃ b, validateObjectTransforms m path id fuel o = some b) :
    ∃ b, validateBuildTransforms.loop m path id fuel items = some b := by
  induction items with
  | nil => exact ⟨true, rfl⟩
  | cons item rest ih =>
      have ihr := ih (fun i1 hi1 => h i1 (List.mem_cons_of_mem item hi1))
      unfold validateBuildTransforms.loop
      split_ifs
      · exact ⟨false, rfl⟩
      · cases hfo : m.FindObject (item.ObjectPath path) item.ObjectID with
        | none => simpa using ihr
        | some o =>
            obtain ⟨b, hb⟩ := h item (List.mem_cons_self item rest) o hfo
            cases b with
            | false => exact ⟨false, by simp [hb]⟩
            | true => simpa [hb] using ihr

theorem buildLoop_true (m : Model) (path : String) (id fuel : Nat) (items : List Item)
    (h : validateBuildTransforms.loop m path id fuel items = some true) :
    ∀ item ∈ items,
      ¬ (item.ObjectID = id ∧ item.ObjectPath path = path ∧ nonPlanar item.Transform = true)
      ∧ ∀ o, m.FindObject (item.ObjectPath path) item.ObjectID = some o →
          validateObjectTransforms m path id fuel o = some true := by
  induction items with
  | nil => intro item hi; simp at hi
  | cons i0 rest ih =>
      unfold validateBuildTransforms.loop at h
      by_cases hbad : i0.ObjectID = id ∧ i0.ObjectPath path = path ∧ nonPlanar i0.Transform = true
      · rw [if_pos hbad] at h
        simp at h
      · rw [if_neg hbad] at h
        cases hfo : m.FindObject (i0.ObjectPath path) i0.ObjectID with
        | none =>
            simp only [hfo] at h
            intro item hi
            rcases List.mem_cons.mp hi with rfl | hi
            · exact ⟨hbad, by intro o ho; rw [hfo] at ho; cases ho⟩
            · exact ih h item hi
        | some o0 =>
            simp only [hfo] at h
            cases hrec : validateObjectTransforms m path id fuel o0 with
            | none => simp [hrec] at h
            | some b =>
                simp only [hrec] at h
                cases b with
                | false => simp at h
                | true =>
                    intro item hi
                    rcases List.mem_cons.mp hi with rfl | hi
                    · refine ⟨hbad, ?_⟩
                      intro o ho
                      rw [hfo] at ho
                      cases ho
                      exact hrec
                    · exact ih h item hi

theorem reached_walk_true (m : Model) (path : String) (id fuel : Nat)
    (hself : NoSelfReference m path)
    (h : validateBuildTransforms m path id fuel = some true) (o : Object)
    (ho : Reached m path o) : ∃ f, validateObjectTransforms m path id f o = some true := by
  induction ho with
  | item item o hi hfo => exact ⟨fuel, (buildLoop_true m path id fuel _ h item hi).2 o hfo⟩
  | component o c o1 hro hc hfo ih =>
      obtain ⟨f, hf⟩ := ih
      cases f with
      | zero => simp [validateObjectTransforms] at hf
      | succ n =>
          unfold validateObjectTransforms at hf
          exact ⟨n, (objLoop_true m path id o.ID _ o.Components
            (fun c1 hc1 => hself o c1 hro hc1) hf c hc).2 o1 hfo⟩

theorem rank_lt_walkBound (m : Model) (path : String) (rank : Object → Nat) (items : List Item) :
    ∀ item ∈ items, ∀ o, m.FindObject (item.ObjectPath path) item.ObjectID = some o →
      rank o < walkBound m path rank items := by
  induction items with
  | nil => intro item hi; simp at hi
  | cons i0 rest ih =>
      intro item hi o hfo
      rcases List.mem_cons.mp hi with rfl | hi
      · simp only [walkBound, hfo]
        omega
      · have := ih item hi o hfo
        simp only [walkBound]
        cases m.FindObject (i0.ObjectPath path) i0.ObjectID with
        | none => simpa using this
        | some o0 => simp only []; omega

theorem build_walk_false_of_direct (m : Model) (path : String) (id : Nat)
    (rank : Object → Nat) (hacyc : Acyclic m path rank) (hself : NoSelfReference m path)
    (hbad : (∃ item ∈ m.Build.Items, item.ObjectID = id ∧ item.ObjectPath path = path
          ∧ nonPlanar item.Transform = true)
      ∨ (∃ o c, Reached m path o ∧ c ∈ o.Components ∧ c.ObjectID = id
          ∧ c.ObjectPath path = path ∧ nonPlanar c.Transform = true))
    (fuel : Nat) (hfuel : walkBound m path rank m.Build.Items ≤ fuel) :
    validateBuildTransforms m path id fuel = some false := by
  have hret : ∃ b, validateBuildTransforms m path id fuel = some b := by
    apply buildLoop_returns
    intro item hi o hfo
    exact walk_returns m path id rank hacyc fuel o (Reached.item item o hi hfo)
      (lt_of_lt_of_le (rank_lt_walkBound m path rank _ item hi o hfo) hfuel)
  obtain ⟨b, hb⟩ := hret
  cases b with
  | false => exact hb
  | true =>
      exfalso
      rcases hbad with ⟨item, hi, h1, h2, h3⟩ | ⟨o, c, ho, hc, h1, h2, h3⟩
      · exact (buildLoop_true m path id fuel _ hb item hi).1 ⟨h1, h2, h3⟩
      · obtain ⟨f, hf⟩ := reached_walk_true m path id fuel hself hb o ho
        cases f with
        | zero => simp [validateObjectTransforms] at hf
        | succ n =>
            unfold validateObjectTransforms at hf
            exact (objLoop_true m path id o.ID _ o.Components
              (fun c1 hc1 => hself o c1 ho hc1) hf c hc).1 ⟨h1, h2, h3⟩

theorem scaleZ_not_planar : validTransform scaleZ = false := by decide

theorem chain_FindObject_1 : chainModel.FindObject rootPath 1 = some chainA := by
  simp [Model.FindObject, Model.FindResources, Resources.FindObject, chainModel, chainA]

theorem chain_FindObject_2 : chainModel.FindObject rootPath 2 = some chainO := by
  simp [Model.FindObject, Model.FindResources, Resources.FindObject, chainModel, chainA, chainO]

theorem chain_Reached (o : Object) (h : Reached chainModel rootPath o) :
    o = chainA ∨ o = chainO := by
  induction h with
  | item item o hi hfo =>
      have hitems : chainModel.Build.Items
          = [{ ObjectID := 1, Path := "", Transform := some scaleZ }] := rfl
      rw [hitems, List.mem_singleton] at hi
      subst hi
      simp [Item.ObjectPath, chain_FindObject_1] at hfo
      exact Or.inl hfo.symm
  | component o c o1 _ hc hfo ih =>
      rcases ih with rfl | rfl
      · simp only [chainA, List.mem_singleton] at hc
        subst hc
        simp [Component.ObjectPath, chain_FindObject_2] at hfo
        exact Or.inr hfo.symm
      · simp [chainO] at hc

theorem chain_Acyclic : Acyclic chainModel rootPath chainRank := by
  intro o c o1 ho hc hfo
  rcases chain_Reached o ho with rfl | rfl
  · simp only [chainA, List.mem_singleton] at hc
    subst hc
    simp [Component.ObjectPath, chain_FindObject_2] at hfo
    subst hfo
    decide
  · simp [chainO] at hc

theorem chain_walk_true (fuel : Nat) :
    validateBuildTransforms chainModel rootPath 2 (fuel + 2) = some true := by
  have hitems : chainModel.Build.Items
      = [{ ObjectID := 1, Path := "", Transform := some scaleZ }] := rfl
  have hA : validateObjectTransforms chainModel rootPath 2 (fuel + 2) chainA = some true := by
    simp [validateObjectTransforms, validateObjectTransforms.loop, chainA, Component.ObjectPath,
      nonPlanar, chain_FindObject_2, chainO]
  simp [validateBuildTransforms, validateBuildTransforms.loop, hitems, Item.ObjectPath,
    chain_FindObject_1, hA]

/-- C7 as stated fails: in the acyclic chain model the build item that places object 1
has a transform that is not planar, object 1 has a component that targets the sliced
object 2, the slice-stack id of object 2 resolves to a slice stack, and
`SliceStackInfo.Validate` for object 2 returns no error at all. -/
theorem C7_counterexample :
    Acyclic chainModel rootPath chainRank
    ∧ (info10.SliceStackID ≠ 0
      ∧ (chainModel.FindResources rootPath).bind (fun rs => rs.FindAsset info10.SliceStackID)
          = some (.SliceStack stack10))
    ∧ (∃ item ∈ chainModel.Build.Items,
        chainModel.FindObject (item.ObjectPath rootPath) item.ObjectID = some chainA
        ∧ item.HasTransform = true ∧ item.Transform.map validTransform = some false
        ∧ ∃ c ∈ chainA.Components,
            chainModel.FindObject (c.ObjectPath rootPath) c.ObjectID = some chainO)
    ∧ info10.Validate chainModel rootPath (.Object chainO) 2 = some []
    ∧ info10.Validate chainModel rootPath (.Object chainO) 100 = some [] := by
  have hA : (chainModel.FindResources rootPath).bind
      (fun rs => rs.FindAsset info10.SliceStackID) = some (.SliceStack stack10) := by
    simp [Model.FindResources, Resources.FindAsset, chainModel, info10, Asset.Identify, stack10]
  have hclosed : checkAllClosed chainModel stack10 = true := by
    simp [checkAllClosed, isSliceStackClosed, stack10]
  have hV : ∀ fuel, info10.Validate chainModel rootPath (.Object chainO) (fuel + 2) = some [] := by
    intro fuel
    simp only [SliceStackInfo.Validate, hA]
    have hid : chainO.ID = 2 := rfl
    rw [hid, chain_walk_true fuel]
    simp [info10, hclosed]
  refine ⟨chain_Acyclic, ⟨by decide, hA⟩, ?_, hV 0, hV 98⟩
  refine ⟨{ ObjectID := 1, Path := "", Transform := some scaleZ }, ?_, ?_, rfl, ?_, ?_⟩
  · simp [chainModel]
  · simpa [Item.ObjectPath] using chain_FindObject_1
  · simp [scaleZ_not_planar]
  · exact ⟨{ ObjectID := 2, Path := "", Transform := none }, by simp [chainA],
      by simpa [Component.ObjectPath] using chain_FindObject_2⟩

/-- C7 (amended): the transforms that are checked are those of the build items and
components that target the sliced object itself. For every model with an acyclic
component graph in which no component carries the id of its own owner, and every object
whose slice-stack id resolves to a slice stack: if a build item that targets the object,
or a component of a reached object that targets the object, has a transform that is
present and not planar, then `SliceStackInfo.Validate` returns, for every bound on the
recursion depth from `walkBound` on, a list that contains `ErrSliceInvalidTranform`. -/
theorem C7_direct_transforms_checked (m : Model) (path : String) (obj : Object)
    (ext : SliceStackInfo) (r : SliceStack) (rank : Object → Nat)
    (hacyc : Acyclic m path rank) (hself : NoSelfReference m path)
    (hid : ext.SliceStackID ≠ 0)
    (hstack : (m.FindResources path).bind (fun rs => rs.FindAsset ext.SliceStackID)
      = some (.SliceStack r))
    (hbad : (∃ item ∈ m.Build.Items, item.ObjectID = obj.ID ∧ item.ObjectPath path = path
          ∧ nonPlanar item.Transform = true)
      ∨ (∃ o c, Reached m path o ∧ c ∈ o.Components ∧ c.ObjectID = obj.ID
          ∧ c.ObjectPath path = path ∧ nonPlanar c.Transform = true))
    (fuel : Nat) (hfuel : walkBound m path rank m.Build.Items ≤ fuel) :
    ∃ errs, ext.Validate m path (.Object obj) fuel = some errs
      ∧ ErrSliceInvalidTranform ∈ errs := by
  have hw := build_walk_false_of_direct m path obj.ID rank hacyc hself hbad fuel hfuel
  simp only [SliceStackInfo.Validate, if_neg hid, hstack, hw]
  refine ⟨_, rfl, ?_⟩
  simp

theorem direct_FindObject_1 : directModel.FindObject rootPath 1 = some directA := by
  simp [Model.FindObject, Model.FindResources, Resources.FindObject, directModel, directA]

theorem direct_FindObject_2 : directModel.FindObject rootPath 2 = some chainO := by
  simp [Model.FindObject, Model.FindResources, Resources.FindObject, directModel, directA, chainO]

theorem direct_Reached (o : Object) (h : Reached directModel rootPath o) :
    o = directA ∨ o = chainO := by
  induction h with
  | item item o hi hfo =>
      have hitems : directModel.Build.Items
          = [{ ObjectID := 1, Path := "", Transform := none }] := rfl
      rw [hitems, List.mem_singleton] at hi
      subst hi
      simp [Item.ObjectPath, direct_FindObject_1] at hfo
      exact Or.inl hfo.symm
  | component o c o1 _ hc hfo ih =>
      rcases ih with rfl | rfl
      · simp only [directA, List.mem_singleton] at hc
        subst hc
        simp [Component.ObjectPath, direct_FindObject_2] at hfo
        exact Or.inr hfo.symm
      · simp [chainO] at hc

theorem direct_Acyclic : Acyclic directModel rootPath chainRank := by
  intro o c o1 ho hc hfo
  rcases direct_Reached o ho with rfl | rfl
  · simp only [directA, List.mem_singleton] at hc
    subst hc
    simp [Component.ObjectPath, direct_FindObject_2] at hfo
    subst hfo
    decide
  · simp [chainO] at hc

theorem direct_NoSelfReference : NoSelfReference directModel rootPath := by
  intro o c ho hc
  rcases direct_Reached o ho with rfl | rfl
  · simp only [directA, List.mem_singleton] at hc
    subst hc
    simp [directA]
  · simp [chainO] at hc

/-- Witness of the amended C7 on the direct model: the component of object 1 that targets
the sliced object 2 is not planar, and the error is reported. -/
theorem C7_direct_transforms_checked_witness :
    ∃ errs, info10.Validate directModel rootPath (.Object chainO) 2 = some errs
      ∧ ErrSliceInvalidTranform ∈ errs :=
  C7_direct_transforms_checked directModel rootPath chainO info10 stack10 chainRank
    direct_Acyclic direct_NoSelfReference (by decide)
    (by simp [Model.FindResources, Resources.FindAsset, directModel, info10, Asset.Identify,
          stack10])
    (Or.inr ⟨directA, { ObjectID := 2, Path := "", Transform := some scaleZ },
      Reached.item { ObjectID := 1, Path := "", Transform := none } directA
        (by simp [directModel]) (by simpa [Item.ObjectPath] using direct_FindObject_1),
      by simp [directA], rfl, by simp [Component.ObjectPath],
      by simp [nonPlanar, scaleZ_not_planar]⟩)
    2 (by simp [walkBound, directModel, Item.ObjectPath, Model.FindObject, Model.FindResources,
          Resources.FindObject, directA, chainRank])

/-! ## Theorems: planarity and the pair index -/

/-- C19: the planarity predicate. `validTransform t` is true if and only if
`t[2] = t[6] = t[8] = t[9] = 0` and `t[10] = 1`, that is the off-diagonal entries of the
Z row and Z column of the 3x3 part are zero and the Z diagonal scale is 1; the identity
is planar and a translation does not change the result. -/
theorem C19_validTransform_planarity (t : Matrix) (x y z : ℚ) :
    (validTransform t = true ↔ t 2 = 0 ∧ t 6 = 0 ∧ t 8 = 0 ∧ t 9 = 0 ∧ t 10 = 1)
    ∧ (validTransform t = true ↔
        Matrix.entry t 0 2 = 0 ∧ Matrix.entry t 1 2 = 0 ∧ Matrix.entry t 2 0 = 0
          ∧ Matrix.entry t 2 1 = 0 ∧ Matrix.entry t 2 2 = 1)
    ∧ validTransform Identity = true
    ∧ validTransform (Matrix.Translate t x y z) = validTransform t := by
  have h1 : validTransform t = true ↔ t 2 = 0 ∧ t 6 = 0 ∧ t 8 = 0 ∧ t 9 = 0 ∧ t 10 = 1 := by
    simp [validTransform, and_assoc]
  refine ⟨h1, ?_, by decide, ?_⟩
  · rw [h1]
    exact Iff.rfl
  · simp [validTransform, Matrix.Translate]

/-- C20: the pair index is order-independent. After `AddMatch(a, b, v)` both
`CheckMatch(a, b)` and `CheckMatch(b, a)` return `(v, true)`; `newPairEntry(a, b)` equals
`newPairEntry(b, a)` and its first component is never greater than its second. -/
theorem C20_pair_index_order_independent (t : pairMatch) (a b v : Nat) :
    (t.AddMatch a b v).CheckMatch a b = (v, true)
    ∧ (t.AddMatch a b v).CheckMatch b a = (v, true)
    ∧ newPairEntry a b = newPairEntry b a
    ∧ (newPairEntry a b).a ≤ (newPairEntry a b).b := by
  have hsym : newPairEntry a b = newPairEntry b a := by
    unfold newPairEntry
    by_cases h1 : a < b
    · have h2 : ¬ b < a := by omega
      rw [if_pos h1, if_neg h2]
    · by_cases h2 : b < a
      · rw [if_neg h1, if_pos h2]
      · have : a = b := by omega
        subst this
        rfl
  refine ⟨?_, ?_, hsym, ?_⟩
  · simp [pairMatch.CheckMatch, pairMatch.AddMatch]
  · simp [pairMatch.CheckMatch, pairMatch.AddMatch, hsym]
  · unfold newPairEntry
    split_ifs with h
    · exact Nat.le_of_lt h
    · exact Nat.le_of_not_lt h

/-! ## Theorems: slice content -/

theorem mem_polygons_iff (path : String) (k : Nat) (ps : List Polygon) : ∀ k0 : Nat,
    NewIndexedAt path typePolygon (k : Int) ErrSliceInsufficientSegments
        ∈ validateSlices.polygons path k0 ps
      ↔ ∃ i p, ps[i]? = some p ∧ k0 + i = k ∧ p.Segments.length < 1 := by
  induction ps with
  | nil => intro k0; simp [validateSlices.polygons]
  | cons p0 rest ih =>
      intro k0
      simp only [validateSlices.polygons, List.mem_append, mem_ite_singleton, ih]
      constructor
      · rintro (⟨hlen, heq⟩ | ⟨i, p, hi, hk, hlen⟩)
        · simp [NewIndexedAt, ErrSliceInsufficientSegments] at heq
          exact ⟨0, p0, by simp, by omega, hlen⟩
        · exact ⟨i + 1, p, by simpa using hi, by omega, hlen⟩
      · rintro ⟨i, p, hi, hk, hlen⟩
        cases i with
        | zero =>
            left
            simp at hi; subst hi
            have : k0 = k := by omega
            subst this
            exact ⟨hlen, rfl⟩
        | succ i1 =>
            right
            exact ⟨i1, p, by simpa using hi, by omega, hlen⟩

theorem mem_step_InsufficientVertices (path : String) (bz last : float32) (j j1 : Nat) (s : Slice) :
    NewIndexedAt path typeSlice j ErrSliceInsufficientVertices
        ∈ validateSlices.step path bz last j1 s
      ↔ j1 = j ∧ ¬ (s.Polygons.length = 0 ∧ s.Vertices.length = 0) ∧ s.Vertices.length < 2 := by
  unfold validateSlices.step
  constructor
  · intro h
    simp only [List.mem_append] at h
    rcases h with (h | h) | h
    · split_ifs at h <;> simp [NewIndexedAt, ErrSliceInsufficientVertices, ErrSliceSmallTopZ] at h
    · rw [mem_ite_singleton] at h
      obtain ⟨_, h⟩ := h
      simp [NewIndexedAt, ErrSliceNoMonotonic, ErrSliceInsufficientVertices] at h
    · simp only [mem_ite_nil_left, List.mem_append, List.mem_map, mem_ite_singleton] at h
      obtain ⟨hne, h⟩ := h
      rcases h with (h | h) | h
      · obtain ⟨hlen, h⟩ := h
        simp [NewIndexedAt, ErrSliceInsufficientVertices] at h
        exact ⟨h.symm, hne, hlen⟩
      · simp [NewIndexedAt, ErrSliceInsufficientPolygons, ErrSliceInsufficientVertices] at h
      · obtain ⟨a, ha, hEq⟩ := h
        obtain ⟨k1, rfl⟩ := mem_polygons_form path _ 0 a ha
        simp [NewIndexedAt, ErrSliceInsufficientSegments, ErrSliceInsufficientVertices] at hEq
  · rintro ⟨rfl, hne, hlen⟩
    simp only [List.mem_append, mem_ite_nil_left, mem_ite_singleton]
    right
    exact ⟨hne, Or.inl (Or.inl ⟨hlen, trivial⟩)⟩

theorem mem_step_InsufficientPolygons (path : String) (bz last : float32) (j j1 : Nat) (s : Slice) :
    NewIndexedAt path typeSlice j ErrSliceInsufficientPolygons
        ∈ validateSlices.step path bz last j1 s
      ↔ j1 = j ∧ ¬ (s.Polygons.length = 0 ∧ s.Vertices.length = 0) ∧ s.Polygons.length = 0 := by
  unfold validateSlices.step
  constructor
  · intro h
    simp only [List.mem_append] at h
    rcases h with (h | h) | h
    · split_ifs at h <;> simp [NewIndexedAt, ErrSliceInsufficientPolygons, ErrSliceSmallTopZ] at h
    · rw [mem_ite_singleton] at h
      obtain ⟨_, h⟩ := h
      simp [NewIndexedAt, ErrSliceNoMonotonic, ErrSliceInsufficientPolygons] at h
    · simp only [mem_ite_nil_left, List.mem_append, List.mem_map, mem_ite_singleton] at h
      obtain ⟨hne, h⟩ := h
      rcases h with (h | h) | h
      · simp [NewIndexedAt, ErrSliceInsufficientPolygons, ErrSliceInsufficientVertices] at h
      · obtain ⟨hlen, h⟩ := h
        simp [NewIndexedAt, ErrSliceInsufficientPolygons] at h
        exact ⟨h.symm, hne, hlen⟩
      · obtain ⟨a, ha, hEq⟩ := h
        obtain ⟨k1, rfl⟩ := mem_polygons_form path _ 0 a ha
        simp [NewIndexedAt, ErrSliceInsufficientSegments, ErrSliceInsufficientPolygons] at hEq
  · rintro ⟨rfl, hne, hlen⟩
    simp only [List.mem_append, mem_ite_nil_left, mem_ite_singleton]
    right
    exact ⟨hne, Or.inl (Or.inr ⟨hlen, trivial⟩)⟩

theorem mem_step_InsufficientSegments (path : String) (bz last : float32) (j j1 k : Nat) (s : Slice) :
    NewIndexedAt path typeSlice j
          (NewIndexedAt path typePolygon k ErrSliceInsufficientSegments)
        ∈ validateSlices.step path bz last j1 s
      ↔ j1 = j ∧ ∃ p, s.Polygons[k]? = some p ∧ p.Segments.length < 1 := by
  unfold validateSlices.step
  constructor
  · intro h
    simp only [List.mem_append] at h
    rcases h with (h | h) | h
    · split_ifs at h <;>
        simp [NewIndexedAt, ErrSliceInsufficientSegments, ErrSliceSmallTopZ] at h
    · rw [mem_ite_singleton] at h
      obtain ⟨_, h⟩ := h
      simp [NewIndexedAt, ErrSliceNoMonotonic, ErrSliceInsufficientSegments] at h
    · simp only [mem_ite_nil_left, List.mem_append, List.mem_map, mem_ite_singleton] at h
      obtain ⟨_, h⟩ := h
      rcases h with (h | h) | h
      · simp [NewIndexedAt, ErrSliceInsufficientSegments, ErrSliceInsufficientVertices] at h
      · simp [NewIndexedAt, ErrSliceInsufficientSegments, ErrSliceInsufficientPolygons] at h
      · obtain ⟨a, ha, hEq⟩ := h
        obtain ⟨k1, hk1⟩ := mem_polygons_form path _ 0 a ha
        subst hk1
        simp [NewIndexedAt, ErrSliceInsufficientSegments] at hEq
        obtain ⟨hk, hj⟩ := hEq
        subst hk; subst hj
        have hmem := (mem_polygons_iff path k1 s.Polygons 0).mp ha
        obtain ⟨i, p, hi, hik, hlen⟩ := hmem
        have : i = k1 := by omega
        subst this
        exact ⟨rfl, p, hi, hlen⟩
  · rintro ⟨rfl, p, hp, hlen⟩
    simp only [List.mem_append, mem_ite_nil_left, List.mem_map]
    right
    have hk : k < s.Polygons.length := (List.getElem?_eq_some.mp hp).1
    refine ⟨by omega, Or.inr ⟨_, (mem_polygons_iff path k s.Polygons 0).mpr
      ⟨k, p, hp, by omega, hlen⟩, rfl⟩⟩

/-- C11: slice content minimums. For slice `j` of a stack, when the slice has a vertex
or a polygon, `validateSlices` reports `InsufficientVertices` on slice `j` if and only if
it has fewer than 2 vertices, `InsufficientPolygons` if and only if it has no polygon,
and `InsufficientSegments`, wrapped with the polygon index `k` and then the slice index
`j`, if and only if polygon `k` has no segment; a slice with no vertices and no polygons
yields none of the three. -/
theorem C11_slice_content_minimums (r : SliceStack) (m : Model) (path : String)
    (j : Nat) (s : Slice) (hs : r.Slices[j]? = some s) :
    ((s.Vertices ≠ [] ∨ s.Polygons ≠ []) →
      (NewIndexedAt path typeSlice (j : Int) ErrSliceInsufficientVertices
            ∈ r.validateSlices m path ↔ s.Vertices.length < 2)
      ∧ (NewIndexedAt path typeSlice (j : Int) ErrSliceInsufficientPolygons
            ∈ r.validateSlices m path ↔ s.Polygons = [])
      ∧ (∀ (k : Nat) (p : Polygon), s.Polygons[k]? = some p →
          (NewIndexedAt path typeSlice (j : Int)
                (NewIndexedAt path typePolygon (k : Int) ErrSliceInsufficientSegments)
              ∈ r.validateSlices m path ↔ p.Segments = [])))
    ∧ ((s.Vertices = [] ∧ s.Polygons = []) →
      NewIndexedAt path typeSlice (j : Int) ErrSliceInsufficientVertices
          ∉ r.validateSlices m path
      ∧ NewIndexedAt path typeSlice (j : Int) ErrSliceInsufficientPolygons
          ∉ r.validateSlices m path
      ∧ (∀ k : Nat, NewIndexedAt path typeSlice (j : Int)
            (NewIndexedAt path typePolygon (k : Int) ErrSliceInsufficientSegments)
          ∉ r.validateSlices m path)) := by
  have hV : NewIndexedAt path typeSlice (j : Int) ErrSliceInsufficientVertices
      ∈ r.validateSlices m path
      ↔ ¬ (s.Polygons.length = 0 ∧ s.Vertices.length = 0) ∧ s.Vertices.length < 2 := by
    simp only [SliceStack.validateSlices, mem_validateSlices_loop, mem_step_InsufficientVertices,
      Nat.zero_add]
    constructor
    · rintro ⟨k, s1, hk, rfl, h⟩
      rw [hs] at hk; cases hk; exact h
    · intro h
      exact ⟨j, s, hs, rfl, h⟩
  have hP : NewIndexedAt path typeSlice (j : Int) ErrSliceInsufficientPolygons
      ∈ r.validateSlices m path
      ↔ ¬ (s.Polygons.length = 0 ∧ s.Vertices.length = 0) ∧ s.Polygons.length = 0 := by
    simp only [SliceStack.validateSlices, mem_validateSlices_loop, mem_step_InsufficientPolygons,
      Nat.zero_add]
    constructor
    · rintro ⟨k, s1, hk, rfl, h⟩
      rw [hs] at hk; cases hk; exact h
    · intro h
      exact ⟨j, s, hs, rfl, h⟩
  have hS : ∀ k : Nat, NewIndexedAt path typeSlice (j : Int)
        (NewIndexedAt path typePolygon (k : Int) ErrSliceInsufficientSegments)
      ∈ r.validateSlices m path
      ↔ ∃ p, s.Polygons[k]? = some p ∧ p.Segments.length < 1 := by
    intro k
    simp only [SliceStack.validateSlices, mem_validateSlices_loop, mem_step_InsufficientSegments,
      Nat.zero_add]
    constructor
    · rintro ⟨k1, s1, hk, rfl, h⟩
      rw [hs] at hk; cases hk; exact h
    · intro h
      exact ⟨j, s, hs, rfl, h⟩
  constructor
  · intro hne
    have hne2 : ¬ (s.Polygons.length = 0 ∧ s.Vertices.length = 0) := by
      simp only [List.length_eq_zero]
      rintro ⟨h1, h2⟩
      rcases hne with h | h
      · exact h h2
      · exact h h1
    refine ⟨?_, ?_, ?_⟩
    · rw [hV]
      exact ⟨fun h => h.2, fun h => ⟨hne2, h⟩⟩
    · rw [hP]
      exact ⟨fun h => List.length_eq_zero.mp h.2, fun h => ⟨hne2, List.length_eq_zero.mpr h⟩⟩
    · intro k p hp
      rw [hS k]
      simp [hp, List.length_eq_zero]
  · rintro ⟨h1, h2⟩
    refine ⟨?_, ?_, ?_⟩
    · rw [hV]; simp [h1, h2]
    · rw [hP]; simp [h1, h2]
    · intro k
      rw [hS k]; simp [h2]

/-- Witness of C11 on a slice with one vertex and one polygon without segments. -/
theorem C11_slice_content_minimums_witness :
    NewIndexedAt rootPath typeSlice ((0 : Nat) : Int) ErrSliceInsufficientVertices
        ∈ stackThin.validateSlices emptyModel rootPath
    ∧ NewIndexedAt rootPath typeSlice ((0 : Nat) : Int) ErrSliceInsufficientPolygons
        ∉ stackThin.validateSlices emptyModel rootPath
    ∧ NewIndexedAt rootPath typeSlice ((0 : Nat) : Int)
          (NewIndexedAt rootPath typePolygon ((0 : Nat) : Int) ErrSliceInsufficientSegments)
        ∈ stackThin.validateSlices emptyModel rootPath :=
  have h := (C11_slice_content_minimums stackThin emptyModel rootPath 0
    { TopZ := 1, Vertices := [(0, 0)], Polygons := [{ StartV := 0, Segments := [] }] } rfl).1
    (Or.inl (by simp))
  ⟨h.1.mpr (by simp), fun hc => absurd (h.2.1.mp hc) (by simp),
    (h.2.2 0 { StartV := 0, Segments := [] } rfl).mpr rfl⟩

/-! ## Theorems: slice refs -/

theorem mem_refs_step (m : Model) (path : String) (last : float32) (j : Nat) (ref : SliceRef)
    (e : GoError) :
    e ∈ (validateRefs.step m path last j ref).1 ↔
      (ref.Path = "" ∧ e = NewIndexedAt path typeSliceRef j (.MissingFieldError attrSlicePath))
      ∨ (ref.Path ≠ "" ∧ ref.Path = path ∧ e = NewIndexedAt path typeSliceRef j ErrSliceRefSamePart)
      ∨ (ref.SliceStackID = 0
          ∧ e = NewIndexedAt path typeSliceRef j (.MissingFieldError attrSliceRefID))
      ∨ (ref.wellFormed path ∧ ∃ st, m.FindAsset ref.Path ref.SliceStackID = some (.SliceStack st)
          ∧ ((st.Refs ≠ [] ∧ e = NewIndexedAt path typeSliceRef j ErrSliceRefRef)
            ∨ (∃ first, st.Slices.head? = some first ∧ first.TopZ ≤ last
                ∧ e = NewIndexedAt path typeSliceRef j ErrSliceNoMonotonic)))
      ∨ (ref.wellFormed path ∧ (∃ id, m.FindAsset ref.Path ref.SliceStackID = some (.Other id))
          ∧ e = NewIndexedAt path typeSliceRef j ErrNonSliceStack)
      ∨ (ref.wellFormed path ∧ m.FindAsset ref.Path ref.SliceStackID = none
          ∧ e = NewIndexedAt path typeSliceRef j ErrMissingResource) := by
  unfold validateRefs.step SliceRef.wellFormed
  dsimp only
  by_cases hp : ref.Path = ""
  · simp [hp]
  · by_cases hpp : ref.Path = path
    · simp [hp, hpp]
      by_cases hid : ref.SliceStackID = 0
      · simp [hid]
        have hne : ¬ path = "" := fun h => hp (hpp.trans h)
        simp [hne]
      · have hne : ¬ path = "" := fun h => hp (hpp.trans h)
        simp [hid, hne]
    · by_cases hid : ref.SliceStackID = 0
      · simp [hp, hpp, hid]
      · simp only [hp, hpp, hid, or_self, Bool.not_eq_true, not_false_eq_true, decide_False,
          Bool.not_false, Bool.and_self, Bool.true_eq_false, ↓reduceIte, false_and, and_false,
          ne_eq, true_and, false_or, and_self]
        cases hfa : m.FindAsset ref.Path ref.SliceStackID with
        | none => simp
        | some a =>
            cases a with
            | Other id => simp
            | SliceStack st =>
                simp only [List.mem_append, mem_ite_singleton, Option.some.injEq,
                  Asset.SliceStack.injEq, reduceCtorEq, exists_false, false_and,
                  or_false, List.length_eq_zero, ne_eq]
                cases hh : st.Slices.head? with
                | none => simp [hh]
                | some first => simp [hh, mem_ite_singleton]

theorem mem_refs_loop_elim (m : Model) (path : String) (e : GoError) (refs : List SliceRef) :
    ∀ (i0 : Nat) (init : float32), e ∈ validateRefs.loop m path i0 init refs →
      ∃ k ref last, refs[k]? = some ref ∧ e ∈ (validateRefs.step m path last (i0 + k) ref).1 := by
  induction refs with
  | nil => intro i0 init h; simp [validateRefs.loop] at h
  | cons r0 rest ih =>
      intro i0 init h
      simp only [validateRefs.loop, List.mem_append] at h
      rcases h with h | h
      · exact ⟨0, r0, init, by simp, by simpa using h⟩
      · obtain ⟨k, ref, last, hk, hmem⟩ := ih _ _ h
        refine ⟨k + 1, ref, last, by simpa using hk, ?_⟩
        have : i0 + (k + 1) = i0 + 1 + k := by omega
        rw [this]; exact hmem

theorem mem_refs_loop_intro (m : Model) (path : String) (e : GoError) (refs : List SliceRef) :
    ∀ (i0 : Nat) (init : float32) (k : Nat) (ref : SliceRef), refs[k]? = some ref →
      (∀ last, e ∈ (validateRefs.step m path last (i0 + k) ref).1) →
      e ∈ validateRefs.loop m path i0 init refs := by
  induction refs with
  | nil => intro i0 init k ref hk; simp at hk
  | cons r0 rest ih =>
      intro i0 init k ref hk hmem
      simp only [validateRefs.loop, List.mem_append]
      cases k with
      | zero =>
          left
          simp at hk; subst hk
          simpa using hmem init
      | succ k1 =>
          right
          apply ih (i0 + 1) _ k1 ref (by simpa using hk)
          intro last
          have : i0 + 1 + k1 = i0 + (k1 + 1) := by omega
          rw [this]; exact hmem last

theorem step_SamePart_iff (m : Model) (path : String) (last : float32) (i j : Nat) (ref : SliceRef) :
    NewIndexedAt path typeSliceRef (i : Int) ErrSliceRefSamePart
        ∈ (validateRefs.step m path last j ref).1
      ↔ j = i ∧ ref.Path ≠ "" ∧ ref.Path = path := by
  rw [mem_refs_step]
  simp [NewIndexedAt, ErrSliceRefSamePart, ErrSliceRefRef, ErrSliceNoMonotonic, ErrNonSliceStack,
    ErrMissingResource]
  constructor
  · rintro ⟨h1, h2, h3⟩; exact ⟨h3.symm, h1, h2⟩
  · rintro ⟨h1, h2, h3⟩; exact ⟨h2, h3, h1.symm⟩

theorem step_MissingSlicePath_iff (m : Model) (path : String) (last : float32) (i j : Nat)
    (ref : SliceRef) :
    NewIndexedAt path typeSliceRef (i : Int) (.MissingFieldError attrSlicePath)
        ∈ (validateRefs.step m path last j ref).1
      ↔ j = i ∧ ref.Path = "" := by
  rw [mem_refs_step]
  simp [NewIndexedAt, ErrSliceRefSamePart, ErrSliceRefRef, ErrSliceNoMonotonic, ErrNonSliceStack,
    ErrMissingResource, attrSlicePath, attrSliceRefID]
  constructor
  · rintro ⟨h1, h2⟩; exact ⟨h2.symm, h1⟩
  · rintro ⟨h1, h2⟩; exact ⟨h2, h1.symm⟩

theorem step_MissingStackID_iff (m : Model) (path : String) (last : float32) (i j : Nat)
    (ref : SliceRef) :
    NewIndexedAt path typeSliceRef (i : Int) (.MissingFieldError attrSliceRefID)
        ∈ (validateRefs.step m path last j ref).1
      ↔ j = i ∧ ref.SliceStackID = 0 := by
  rw [mem_refs_step]
  simp [NewIndexedAt, ErrSliceRefSamePart, ErrSliceRefRef, ErrSliceNoMonotonic, ErrNonSliceStack,
    ErrMissingResource, attrSlicePath, attrSliceRefID]
  constructor
  · rintro ⟨h1, h2⟩; exact ⟨h2.symm, h1⟩
  · rintro ⟨h1, h2⟩; exact ⟨h2, h1.symm⟩

theorem step_RefRef_iff (m : Model) (path : String) (last : float32) (i j : Nat) (ref : SliceRef) :
    NewIndexedAt path typeSliceRef (i : Int) ErrSliceRefRef
        ∈ (validateRefs.step m path last j ref).1
      ↔ j = i ∧ ref.wellFormed path
          ∧ ∃ st, m.FindAsset ref.Path ref.SliceStackID = some (.SliceStack st) ∧ st.Refs ≠ [] := by
  rw [mem_refs_step]
  simp [NewIndexedAt, ErrSliceRefSamePart, ErrSliceRefRef, ErrSliceNoMonotonic, ErrNonSliceStack,
    ErrMissingResource]
  constructor
  · rintro ⟨h1, st, h2, h3, h4⟩; exact ⟨h4.symm, h1, st, h2, h3⟩
  · rintro ⟨h1, h2, st, h3, h4⟩; exact ⟨h2, st, h3, h4, h1.symm⟩

theorem step_NonSliceStack_iff (m : Model) (path : String) (last : float32) (i j : Nat)
    (ref : SliceRef) :
    NewIndexedAt path typeSliceRef (i : Int) ErrNonSliceStack
        ∈ (validateRefs.step m path last j ref).1
      ↔ j = i ∧ ref.wellFormed path
          ∧ ∃ id, m.FindAsset ref.Path ref.SliceStackID = some (.Other id) := by
  rw [mem_refs_step]
  simp [NewIndexedAt, ErrSliceRefSamePart, ErrSliceRefRef, ErrSliceNoMonotonic, ErrNonSliceStack,
    ErrMissingResource]
  constructor
  · rintro ⟨h1, ⟨id, h2⟩, h3⟩; exact ⟨h3.symm, h1, id, h2⟩
  · rintro ⟨h1, h2, id, h3⟩; exact ⟨h2, ⟨id, h3⟩, h1.symm⟩

theorem step_MissingResource_iff (m : Model) (path : String) (last : float32) (i j : Nat)
    (ref : SliceRef) :
    NewIndexedAt path typeSliceRef (i : Int) ErrMissingResource
        ∈ (validateRefs.step m path last j ref).1
      ↔ j = i ∧ ref.wellFormed path ∧ m.FindAsset ref.Path ref.SliceStackID = none := by
  rw [mem_refs_step]
  simp [NewIndexedAt, ErrSliceRefSamePart, ErrSliceRefRef, ErrSliceNoMonotonic, ErrNonSliceStack,
    ErrMissingResource]
  constructor
  · rintro ⟨h1, h2, h3⟩; exact ⟨h3.symm, h1, h2⟩
  · rintro ⟨h1, h2, h3⟩; exact ⟨h2, h3, h1.symm⟩

theorem reports_of_step_iff (m : Model) (path : String) (refs : List SliceRef) (t : GoError)
    (i : Nat) (cond : SliceRef → Prop)
    (h : ∀ last j ref, t ∈ (validateRefs.step m path last j ref).1 ↔ j = i ∧ cond ref)
    (init : float32) :
    t ∈ validateRefs.loop m path 0 init refs ↔ ∃ ref, refs[i]? = some ref ∧ cond ref := by
  constructor
  · intro hmem
    obtain ⟨k, ref, last, hk, hs⟩ := mem_refs_loop_elim m path t refs 0 init hmem
    obtain ⟨hki, hc⟩ := (h last (0 + k) ref).mp hs
    have : k = i := by omega
    subst this
    exact ⟨ref, hk, hc⟩
  · rintro ⟨ref, hk, hc⟩
    apply mem_refs_loop_intro m path t refs 0 init i ref hk
    intro last
    exact (h last (0 + i) ref).mpr ⟨by omega, hc⟩

theorem count_refs_loop (m : Model) (path : String) (t : GoError) (k : Nat) (c : SliceRef → Nat)
    (hother : ∀ last j ref, j ≠ k → t ∉ (validateRefs.step m path last j ref).1)
    (hc : ∀ last ref, List.count t (validateRefs.step m path last k ref).1 = c ref)
    (refs : List SliceRef) :
    ∀ (i0 : Nat) (init : float32), List.count t (validateRefs.loop m path i0 init refs)
      = if i0 ≤ k then (match refs[k - i0]? with
          | some ref => c ref
          | none => 0) else 0 := by
  induction refs with
  | nil => intro i0 init; simp [validateRefs.loop]
  | cons r0 rest ih =>
      intro i0 init
      simp only [validateRefs.loop, List.count_append, ih]
      by_cases h1 : i0 = k
      · subst h1
        simp [hc]
      · have h0 : List.count t (validateRefs.step m path init i0 r0).1 = 0 :=
          List.count_eq_zero.mpr (hother init i0 r0 h1)
        rw [h0]
        by_cases h2 : i0 < k
        · have h3 : i0 + 1 ≤ k := h2
          have h4 : i0 ≤ k := by omega
          have h5 : k - i0 = (k - (i0 + 1)) + 1 := by omega
          simp only [h3, h4, if_true, h5, List.getElem?_cons_succ, Nat.zero_add]
        · have h3 : ¬ i0 + 1 ≤ k := by omega
          have h4 : ¬ i0 ≤ k := by omega
          simp [h3, h4]

theorem count_step_MissingSlicePath (m : Model) (path : String) (last : float32) (k : Nat)
    (ref : SliceRef) :
    List.count (NewIndexedAt path typeSliceRef (k : Int) (.MissingFieldError attrSlicePath))
        (validateRefs.step m path last k ref).1
      = if ref.Path = "" then 1 else 0 := by
  by_cases hp : ref.Path = ""
  · rw [if_pos hp]
    unfold validateRefs.step
    by_cases hid : ref.SliceStackID = 0
    · simp [hp, hid, List.count_cons, NewIndexedAt, attrSlicePath, attrSliceRefID]
    · simp [hp, hid, List.count_cons]
  · rw [if_neg hp, List.count_eq_zero, step_MissingSlicePath_iff]
    exact fun h => hp h.2

theorem count_step_MissingStackID (m : Model) (path : String) (last : float32) (k : Nat)
    (ref : SliceRef) :
    List.count (NewIndexedAt path typeSliceRef (k : Int) (.MissingFieldError attrSliceRefID))
        (validateRefs.step m path last k ref).1
      = if ref.SliceStackID = 0 then 1 else 0 := by
  by_cases hid : ref.SliceStackID = 0
  · rw [if_pos hid]
    unfold validateRefs.step
    by_cases hp : ref.Path = ""
    · simp [hp, hid, List.count_cons, NewIndexedAt, attrSlicePath, attrSliceRefID]
    · by_cases hpp : ref.Path = path
      · have hne : ¬ path = "" := fun h => hp (hpp.trans h)
        simp [hp, hpp, hid, hne, List.count_cons, NewIndexedAt, ErrSliceRefSamePart]
      · simp [hp, hpp, hid, List.count_cons]
  · rw [if_neg hid, List.count_eq_zero, step_MissingStackID_iff]
    exact fun h => hid h.2

/-- C12 as stated fails: under the empty part path a ref with the empty path gets the
missing-field error for `slicepath`, and `SliceRefSamePart` is not reported for it. -/
theorem C12_counterexample :
    (({ SliceStackID := 7, Path := "" } : SliceRef).Path = "")
    ∧ stackRefNoPath.Refs[0]? = some { SliceStackID := 7, Path := "" }
    ∧ stackRefNoPath.validateRefs emptyModel ""
        = [NewIndexedAt "" typeSliceRef 0 (.MissingFieldError attrSlicePath)]
    ∧ NewIndexedAt "" typeSliceRef 0 ErrSliceRefSamePart
        ∉ stackRefNoPath.validateRefs emptyModel "" := by
  have h : stackRefNoPath.validateRefs emptyModel ""
      = [NewIndexedAt "" typeSliceRef 0 (.MissingFieldError attrSlicePath)] := by
    simp [SliceStack.validateRefs, validateRefs.loop, validateRefs.step, stackRefNoPath]
  refine ⟨rfl, rfl, h, ?_⟩
  rw [h]
  simp [NewIndexedAt, ErrSliceRefSamePart]

/-- C12 (amended): a ref with a non-empty path into its own part is rejected. For ref
`i` of a stack validated under part path `P`, `validateRefs` reports `SliceRefSamePart`
for ref `i` if and only if its path is not empty and equals `P`; a ref with the empty
path gets the missing-field error for `slicepath` and no `SliceRefSamePart`, also when
`P` is empty. -/
theorem C12_same_part_ref_rejected (r : SliceStack) (m : Model) (path : String) (i : Nat)
    (ref : SliceRef) (hi : r.Refs[i]? = some ref) :
    (ref.Path ≠ "" → ref.Path = path →
      NewIndexedAt path typeSliceRef (i : Int) ErrSliceRefSamePart ∈ r.validateRefs m path)
    ∧ (NewIndexedAt path typeSliceRef (i : Int) ErrSliceRefSamePart ∈ r.validateRefs m path
        ↔ ref.Path ≠ "" ∧ ref.Path = path)
    ∧ (ref.Path = "" →
        NewIndexedAt path typeSliceRef (i : Int) (.MissingFieldError attrSlicePath)
            ∈ r.validateRefs m path
        ∧ NewIndexedAt path typeSliceRef (i : Int) ErrSliceRefSamePart
            ∉ r.validateRefs m path) := by
  have hS : NewIndexedAt path typeSliceRef (i : Int) ErrSliceRefSamePart ∈ r.validateRefs m path
      ↔ ref.Path ≠ "" ∧ ref.Path = path := by
    unfold SliceStack.validateRefs
    rw [reports_of_step_iff m path r.Refs _ i (fun ref => ref.Path ≠ "" ∧ ref.Path = path)
      (fun last j ref => step_SamePart_iff m path last i j ref)]
    simp [hi]
  have hM : NewIndexedAt path typeSliceRef (i : Int) (.MissingFieldError attrSlicePath)
      ∈ r.validateRefs m path ↔ ref.Path = "" := by
    unfold SliceStack.validateRefs
    rw [reports_of_step_iff m path r.Refs _ i (fun ref => ref.Path = "")
      (fun last j ref => step_MissingSlicePath_iff m path last i j ref)]
    simp [hi]
  refine ⟨fun h1 h2 => hS.mpr ⟨h1, h2⟩, hS, fun h => ⟨hM.mpr h, fun hc => (hS.mp hc).1 h⟩⟩

/-- Witness of the amended C12: the ref of stack 21 targets its own part. -/
theorem C12_same_part_ref_rejected_witness :
    NewIndexedAt rootPath typeSliceRef ((0 : Nat) : Int) ErrSliceRefSamePart
      ∈ stack21.validateRefs refModel rootPath :=
  (C12_same_part_ref_rejected stack21 refModel rootPath 0
    { SliceStackID := 20, Path := rootPath } rfl).1 (by decide) rfl

theorem refModel_FindAsset_20 :
    refModel.FindAsset rootPath 20 = some (.SliceStack stack20) := by
  simp [Model.FindAsset, Model.FindResources, Resources.FindAsset, refModel, Asset.Identify,
    stack20]

theorem refModel_FindAsset_30 :
    refModel.FindAsset otherPath 30 = some (.SliceStack stack30) := by
  simp [Model.FindAsset, Model.FindResources, Resources.FindAsset, refModel, Asset.Identify,
    stack30, rootPath, otherPath]

/-- C13 as stated fails: the ref of stack 21 targets stack 20 of its own part, the target
resolves to a slice stack that has a ref of its own, and `validateRefs` reports
`SliceRefSamePart` only, not `SliceRefRef`. -/
theorem C13_counterexample :
    stack21.Refs[0]? = some { SliceStackID := 20, Path := rootPath }
    ∧ refModel.FindAsset rootPath 20 = some (.SliceStack stack20)
    ∧ stack20.Refs ≠ []
    ∧ stack21.validateRefs refModel rootPath
        = [NewIndexedAt rootPath typeSliceRef 0 ErrSliceRefSamePart]
    ∧ NewIndexedAt rootPath typeSliceRef 0 ErrSliceRefRef
        ∉ stack21.validateRefs refModel rootPath := by
  have h : stack21.validateRefs refModel rootPath
      = [NewIndexedAt rootPath typeSliceRef 0 ErrSliceRefSamePart] := by
    have hne : rootPath ≠ "" := by decide
    simp [SliceStack.validateRefs, validateRefs.loop, validateRefs.step, stack21, hne]
  refine ⟨rfl, refModel_FindAsset_20, by simp [stack20], h, ?_⟩
  rw [h]
  simp [NewIndexedAt, ErrSliceRefSamePart, ErrSliceRefRef]

/-- C13 (amended): one hop only, for well-formed refs. For ref `i` of a stack, when the
ref has a non-empty path different from the path of the validated part and a non-zero
stack id, and its target resolves to a slice stack that has a non-empty `Refs` list,
`validateRefs` reports `SliceRefRef` for ref `i`; and `SliceRefRef` is reported for ref
`i` only in that case. -/
theorem C13_ref_to_stack_with_refs (r : SliceStack) (m : Model) (path : String) (i : Nat)
    (ref : SliceRef) (hi : r.Refs[i]? = some ref) :
    (ref.wellFormed path →
      ∀ st, m.FindAsset ref.Path ref.SliceStackID = some (.SliceStack st) → st.Refs ≠ [] →
        NewIndexedAt path typeSliceRef (i : Int) ErrSliceRefRef ∈ r.validateRefs m path)
    ∧ (NewIndexedAt path typeSliceRef (i : Int) ErrSliceRefRef ∈ r.validateRefs m path
        ↔ ref.wellFormed path
          ∧ ∃ st, m.FindAsset ref.Path ref.SliceStackID = some (.SliceStack st)
              ∧ st.Refs ≠ []) := by
  have hR : NewIndexedAt path typeSliceRef (i : Int) ErrSliceRefRef ∈ r.validateRefs m path
      ↔ ref.wellFormed path
        ∧ ∃ st, m.FindAsset ref.Path ref.SliceStackID = some (.SliceStack st) ∧ st.Refs ≠ [] := by
    unfold SliceStack.validateRefs
    rw [reports_of_step_iff m path r.Refs _ i
      (fun ref => ref.wellFormed path
        ∧ ∃ st, m.FindAsset ref.Path ref.SliceStackID = some (.SliceStack st) ∧ st.Refs ≠ [])
      (fun last j ref => step_RefRef_iff m path last i j ref)]
    simp [hi]
  exact ⟨fun hw st hst hrefs => hR.mpr ⟨hw, st, hst, hrefs⟩, hR⟩

/-- Witness of the amended C13: the ref of stack 20 targets stack 30 of the second part,
which has a ref of its own. -/
theorem C13_ref_to_stack_with_refs_witness :
    NewIndexedAt rootPath typeSliceRef ((0 : Nat) : Int) ErrSliceRefRef
      ∈ stack20.validateRefs refModel rootPath :=
  (C13_ref_to_stack_with_refs stack20 refModel rootPath 0
    { SliceStackID := 30, Path := otherPath } rfl).1
    ⟨by decide, by decide, by decide⟩ stack30 refModel_FindAsset_30 (by simp [stack30])

/-- C14: ref well-formedness and resolution. For ref `i` of a stack, `validateRefs`
reports exactly one missing-field error for `slicepath` when the path is empty and exactly
one missing-field error for `slicestackid` when the stack id is 0, each independently of
the other; a ref with a non-empty path different from the path of the validated part and
a non-zero id gets `MissingResource` if and only if its target is not found in the model,
and `NonSliceStack` if and only if the target is found and is not a slice stack. -/
theorem C14_ref_well_formedness_and_resolution (r : SliceStack) (m : Model) (path : String)
    (i : Nat) (ref : SliceRef) (hi : r.Refs[i]? = some ref) :
    (List.count (NewIndexedAt path typeSliceRef (i : Int) (.MissingFieldError attrSlicePath))
        (r.validateRefs m path) = if ref.Path = "" then 1 else 0)
    ∧ (List.count (NewIndexedAt path typeSliceRef (i : Int) (.MissingFieldError attrSliceRefID))
        (r.validateRefs m path) = if ref.SliceStackID = 0 then 1 else 0)
    ∧ (ref.wellFormed path →
        (NewIndexedAt path typeSliceRef (i : Int) ErrMissingResource ∈ r.validateRefs m path
          ↔ m.FindAsset ref.Path ref.SliceStackID = none)
        ∧ (NewIndexedAt path typeSliceRef (i : Int) ErrNonSliceStack ∈ r.validateRefs m path
          ↔ ∃ a, m.FindAsset ref.Path ref.SliceStackID = some a ∧ ∀ st, a ≠ .SliceStack st)) := by
  refine ⟨?_, ?_, ?_⟩
  · unfold SliceStack.validateRefs
    rw [count_refs_loop m path _ i (fun ref => if ref.Path = "" then 1 else 0)
      (fun last j ref hj h => hj ((step_MissingSlicePath_iff m path last i j ref).mp h).1)
      (fun last ref => count_step_MissingSlicePath m path last i ref)]
    simp [hi]
  · unfold SliceStack.validateRefs
    rw [count_refs_loop m path _ i (fun ref => if ref.SliceStackID = 0 then 1 else 0)
      (fun last j ref hj h => hj ((step_MissingStackID_iff m path last i j ref).mp h).1)
      (fun last ref => count_step_MissingStackID m path last i ref)]
    simp [hi]
  · intro hw
    constructor
    · unfold SliceStack.validateRefs
      rw [reports_of_step_iff m path r.Refs _ i
        (fun ref => ref.wellFormed path ∧ m.FindAsset ref.Path ref.SliceStackID = none)
        (fun last j ref => step_MissingResource_iff m path last i j ref)]
      simp [hi, hw]
    · unfold SliceStack.validateRefs
      rw [reports_of_step_iff m path r.Refs _ i
        (fun ref => ref.wellFormed path
          ∧ ∃ id, m.FindAsset ref.Path ref.SliceStackID = some (.Other id))
        (fun last j ref => step_NonSliceStack_iff m path last i j ref)]
      constructor
      · rintro ⟨ref1, h1, _, id, h⟩
        rw [hi] at h1
        cases h1
        exact ⟨_, h, fun st hst => by cases hst⟩
      · rintro ⟨a, h, hns⟩
        cases a with
        | SliceStack st => exact absurd rfl (hns st)
        | Other id => exact ⟨ref, hi, hw, id, h⟩

/-- Witness of C14 on a ref that has neither a path nor a stack id. -/
theorem C14_ref_well_formedness_and_resolution_witness :
    List.count (NewIndexedAt rootPath typeSliceRef ((0 : Nat) : Int)
        (.MissingFieldError attrSlicePath)) (stackRefNothing.validateRefs emptyModel rootPath) = 1
    ∧ List.count (NewIndexedAt rootPath typeSliceRef ((0 : Nat) : Int)
        (.MissingFieldError attrSliceRefID)) (stackRefNothing.validateRefs emptyModel rootPath)
        = 1 :=
  have h := C14_ref_well_formedness_and_resolution stackRefNothing emptyModel rootPath 0
    { SliceStackID := 0, Path := "" } rfl
  ⟨h.1, h.2.1⟩

theorem chain_append_getLastD (l1 l2 : List float32) : ∀ a : float32,
    List.Chain (· < ·) a l1 → List.Chain (· < ·) (l1.getLastD a) l2 →
    List.Chain (· < ·) a (l1 ++ l2) := by
  induction l1 with
  | nil => intro a _ h2; simpa using h2
  | cons b t ih =>
      intro a h1 h2
      obtain ⟨hab, ht⟩ := List.chain_cons.mp h1
      rw [List.getLastD_cons] at h2
      rw [List.cons_append, List.chain_cons]
      exact ⟨hab, ih b ht h2⟩

theorem lastTopZ_eq_getLastD (ss : List Slice) : ∀ last : float32,
    (match ss.getLast? with
      | some l => l.TopZ
      | none => last) = (ss.map (fun s => s.TopZ)).getLastD last := by
  induction ss with
  | nil => intro last; rfl
  | cons a t ih =>
      intro last
      rw [List.map_cons, List.getLastD_cons, ← ih a.TopZ, List.getLast?_cons]
      cases t.getLast? <;> rfl

theorem refs_step_snd (m : Model) (path : String) (last : float32) (i : Nat) (ref : SliceRef)
    (st : SliceStack) (hw : ref.wellFormed path)
    (hfa : m.FindAsset ref.Path ref.SliceStackID = some (.SliceStack st)) :
    (validateRefs.step m path last i ref).2 = (st.Slices.map (fun s => s.TopZ)).getLastD last := by
  rw [← lastTopZ_eq_getLastD]
  obtain ⟨h1, h2, h3⟩ := hw
  unfold validateRefs.step
  simp [h1, h2, h3, hfa]

theorem getLastD_ne_NaN (l : List float32) : ∀ a : float32, a ≠ .NaN → (∀ x ∈ l, x ≠ .NaN) →
    l.getLastD a ≠ .NaN := by
  induction l with
  | nil => intro a ha _; exact ha
  | cons b t ih =>
      intro a _ h
      rw [List.getLastD_cons]
      exact ih b (h b (List.mem_cons_self b t)) (fun x hx => h x (List.mem_cons_of_mem b hx))

theorem refs_chain (m : Model) (path : String) (refs : List SliceRef) :
    ∀ (i0 : Nat) (last : float32), last ≠ .NaN →
    (∀ ref ∈ refs, ref.wellFormed path
      ∧ ∃ st, m.FindAsset ref.Path ref.SliceStackID = some (.SliceStack st)) →
    (∀ ref ∈ refs, ∀ st, m.FindAsset ref.Path ref.SliceStackID = some (.SliceStack st) →
      ∀ s ∈ st.Slices, s.TopZ ≠ .NaN) →
    (∀ i : Nat, NewIndexedAt path typeSliceRef (i : Int) ErrSliceNoMonotonic
      ∉ validateRefs.loop m path i0 last refs) →
    (∀ ref ∈ refs, ∀ st, m.FindAsset ref.Path ref.SliceStackID = some (.SliceStack st) →
      List.Chain (fun a b => a < b) (float32.finite (-MaxFloat32))
        (st.Slices.map (fun s => s.TopZ))) →
    List.Chain (fun a b => a < b) last (refsTopZ m refs) := by
  induction refs with
  | nil => intro i0 last _ _ _ _ _; exact List.Chain.nil
  | cons ref rest ih =>
      intro i0 last hlast hwf hnan hno hst
      obtain ⟨hw, st, hfa⟩ := hwf ref (List.mem_cons_self ref rest)
      have hrs : refStack m ref = some st := by simp [refStack, hfa]
      have hnanst := hnan ref (List.mem_cons_self ref rest) st hfa
      simp only [refsTopZ, hrs]
      apply chain_append_getLastD
      · have hch := hst ref (List.mem_cons_self ref rest) st hfa
        cases hsl : st.Slices with
        | nil => exact List.Chain.nil
        | cons first tl =>
            rw [hsl] at hch
            simp only [List.map_cons, List.chain_cons] at hch ⊢
            refine ⟨?_, hch.2⟩
            by_contra hlt
            have hle : first.TopZ ≤ last :=
              (float32.not_lt_iff_le _ _ hlast (hnanst first (by simp [hsl]))).mp hlt
            apply hno i0
            simp only [validateRefs.loop, List.mem_append]
            left
            rw [mem_refs_step]
            right; right; right; left
            exact ⟨hw, st, hfa, Or.inr ⟨first, by simp [hsl], hle, rfl⟩⟩
      · rw [← refs_step_snd m path last i0 ref st hw hfa]
        apply ih (i0 + 1)
        · rw [refs_step_snd m path last i0 ref st hw hfa]
          apply getLastD_ne_NaN _ _ hlast
          intro x hx
          obtain ⟨s, hs, rfl⟩ := List.mem_map.mp hx
          exact hnanst s hs
        · intro r1 hr1
          exact hwf r1 (List.mem_cons_of_mem ref hr1)
        · intro r1 hr1
          exact hnan r1 (List.mem_cons_of_mem ref hr1)
        · intro i hmem
          apply hno i
          simp only [validateRefs.loop, List.mem_append]
          exact Or.inr hmem
        · intro r1 hr1
          exact hst r1 (List.mem_cons_of_mem ref hr1)

theorem nanRef_FindAsset_41 :
    nanRefModel.FindAsset otherPath 41 = some (.SliceStack stack41) := by
  simp [Model.FindAsset, Model.FindResources, Resources.FindAsset, nanRefModel, Asset.Identify,
    stack41, rootPath, otherPath]

theorem nanRef_FindAsset_42 :
    nanRefModel.FindAsset otherPath 42 = some (.SliceStack stack42) := by
  simp [Model.FindAsset, Model.FindResources, Resources.FindAsset, nanRefModel, Asset.Identify,
    stack41, stack42, rootPath, otherPath]

theorem stack43_validateRefs : stack43.validateRefs nanRefModel rootPath = [] := by
  have h1 : otherPath ≠ "" := by decide
  have h2 : otherPath ≠ rootPath := by decide
  have h3 : ¬ ((1 : float32) ≤ float32.finite (-MaxFloat32)) := float32.not_le_neg_max 1
  simp [SliceStack.validateRefs, validateRefs.loop, validateRefs.step, stack43, h1, h2,
    nanRef_FindAsset_41, nanRef_FindAsset_42, stack41, stack42, h3, float32.not_le_NaN]

theorem stack41_no_NoMonotonic (path : String) (j : Nat) :
    NewIndexedAt path typeSlice (j : Int) ErrSliceNoMonotonic
      ∉ stack41.validateSlices nanRefModel path := by
  rw [reports_NoMonotonic_iff]
  rintro ⟨s, hs, hle⟩
  rcases j with _ | _ | j
  · simp only [stack41, List.getElem?_cons_zero, Option.some.injEq] at hs
    subst hs
    exact float32.not_le_neg_max 1 (by simpa [prevTopZ] using hle)
  · simp only [stack41, List.getElem?_cons_succ, List.getElem?_cons_zero,
      Option.some.injEq] at hs
    subst hs
    exact (float32.ne_NaN_of_le _ _ hle).1 rfl
  · simp [stack41] at hs

theorem stack42_no_NoMonotonic (path : String) (j : Nat) :
    NewIndexedAt path typeSlice (j : Int) ErrSliceNoMonotonic
      ∉ stack42.validateSlices nanRefModel path := by
  rw [reports_NoMonotonic_iff]
  rintro ⟨s, hs, hle⟩
  rcases j with _ | j
  · simp only [stack42, List.getElem?_cons_zero, Option.some.injEq] at hs
    subst hs
    revert hle
    norm_num [prevTopZ, float32.finite_le_finite, MaxFloat32]
  · simp [stack42] at hs

/-- C15 as stated fails: the refs of stack 43 are well formed and resolve to the stacks
with `TopZ` values `[1, NaN]` and `[0.5]`; neither `validateRefs` of stack 43 nor
`validateSlices` of a referenced stack reports `SliceNoMonotonic`, since every comparison
with NaN is false, yet the concatenation `[1, NaN, 0.5]` is not strictly increasing. -/
theorem C15_counterexample :
    (∀ ref ∈ stack43.Refs, ref.wellFormed rootPath
      ∧ ∃ st, nanRefModel.FindAsset ref.Path ref.SliceStackID = some (.SliceStack st))
    ∧ stack43.validateRefs nanRefModel rootPath = []
    ∧ (∀ ref ∈ stack43.Refs, ∀ st,
        nanRefModel.FindAsset ref.Path ref.SliceStackID = some (.SliceStack st) →
        ∀ j : Nat, NewIndexedAt ref.Path typeSlice (j : Int) ErrSliceNoMonotonic
          ∉ st.validateSlices nanRefModel ref.Path)
    ∧ refsTopZ nanRefModel stack43.Refs = [1, .NaN, .finite (1 / 2)]
    ∧ ¬ List.Pairwise (fun a b => a < b) (refsTopZ nanRefModel stack43.Refs) := by
  have hT : refsTopZ nanRefModel stack43.Refs = [1, .NaN, .finite (1 / 2)] := by
    simp [refsTopZ, refStack, stack43, nanRef_FindAsset_41, nanRef_FindAsset_42, stack41,
      stack42]
  refine ⟨?_, stack43_validateRefs, ?_, hT, ?_⟩
  · intro ref href
    simp only [stack43, List.mem_cons, List.mem_singleton, List.not_mem_nil, or_false] at href
    rcases href with rfl | rfl
    · exact ⟨⟨by decide, by decide, by decide⟩, stack41, nanRef_FindAsset_41⟩
    · exact ⟨⟨by decide, by decide, by decide⟩, stack42, nanRef_FindAsset_42⟩
  · intro ref href st hst
    simp only [stack43, List.mem_cons, List.mem_singleton, List.not_mem_nil, or_false] at href
    rcases href with rfl | rfl
    · rw [nanRef_FindAsset_41] at hst
      cases hst
      exact stack41_no_NoMonotonic _
    · rw [nanRef_FindAsset_42] at hst
      cases hst
      exact stack42_no_NoMonotonic _
  · rw [hT]
    intro h
    have h1 := (List.pairwise_cons.mp h).1 float32.NaN (by simp)
    exact (float32.ne_NaN_of_lt _ _ h1).2 rfl

/-- C15 (amended): monotonic `TopZ` across a ref chain, without NaN. When every ref of a
stack is well formed and resolves to a slice stack, no slice of a referenced stack has a
`TopZ` that is not a number, `validateRefs` reports no `SliceNoMonotonic`, and
`validateSlices` of every referenced stack reports no `SliceNoMonotonic`, the
concatenation, in ref order, of the `TopZ` values of the slices of the referenced stacks
is strictly increasing. -/
theorem C15_monotonic_TopZ_across_refs (r : SliceStack) (m : Model) (path : String)
    (hwf : ∀ ref ∈ r.Refs, ref.wellFormed path
      ∧ ∃ st, m.FindAsset ref.Path ref.SliceStackID = some (.SliceStack st))
    (hnan : ∀ ref ∈ r.Refs, ∀ st,
      m.FindAsset ref.Path ref.SliceStackID = some (.SliceStack st) →
      ∀ s ∈ st.Slices, s.TopZ ≠ .NaN)
    (hrefs : ∀ i : Nat, NewIndexedAt path typeSliceRef (i : Int) ErrSliceNoMonotonic
      ∉ r.validateRefs m path)
    (hstacks : ∀ ref ∈ r.Refs, ∀ st,
      m.FindAsset ref.Path ref.SliceStackID = some (.SliceStack st) →
      ∀ j : Nat, NewIndexedAt ref.Path typeSlice (j : Int) ErrSliceNoMonotonic
        ∉ st.validateSlices m ref.Path) :
    List.Chain (fun a b => a < b) (float32.finite (-MaxFloat32)) (refsTopZ m r.Refs)
    ∧ List.Pairwise (fun a b => a < b) (refsTopZ m r.Refs) := by
  have hch : List.Chain (fun a b => a < b) (float32.finite (-MaxFloat32)) (refsTopZ m r.Refs) :=
    refs_chain m path r.Refs 0 (.finite (-MaxFloat32)) (by simp) hwf hnan hrefs
      (fun ref href st hst =>
        (noMonotonic_iff_chain st m ref.Path (hnan ref href st hst)).mp (hstacks ref href st hst))
  exact ⟨hch, (List.pairwise_cons.mp (List.chain_iff_pairwise.mp hch)).2⟩

theorem chainRef_FindAsset_31 :
    chainRefModel.FindAsset otherPath 31 = some (.SliceStack stack31) := by
  simp [Model.FindAsset, Model.FindResources, Resources.FindAsset, chainRefModel, Asset.Identify,
    stack31, rootPath, otherPath]

theorem chainRef_FindAsset_32 :
    chainRefModel.FindAsset otherPath 32 = some (.SliceStack stack32) := by
  simp [Model.FindAsset, Model.FindResources, Resources.FindAsset, chainRefModel, Asset.Identify,
    stack31, stack32, rootPath, otherPath]

theorem stack33_validateRefs : stack33.validateRefs chainRefModel rootPath = [] := by
  have h1 : otherPath ≠ "" := by decide
  have h2 : otherPath ≠ rootPath := by decide
  have h3 : ¬ ((1 : float32) ≤ float32.finite (-MaxFloat32)) := float32.not_le_neg_max 1
  have h4 : ¬ ((3 : float32) ≤ 2) := by decide
  simp [SliceStack.validateRefs, validateRefs.loop, validateRefs.step, stack33, h1, h2,
    chainRef_FindAsset_31, chainRef_FindAsset_32, stack31, stack32, h3, h4]

theorem stack31_chain : List.Chain (fun a b => a < b) (float32.finite (-MaxFloat32))
    (stack31.Slices.map (fun s => s.TopZ)) := by
  simp only [stack31, List.map_cons, List.map_nil, List.chain_cons]
  exact ⟨float32.neg_max_lt 1, by decide, List.Chain.nil⟩

theorem stack32_chain : List.Chain (fun a b => a < b) (float32.finite (-MaxFloat32))
    (stack32.Slices.map (fun s => s.TopZ)) := by
  simp only [stack32, List.map_cons, List.map_nil, List.chain_cons]
  exact ⟨float32.neg_max_lt 3, List.Chain.nil⟩

/-- Witness of the amended C15: stack 33 refers to the stacks with `TopZ` values 1, 2
and 3. -/
theorem C15_monotonic_TopZ_across_refs_witness :
    List.Pairwise (fun a b => a < b) (refsTopZ chainRefModel stack33.Refs)
    ∧ refsTopZ chainRefModel stack33.Refs = [1, 2, 3] :=
  ⟨(C15_monotonic_TopZ_across_refs stack33 chainRefModel rootPath
      (by
        intro ref href
        simp only [stack33, List.mem_cons, List.mem_singleton, List.not_mem_nil, or_false] at href
        rcases href with rfl | rfl
        · exact ⟨⟨by decide, by decide, by decide⟩, stack31, chainRef_FindAsset_31⟩
        · exact ⟨⟨by decide, by decide, by decide⟩, stack32, chainRef_FindAsset_32⟩)
      (by
        intro ref href st hst s hs
        simp only [stack33, List.mem_cons, List.mem_singleton, List.not_mem_nil, or_false] at href
        rcases href with rfl | rfl
        · rw [chainRef_FindAsset_31] at hst
          cases hst
          simp only [stack31, List.mem_cons, List.mem_singleton, List.not_mem_nil,
            or_false] at hs
          rcases hs with rfl | rfl <;> decide
        · rw [chainRef_FindAsset_32] at hst
          cases hst
          simp only [stack32, List.mem_singleton] at hs
          subst hs
          decide)
      (by
        intro i
        rw [stack33_validateRefs]
        simp)
      (by
        intro ref href st hst
        simp only [stack33, List.mem_cons, List.mem_singleton, List.not_mem_nil, or_false] at href
        rcases href with rfl | rfl
        · rw [chainRef_FindAsset_31] at hst
          cases hst
          exact (noMonotonic_iff_chain stack31 chainRefModel otherPath (by
            intro s hs
            simp only [stack31, List.mem_cons, List.mem_singleton, List.not_mem_nil,
              or_false] at hs
            rcases hs with rfl | rfl <;> decide)).mpr stack31_chain
        · rw [chainRef_FindAsset_32] at hst
          cases hst
          exact (noMonotonic_iff_chain stack32 chainRefModel otherPath (by
            intro s hs
            simp only [stack32, List.mem_singleton] at hs
            subst hs
            decide)).mpr stack32_chain)).2,
   by simp [refsTopZ, refStack, stack33, chainRef_FindAsset_31, chainRef_FindAsset_32, stack31,
        stack32]⟩

/-! ## Theorems: the validator of the owning object -/

theorem build_walk_returns (m : Model) (path : String) (id : Nat) (rank : Object → Nat)
    (hacyc : Acyclic m path rank) (fuel : Nat)
    (hfuel : walkBound m path rank m.Build.Items ≤ fuel) :
    ∃ b, validateBuildTransforms m path id fuel = some b := by
  apply buildLoop_returns
  intro item hi o hfo
  exact walk_returns m path id rank hacyc fuel o (Reached.item item o hi hfo)
    (lt_of_lt_of_le (rank_lt_walkBound m path rank _ item hi o hfo) hfuel)

theorem Validate_missing_id (ext : SliceStackInfo) (m : Model) (path : String) (obj : Object)
    (fuel : Nat) (hid : ext.SliceStackID = 0) :
    ext.Validate m path (.Object obj) fuel
      = some ([.MissingFieldError attrSliceRefID] ++ ext.extErrors m) := by
  simp [SliceStackInfo.Validate, SliceStackInfo.extErrors, hid]

theorem Validate_missing_resource (ext : SliceStackInfo) (m : Model) (path : String)
    (obj : Object) (fuel : Nat) (hid : ext.SliceStackID ≠ 0) (hl : ext.lookup m path = none) :
    ext.Validate m path (.Object obj) fuel = some ([ErrMissingResource] ++ ext.extErrors m) := by
  unfold SliceStackInfo.lookup at hl
  simp [SliceStackInfo.Validate, SliceStackInfo.extErrors, hid, hl]

theorem Validate_non_stack (ext : SliceStackInfo) (m : Model) (path : String)
    (obj : Object) (fuel : Nat) (hid : ext.SliceStackID ≠ 0) (k : Nat)
    (hl : ext.lookup m path = some (.Other k)) :
    ext.Validate m path (.Object obj) fuel = some ([ErrNonSliceStack] ++ ext.extErrors m) := by
  unfold SliceStackInfo.lookup at hl
  simp [SliceStackInfo.Validate, SliceStackInfo.extErrors, hid, hl]

theorem Validate_stack (ext : SliceStackInfo) (m : Model) (path : String)
    (obj : Object) (fuel : Nat) (hid : ext.SliceStackID ≠ 0) (r : SliceStack)
    (hl : ext.lookup m path = some (.SliceStack r)) :
    ext.Validate m path (.Object obj) fuel
      = (validateBuildTransforms m path obj.ID fuel).map (fun ok =>
          (if ok then [] else [ErrSliceInvalidTranform])
          ++ (if (obj.ObjectType = .ObjectTypeModel ∨ obj.ObjectType = .ObjectTypeSolidSupport)
                ∧ checkAllClosed m r = false
              then [ErrSlicePolygonNotClosed] else [])
          ++ ext.extErrors m) := by
  unfold SliceStackInfo.lookup at hl
  simp only [SliceStackInfo.Validate, SliceStackInfo.extErrors, if_neg hid, hl]
  cases validateBuildTransforms m path obj.ID fuel <;> simp

theorem isSliceStackClosed_false_iff (r : SliceStack) :
    isSliceStackClosed r = false ↔ r.hasOpenPolygon := by
  unfold isSliceStackClosed SliceStack.hasOpenPolygon Polygon.isOpen
  rw [List.all_eq_false]
  constructor
  · rintro ⟨slice, hs, h⟩
    have h2 : (slice.Polygons.all fun p =>
        match p.Segments.getLast? with
        | some last => p.StartV == last.V2
        | none => true) = false := by simpa using h
    rw [List.all_eq_false] at h2
    obtain ⟨p, hp, h3⟩ := h2
    refine ⟨slice, hs, p, hp, ?_⟩
    cases hl : p.Segments.getLast? with
    | none => simp [hl] at h3
    | some last =>
        simp only [hl] at h3
        exact ⟨last, rfl, by simpa using h3⟩
  · rintro ⟨slice, hs, p, hp, last, hl, hne⟩
    refine ⟨slice, hs, ?_⟩
    have : (slice.Polygons.all fun p =>
        match p.Segments.getLast? with
        | some last => p.StartV == last.V2
        | none => true) = false := by
      rw [List.all_eq_false]
      exact ⟨p, hp, by simp [hl, hne]⟩
    simp [this]

theorem checkAllClosed_false_iff (m : Model) (r : SliceStack) :
    checkAllClosed m r = false
      ↔ r.hasOpenPolygon
        ∨ ∃ ref ∈ r.Refs, ∃ st, refStack m ref = some st ∧ st.hasOpenPolygon := by
  unfold checkAllClosed
  rw [Bool.and_eq_false_iff, isSliceStackClosed_false_iff, List.all_eq_false]
  apply or_congr Iff.rfl
  constructor
  · rintro ⟨ref, href, h⟩
    refine ⟨ref, href, ?_⟩
    cases hfa : m.FindAsset ref.Path ref.SliceStackID with
    | none => simp [hfa] at h
    | some a =>
        cases a with
        | Other id => simp [hfa] at h
        | SliceStack st =>
            simp only [hfa] at h
            exact ⟨st, by simp [refStack, hfa],
              (isSliceStackClosed_false_iff st).mp (by simpa using h)⟩
  · rintro ⟨ref, href, st, hst, hopen⟩
    refine ⟨ref, href, ?_⟩
    have hfa : m.FindAsset ref.Path ref.SliceStackID = some (.SliceStack st) := by
      unfold refStack at hst
      cases hfa : m.FindAsset ref.Path ref.SliceStackID with
      | none => simp [hfa] at hst
      | some a =>
          cases a with
          | Other id => simp [hfa] at hst
          | SliceStack st1 =>
              simp [hfa] at hst
              rw [hst]
    simp [hfa, (isSliceStackClosed_false_iff st).mpr hopen]

theorem Validate_returns_of_acyclic (ext : SliceStackInfo) (m : Model) (path : String)
    (e : Element) (rank : Object → Nat) (hacyc : Acyclic m path rank) (fuel : Nat)
    (hfuel : walkBound m path rank m.Build.Items ≤ fuel) :
    ∃ errs, ext.Validate m path e fuel = some errs := by
  cases e with
  | Other => exact ⟨[], rfl⟩
  | Object obj =>
      by_cases hid : ext.SliceStackID = 0
      · exact ⟨_, Validate_missing_id ext m path obj fuel hid⟩
      · cases hl : ext.lookup m path with
        | none => exact ⟨_, Validate_missing_resource ext m path obj fuel hid hl⟩
        | some a =>
            cases a with
            | Other k => exact ⟨_, Validate_non_stack ext m path obj fuel hid k hl⟩
            | SliceStack r =>
                obtain ⟨b, hb⟩ := build_walk_returns m path obj.ID rank hacyc fuel hfuel
                rw [Validate_stack ext m path obj fuel hid r hl, hb]
                exact ⟨_, rfl⟩

theorem cycleOpen_FindObject_1 : cycleOpenModel.FindObject rootPath 1 = some cycleA := by
  simp [Model.FindObject, Model.FindResources, Resources.FindObject, cycleOpenModel, cycleA]

theorem cycleOpen_FindObject_2 : cycleOpenModel.FindObject rootPath 2 = some cycleB := by
  simp [Model.FindObject, Model.FindResources, Resources.FindObject, cycleOpenModel, cycleA,
    cycleB]

theorem cycleOpen_walk_none (fuel : Nat) :
    validateObjectTransforms cycleOpenModel rootPath 1 fuel cycleA = none
    ∧ validateObjectTransforms cycleOpenModel rootPath 1 fuel cycleB = none := by
  induction fuel with
  | zero => exact ⟨rfl, rfl⟩
  | succ n ih =>
      constructor
      · simp [validateObjectTransforms, validateObjectTransforms.loop, cycleA,
          Component.ObjectPath, cycleOpen_FindObject_2, ih.2]
      · simp [validateObjectTransforms, validateObjectTransforms.loop, cycleB,
          Component.ObjectPath, cycleOpen_FindObject_1, ih.1, nonPlanar]

theorem cycleOpen_build_none (fuel : Nat) :
    validateBuildTransforms cycleOpenModel rootPath cycleA.ID fuel = none := by
  have hitems : cycleOpenModel.Build.Items
      = [{ ObjectID := 1, Path := "", Transform := none }] := rfl
  have hid : cycleA.ID = 1 := rfl
  simp [validateBuildTransforms, validateBuildTransforms.loop, hitems, Item.ObjectPath,
    nonPlanar, cycleOpen_FindObject_1, (cycleOpen_walk_none fuel).1, hid]

theorem cycleOpen_lookup_52 :
    info52.lookup cycleOpenModel rootPath = some (.SliceStack stack52) := by
  simp [SliceStackInfo.lookup, Model.FindResources, Resources.FindAsset, cycleOpenModel, info52,
    Asset.Identify, stack52]

theorem cycleOpen_Validate_none (fuel : Nat) :
    info52.Validate cycleOpenModel rootPath (.Object cycleA) fuel = none := by
  rw [Validate_stack info52 cycleOpenModel rootPath cycleA fuel (by decide) stack52
    cycleOpen_lookup_52, cycleOpen_build_none]
  rfl

theorem stack52_hasOpenPolygon : stack52.hasOpenPolygon := by
  refine ⟨_, List.mem_cons_self _ _, _, List.mem_cons_self _ _, ?_⟩
  exact ⟨{ V2 := 1, PID := 0, P1 := 0, P2 := 0 }, rfl, by decide⟩

/-- C16 as stated fails: object 1 of the model with the two-hop cycle 1 → 2 → 1 is of
type model and its slice-stack id resolves to stack 52, which has a polygon that is not
closed, yet `SliceStackInfo.Validate` does not return, whatever the bound on the
recursion depth of the transform walk, so `SlicePolygonNotClosed` is not reported. -/
theorem C16_counterexample :
    info52.SliceStackID ≠ 0
    ∧ info52.lookup cycleOpenModel rootPath = some (.SliceStack stack52)
    ∧ cycleA.ObjectType = .ObjectTypeModel
    ∧ stack52.hasOpenPolygon
    ∧ (∀ fuel, info52.Validate cycleOpenModel rootPath (.Object cycleA) fuel = none) :=
  ⟨by decide, cycleOpen_lookup_52, rfl, stack52_hasOpenPolygon, cycleOpen_Validate_none⟩

/-- C16 (amended): closed polygons for solid objects, when the transform walk returns.
For an object whose slice-stack id resolves to a slice stack `r`, every result that
`SliceStackInfo.Validate` returns holds `SlicePolygonNotClosed` if and only if the type of
the object is model or solid support and some polygon, in a slice of `r` or in a slice of
a stack that a ref of `r` resolves to, has a last segment whose `V2` differs from
`StartV`; stacks further away do not enter the condition. `Validate` returns whenever the
transform walk returns, which it does on every acyclic model; when the walk does not
return, as on a component cycle of two or more hops, `Validate` does not return and
nothing is reported. -/
theorem C16_closed_polygons_for_solid_objects (ext : SliceStackInfo) (m : Model)
    (path : String) (obj : Object) (r : SliceStack) (hid : ext.SliceStackID ≠ 0)
    (hl : ext.lookup m path = some (.SliceStack r)) :
    (∀ fuel errs, ext.Validate m path (.Object obj) fuel = some errs →
      (ErrSlicePolygonNotClosed ∈ errs
        ↔ (obj.ObjectType = .ObjectTypeModel ∨ obj.ObjectType = .ObjectTypeSolidSupport)
          ∧ (r.hasOpenPolygon
            ∨ ∃ ref ∈ r.Refs, ∃ st, refStack m ref = some st ∧ st.hasOpenPolygon)))
    ∧ (∀ fuel ok, validateBuildTransforms m path obj.ID fuel = some ok →
        ∃ errs, ext.Validate m path (.Object obj) fuel = some errs)
    ∧ (∀ rank, Acyclic m path rank → ∀ fuel, walkBound m path rank m.Build.Items ≤ fuel →
        ∃ errs, ext.Validate m path (.Object obj) fuel = some errs)
    ∧ (∀ fuel, validateBuildTransforms m path obj.ID fuel = none →
        ext.Validate m path (.Object obj) fuel = none) := by
  refine ⟨?_, ?_, ?_, ?_⟩
  · intro fuel errs hV
    rw [Validate_stack ext m path obj fuel hid r hl] at hV
    cases hw : validateBuildTransforms m path obj.ID fuel with
    | none => simp [hw] at hV
    | some ok =>
        simp only [hw, Option.map_some', Option.some.injEq] at hV
        subst hV
        rw [← checkAllClosed_false_iff]
        have h1 : ErrSlicePolygonNotClosed ∉ (if ok then [] else [ErrSliceInvalidTranform]) := by
          cases ok <;> simp [ErrSlicePolygonNotClosed, ErrSliceInvalidTranform]
        have h2 : ErrSlicePolygonNotClosed ∉ ext.extErrors m := by
          unfold SliceStackInfo.extErrors
          split_ifs <;> simp [ErrSlicePolygonNotClosed, ErrSliceExtRequired]
        simp only [List.mem_append, h1, h2, false_or, or_false, mem_ite_singleton, and_true]
  · intro fuel ok hok
    rw [Validate_stack ext m path obj fuel hid r hl, hok]
    exact ⟨_, rfl⟩
  · intro rank hacyc fuel hfuel
    exact Validate_returns_of_acyclic ext m path _ rank hacyc fuel hfuel
  · intro fuel hnone
    rw [Validate_stack ext m path obj fuel hid r hl, hnone]
    rfl

theorem twoHop_lookup_50 : info50.lookup twoHopModel rootPath = some (.SliceStack stack50) := by
  simp [SliceStackInfo.lookup, Model.FindResources, Resources.FindAsset, twoHopModel, info50,
    Asset.Identify, stack50]

theorem twoHop_lookup_51 : info51.lookup twoHopModel otherPath = some (.SliceStack stack51) := by
  simp [SliceStackInfo.lookup, Model.FindResources, Resources.FindAsset, twoHopModel, info51,
    Asset.Identify, stack51, rootPath, otherPath]

theorem twoHop_lookup_60 : info60.lookup twoHopModel rootPath = some (.Other 60) := by
  simp [SliceStackInfo.lookup, Model.FindResources, Resources.FindAsset, twoHopModel, info60,
    Asset.Identify, stack50, stack52]

theorem twoHop_FindAsset_51 :
    twoHopModel.FindAsset otherPath 51 = some (.SliceStack stack51) := by
  simp [Model.FindAsset, Model.FindResources, Resources.FindAsset, twoHopModel,
    Asset.Identify, stack51, rootPath, otherPath]

theorem twoHop_FindAsset_52 :
    twoHopModel.FindAsset rootPath 52 = some (.SliceStack stack52) := by
  simp [Model.FindAsset, Model.FindResources, Resources.FindAsset, twoHopModel,
    Asset.Identify, stack50, stack52]

theorem twoHop_walk (path : String) (id fuel : Nat) :
    validateBuildTransforms twoHopModel path id fuel = some true := by
  simp [validateBuildTransforms, validateBuildTransforms.loop, twoHopModel]

theorem twoHop_Validate_50 (fuel : Nat) :
    info50.Validate twoHopModel rootPath (.Object solidObject) fuel = some [] := by
  rw [Validate_stack info50 twoHopModel rootPath solidObject fuel (by decide) stack50
    twoHop_lookup_50, twoHop_walk]
  have hc : checkAllClosed twoHopModel stack50 = true := by
    simp [checkAllClosed, isSliceStackClosed, stack50, twoHop_FindAsset_51, stack51]
  simp [hc, SliceStackInfo.extErrors, info50]

theorem twoHop_Validate_51 (fuel : Nat) :
    info51.Validate twoHopModel otherPath (.Object solidObject) fuel
      = some [ErrSlicePolygonNotClosed] := by
  rw [Validate_stack info51 twoHopModel otherPath solidObject fuel (by decide) stack51
    twoHop_lookup_51, twoHop_walk]
  have hc : checkAllClosed twoHopModel stack51 = false := by
    simp [checkAllClosed, isSliceStackClosed, stack51, twoHop_FindAsset_52, stack52]
  simp [hc, SliceStackInfo.extErrors, info51, solidObject]

/-- Witness of the amended C16: the open polygon of stack 52 is reported for the object that names
stack 51, one ref hop away, and not for the object that names stack 50, two hops away. -/
theorem C16_closed_polygons_for_solid_objects_witness :
    (ErrSlicePolygonNotClosed ∈ [ErrSlicePolygonNotClosed]
      ↔ (solidObject.ObjectType = .ObjectTypeModel
          ∨ solidObject.ObjectType = .ObjectTypeSolidSupport)
        ∧ (stack51.hasOpenPolygon
          ∨ ∃ ref ∈ stack51.Refs, ∃ st, refStack twoHopModel ref = some st ∧ st.hasOpenPolygon))
    ∧ (ErrSlicePolygonNotClosed ∈ ([] : List GoError)
      ↔ (solidObject.ObjectType = .ObjectTypeModel
          ∨ solidObject.ObjectType = .ObjectTypeSolidSupport)
        ∧ (stack50.hasOpenPolygon
          ∨ ∃ ref ∈ stack50.Refs, ∃ st, refStack twoHopModel ref = some st ∧ st.hasOpenPolygon)) :=
  ⟨(C16_closed_polygons_for_solid_objects info51 twoHopModel otherPath solidObject stack51
      (by decide) twoHop_lookup_51).1 0 _ (twoHop_Validate_51 0),
   (C16_closed_polygons_for_solid_objects info50 twoHopModel rootPath solidObject stack50
      (by decide) twoHop_lookup_50).1 0 _ (twoHop_Validate_50 0)⟩

/-- C17: stack-id resolution on the owning object. Whenever `SliceStackInfo.Validate`
returns for an object, its result holds the missing-field error for `slicestackid` if and
only if the stack id is 0, `MissingResource` if and only if the id is non-zero and no
asset with that id is found in the part of the object, `NonSliceStack` if and only if the
non-zero id resolves to an asset that is not a slice stack, and at most one of the three,
once; when the id resolves to a slice stack none of the three is reported. In the three
error cases `Validate` returns for every model; for an element that is not an object the
result is empty. -/
theorem C17_stack_id_resolution (ext : SliceStackInfo) (m : Model) (path : String)
    (obj : Object) (fuel : Nat) :
    (∀ errs, ext.Validate m path (.Object obj) fuel = some errs →
      (GoError.MissingFieldError attrSliceRefID ∈ errs ↔ ext.SliceStackID = 0)
      ∧ (ErrMissingResource ∈ errs ↔ ext.SliceStackID ≠ 0 ∧ ext.lookup m path = none)
      ∧ (ErrNonSliceStack ∈ errs
          ↔ ext.SliceStackID ≠ 0 ∧ ∃ a, ext.lookup m path = some a ∧ ∀ st, a ≠ .SliceStack st)
      ∧ List.count (GoError.MissingFieldError attrSliceRefID) errs
          + List.count ErrMissingResource errs + List.count ErrNonSliceStack errs ≤ 1
      ∧ (ext.SliceStackID ≠ 0 → (∃ st, ext.lookup m path = some (.SliceStack st)) →
          GoError.MissingFieldError attrSliceRefID ∉ errs ∧ ErrMissingResource ∉ errs
            ∧ ErrNonSliceStack ∉ errs))
    ∧ ((ext.SliceStackID = 0 ∨ ∀ st, ext.lookup m path ≠ some (.SliceStack st)) →
        ∃ errs, ext.Validate m path (.Object obj) fuel = some errs)
    ∧ ext.Validate m path .Other fuel = some [] := by
  have hext : ext.extErrors m = [] ∨ ext.extErrors m = [ErrSliceExtRequired] := by
    unfold SliceStackInfo.extErrors
    split_ifs
    · exact Or.inr rfl
    · exact Or.inl rfl
  refine ⟨?_, ?_, rfl⟩
  · intro errs hV
    by_cases hid : ext.SliceStackID = 0
    · rw [Validate_missing_id ext m path obj fuel hid] at hV
      cases hV
      rcases hext with he | he <;>
        simp [he, hid, ErrMissingResource, ErrNonSliceStack, ErrSliceExtRequired,
          List.count_cons]
    · cases hl : ext.lookup m path with
      | none =>
          rw [Validate_missing_resource ext m path obj fuel hid hl] at hV
          cases hV
          rcases hext with he | he <;>
            simp [he, hid, ErrMissingResource, ErrNonSliceStack, ErrSliceExtRequired,
              List.count_cons]
      | some a =>
          cases a with
          | Other k =>
              rw [Validate_non_stack ext m path obj fuel hid k hl] at hV
              cases hV
              rcases hext with he | he <;>
                simp [he, hid, ErrMissingResource, ErrNonSliceStack, ErrSliceExtRequired,
                  List.count_cons]
          | SliceStack r =>
              rw [Validate_stack ext m path obj fuel hid r hl] at hV
              cases hw : validateBuildTransforms m path obj.ID fuel with
              | none => simp [hw] at hV
              | some ok =>
                  simp only [hw, Option.map_some', Option.some.injEq] at hV
                  subst hV
                  rcases hext with he | he <;> cases ok <;>
                    by_cases hc : (obj.ObjectType = .ObjectTypeModel
                      ∨ obj.ObjectType = .ObjectTypeSolidSupport)
                      ∧ checkAllClosed m r = false <;>
                    simp [he, hid, hc, ErrMissingResource, ErrNonSliceStack, ErrSliceExtRequired,
                      ErrSliceInvalidTranform, ErrSlicePolygonNotClosed, List.count_cons]
  · intro h
    by_cases hid : ext.SliceStackID = 0
    · exact ⟨_, Validate_missing_id ext m path obj fuel hid⟩
    · cases hl : ext.lookup m path with
      | none => exact ⟨_, Validate_missing_resource ext m path obj fuel hid hl⟩
      | some a =>
          cases a with
          | Other k => exact ⟨_, Validate_non_stack ext m path obj fuel hid k hl⟩
          | SliceStack r =>
              rcases h with h | h
              · exact absurd h hid
              · exact absurd hl (h r)

theorem twoHop_Validate_60 (fuel : Nat) :
    info60.Validate twoHopModel rootPath (.Object solidObject) fuel
      = some [ErrNonSliceStack, ErrSliceExtRequired] := by
  rw [Validate_non_stack info60 twoHopModel rootPath solidObject fuel (by decide) 60
    twoHop_lookup_60]
  simp [SliceStackInfo.extErrors, info60, twoHopModel]

/-- Witness of C17: the stack id 60 resolves to an asset that is not a slice stack. -/
theorem C17_stack_id_resolution_witness :
    (ErrNonSliceStack ∈ [ErrNonSliceStack, ErrSliceExtRequired]
      ↔ info60.SliceStackID ≠ 0
        ∧ ∃ a, info60.lookup twoHopModel rootPath = some a ∧ ∀ st, a ≠ .SliceStack st)
    ∧ info60.Validate twoHopModel rootPath .Other 0 = some [] :=
  ⟨((C17_stack_id_resolution info60 twoHopModel rootPath solidObject 0).1 _
      (twoHop_Validate_60 0)).2.2.1,
   (C17_stack_id_resolution info60 twoHopModel rootPath solidObject 0).2.2⟩

/-- C18 as stated fails: the extension data of object 1 of the model with the two-hop
cycle 1 → 2 → 1 has low resolution and a stack id that resolves to a slice stack, and the
model does not require the slice extension, yet `SliceStackInfo.Validate` does not
return, whatever the bound on the recursion depth of the transform walk, so
`SliceExtRequired` is not reported. -/
theorem C18_counterexample :
    info52.MeshResolution = .ResolutionLow
    ∧ Namespace ∉ cycleOpenModel.RequiredExtensions
    ∧ info52.SliceStackID ≠ 0
    ∧ info52.lookup cycleOpenModel rootPath = some (.SliceStack stack52)
    ∧ (∀ fuel, validateBuildTransforms cycleOpenModel rootPath cycleA.ID fuel = none)
    ∧ (∀ fuel, info52.Validate cycleOpenModel rootPath (.Object cycleA) fuel = none) :=
  ⟨rfl, by simp [cycleOpenModel], by decide, cycleOpen_lookup_52, cycleOpen_build_none,
    cycleOpen_Validate_none⟩

/-- C18 (amended): low resolution needs the extension required, when `Validate` returns.
Every result that `SliceStackInfo.Validate` returns for an object holds
`ErrSliceExtRequired` if and only if the mesh resolution is low and the slice extension
namespace is not among the required extensions of the model. The error is appended after
the stack-id error, whatever that is: after the missing-field error when the id is 0,
after `MissingResource` when the id is not found, after `NonSliceStack` when it resolves
to another asset (in these three cases `Validate` returns on every model), and after the
transform and polygon errors when it resolves to a slice stack and the transform walk
returns, which it does on every acyclic model; when the id resolves to a slice stack and
the walk does not return, `Validate` does not return and nothing is reported. -/
theorem C18_low_resolution_needs_extension (ext : SliceStackInfo) (m : Model) (path : String)
    (obj : Object) (fuel : Nat) :
    (∀ errs, ext.Validate m path (.Object obj) fuel = some errs →
      (ErrSliceExtRequired ∈ errs
        ↔ ext.MeshResolution = .ResolutionLow ∧ Namespace ∉ m.RequiredExtensions))
    ∧ (ext.extErrors m
        = if ext.MeshResolution = .ResolutionLow ∧ Namespace ∉ m.RequiredExtensions
          then [ErrSliceExtRequired] else [])
    ∧ (ext.SliceStackID = 0 → ext.Validate m path (.Object obj) fuel
        = some ([.MissingFieldError attrSliceRefID] ++ ext.extErrors m))
    ∧ (ext.SliceStackID ≠ 0 → ext.lookup m path = none →
        ext.Validate m path (.Object obj) fuel = some ([ErrMissingResource] ++ ext.extErrors m))
    ∧ (ext.SliceStackID ≠ 0 → ∀ k, ext.lookup m path = some (.Other k) →
        ext.Validate m path (.Object obj) fuel = some ([ErrNonSliceStack] ++ ext.extErrors m))
    ∧ (ext.SliceStackID ≠ 0 → ∀ r, ext.lookup m path = some (.SliceStack r) →
        ∀ ok, validateBuildTransforms m path obj.ID fuel = some ok →
        ∃ pre, ext.Validate m path (.Object obj) fuel = some (pre ++ ext.extErrors m)
          ∧ ErrSliceExtRequired ∉ pre)
    ∧ (∀ rank, Acyclic m path rank → walkBound m path rank m.Build.Items ≤ fuel →
        ∃ errs, ext.Validate m path (.Object obj) fuel = some errs)
    ∧ (ext.SliceStackID ≠ 0 → ∀ r, ext.lookup m path = some (.SliceStack r) →
        validateBuildTransforms m path obj.ID fuel = none →
        ext.Validate m path (.Object obj) fuel = none) := by
  have hext : ext.extErrors m
      = if ext.MeshResolution = .ResolutionLow ∧ Namespace ∉ m.RequiredExtensions
        then [ErrSliceExtRequired] else [] := rfl
  have hmem : ErrSliceExtRequired ∈ ext.extErrors m
      ↔ ext.MeshResolution = .ResolutionLow ∧ Namespace ∉ m.RequiredExtensions := by
    rw [hext, mem_ite_singleton]
    simp
  refine ⟨?_, hext, Validate_missing_id ext m path obj fuel,
    Validate_missing_resource ext m path obj fuel,
    fun hid k hl => Validate_non_stack ext m path obj fuel hid k hl, ?_,
    fun rank hacyc hfuel => Validate_returns_of_acyclic ext m path _ rank hacyc fuel hfuel,
    fun hid r hl hnone => by
      rw [Validate_stack ext m path obj fuel hid r hl, hnone]
      rfl⟩
  · intro errs hV
    rw [← hmem]
    by_cases hid : ext.SliceStackID = 0
    · rw [Validate_missing_id ext m path obj fuel hid] at hV
      cases hV
      simp [ErrSliceExtRequired]
    · cases hl : ext.lookup m path with
      | none =>
          rw [Validate_missing_resource ext m path obj fuel hid hl] at hV
          cases hV
          simp [ErrSliceExtRequired, ErrMissingResource]
      | some a =>
          cases a with
          | Other k =>
              rw [Validate_non_stack ext m path obj fuel hid k hl] at hV
              cases hV
              simp [ErrSliceExtRequired, ErrNonSliceStack]
          | SliceStack r =>
              rw [Validate_stack ext m path obj fuel hid r hl] at hV
              cases hw : validateBuildTransforms m path obj.ID fuel with
              | none => simp [hw] at hV
              | some ok =>
                  simp only [hw, Option.map_some', Option.some.injEq] at hV
                  subst hV
                  cases ok <;>
                    by_cases hc : (obj.ObjectType = .ObjectTypeModel
                      ∨ obj.ObjectType = .ObjectTypeSolidSupport)
                      ∧ checkAllClosed m r = false <;>
                    simp [hc, ErrSliceExtRequired, ErrSliceInvalidTranform,
                      ErrSlicePolygonNotClosed]
  · intro hid r hl ok hok
    rw [Validate_stack ext m path obj fuel hid r hl, hok]
    refine ⟨_, rfl, ?_⟩
    cases ok <;>
      by_cases hc : (obj.ObjectType = .ObjectTypeModel
        ∨ obj.ObjectType = .ObjectTypeSolidSupport) ∧ checkAllClosed m r = false <;>
      simp [hc, ErrSliceExtRequired, ErrSliceInvalidTranform, ErrSlicePolygonNotClosed]

/-- Witness of the amended C18: low resolution in a model that does not require the extension, with
a stack id that resolves to an asset that is not a slice stack. -/
theorem C18_low_resolution_needs_extension_witness :
    (ErrSliceExtRequired ∈ [ErrNonSliceStack, ErrSliceExtRequired]
      ↔ info60.MeshResolution = .ResolutionLow ∧ Namespace ∉ twoHopModel.RequiredExtensions)
    ∧ info0.Validate twoHopModel rootPath (.Object solidObject) 0
        = some ([.MissingFieldError attrSliceRefID] ++ info0.extErrors twoHopModel) :=
  ⟨(C18_low_resolution_needs_extension info60 twoHopModel rootPath solidObject 0).1 _
      (twoHop_Validate_60 0),
   (C18_low_resolution_needs_extension info0 twoHopModel rootPath solidObject 0).2.2.1 rfl⟩

/-! ## Theorems: pair index, vector index, matrix product -/

theorem newPairEntry_eq_iff (a b c d : Nat) :
    newPairEntry c d = newPairEntry a b ↔ (c = a ∧ d = b) ∨ (c = b ∧ d = a) := by
  unfold newPairEntry
  split_ifs <;> simp only [pairEntry.mk.injEq] <;> omega

theorem CheckMatch_addAll_absent (c d : Nat) (adds : List (Nat × Nat × Nat)) :
    ∀ t : pairMatch, t (newPairEntry c d) = none →
      (∀ x ∈ adds, ¬ ((c = x.1 ∧ d = x.2.1) ∨ (c = x.2.1 ∧ d = x.1))) →
      (pairMatch.addAll t adds).CheckMatch c d = (0, false) := by
  induction adds with
  | nil =>
      intro t ht _
      simp [pairMatch.addAll, pairMatch.CheckMatch, ht]
  | cons x rest ih =>
      intro t ht hne
      obtain ⟨a, b, v⟩ := x
      simp only [pairMatch.addAll]
      apply ih
      · have h := hne (a, b, v) (List.mem_cons_self _ _)
        have hk : newPairEntry c d ≠ newPairEntry a b := fun hk =>
          h ((newPairEntry_eq_iff a b c d).mp hk)
        simp [pairMatch.AddMatch, hk, ht]
      · intro y hy
        exact hne y (List.mem_cons_of_mem _ hy)

/-- C21: pair index upsert. After `AddMatch(a, b, v1)` followed by `AddMatch` in either
argument order with `v2`, `CheckMatch(a, b)` returns `(v2, true)`; for every unordered
pair `{c, d}` different from `{a, b}`, `CheckMatch(c, d)` returns the same after an
`AddMatch(a, b, v)` as before; and on a map built from the empty map by `AddMatch` calls,
`CheckMatch` of a pair that was never added returns `found = false`. -/
theorem C21_pair_index_upsert (t : pairMatch) (a b v1 v2 : Nat) :
    ((t.AddMatch a b v1).AddMatch a b v2).CheckMatch a b = (v2, true)
    ∧ ((t.AddMatch a b v1).AddMatch b a v2).CheckMatch a b = (v2, true)
    ∧ (∀ c d : Nat, ¬ ((c = a ∧ d = b) ∨ (c = b ∧ d = a)) →
        (t.AddMatch a b v1).CheckMatch c d = t.CheckMatch c d)
    ∧ (∀ (adds : List (Nat × Nat × Nat)) (c d : Nat),
        (∀ x ∈ adds, ¬ ((c = x.1 ∧ d = x.2.1) ∨ (c = x.2.1 ∧ d = x.1))) →
        (pairMatch.addAll pairMatch.empty adds).CheckMatch c d = (0, false)) := by
  have hsym : newPairEntry a b = newPairEntry b a :=
    (newPairEntry_eq_iff b a a b).mpr (Or.inr ⟨rfl, rfl⟩)
  refine ⟨?_, ?_, ?_, ?_⟩
  · simp [pairMatch.CheckMatch, pairMatch.AddMatch]
  · simp [pairMatch.CheckMatch, pairMatch.AddMatch, hsym]
  · intro c d h
    have hk : newPairEntry c d ≠ newPairEntry a b := fun hk =>
      h ((newPairEntry_eq_iff a b c d).mp hk)
    simp [pairMatch.CheckMatch, pairMatch.AddMatch, hk]
  · intro adds c d h
    exact CheckMatch_addAll_absent c d adds pairMatch.empty rfl h

/-- Witness of C21: the pair `{1, 2}` is written twice, the pair `{1, 3}` is untouched. -/
theorem C21_pair_index_upsert_witness :
    ((pairMatch.empty.AddMatch 1 2 7).AddMatch 2 1 8).CheckMatch 1 2 = (8, true)
    ∧ (pairMatch.empty.AddMatch 1 2 7).CheckMatch 1 3 = pairMatch.empty.CheckMatch 1 3 :=
  ⟨(C21_pair_index_upsert pairMatch.empty 1 2 7 8).2.1,
   (C21_pair_index_upsert pairMatch.empty 1 2 7 8).2.2.1 1 3 (by decide)⟩

/-- C22: vector index add, find, remove. After `AddVector(p, v)`, `FindVector(p)` returns
`(v, true)`, and `(v2, true)` after a second `AddVector(p, v2)`; after `RemoveVector(p)`,
`FindVector(p)` returns `found = false`; `RemoveVector` of a point whose key is absent
leaves every `FindVector` result unchanged. -/
theorem C22_vector_index_add_find_remove (t : vectorTree) (p : Point3D) (v v2 : Nat) :
    (t.AddVector p v).FindVector p = (v, true)
    ∧ ((t.AddVector p v).AddVector p v2).FindVector p = (v2, true)
    ∧ ((t.RemoveVector p).FindVector p).2 = false
    ∧ (((t.AddVector p v).RemoveVector p).FindVector p).2 = false
    ∧ (t (newvec3IFromVec3 p) = none → ∀ q, (t.RemoveVector p).FindVector q = t.FindVector q) := by
  refine ⟨?_, ?_, ?_, ?_, ?_⟩
  · simp [vectorTree.FindVector, vectorTree.AddVector]
  · simp [vectorTree.FindVector, vectorTree.AddVector]
  · simp [vectorTree.FindVector, vectorTree.RemoveVector]
  · simp [vectorTree.FindVector, vectorTree.RemoveVector]
  · intro h q
    unfold vectorTree.FindVector vectorTree.RemoveVector
    by_cases hk : newvec3IFromVec3 q = newvec3IFromVec3 p
    · simp [hk, h]
    · simp [hk]

/-- Witness of C22 on the empty index. -/
theorem C22_vector_index_add_find_remove_witness :
    ∀ q, (vectorTree.empty.RemoveVector pointNear).FindVector q = vectorTree.empty.FindVector q :=
  (C22_vector_index_add_find_remove vectorTree.empty pointNear 1 2).2.2.2.2 rfl

theorem roundEven_error (s : ℚ) : |(float32.roundEven s : ℚ) - s| ≤ 1 / 2 := by
  have h1 : (Int.floor s : ℚ) ≤ s := Int.floor_le s
  have h2 : s < Int.floor s + 1 := Int.lt_floor_add_one s
  unfold float32.roundEven
  rw [abs_le]
  split_ifs with ha hb hc
  · constructor <;> linarith
  · push_cast
    constructor <;> linarith
  · constructor <;> linarith
  · push_cast
    constructor <;> linarith

theorem roundEven_eq (s : ℚ) (k : ℤ) (h : |s - k| < 1 / 2) : float32.roundEven s = k := by
  rw [abs_lt] at h
  have h1 : (Int.floor s : ℚ) ≤ s := Int.floor_le s
  have h2 : s < Int.floor s + 1 := Int.lt_floor_add_one s
  have hk : Int.floor s = k ∨ Int.floor s = k - 1 := by
    have a1 : (k : ℚ) - 1 < Int.floor s + 1 := by linarith [h.1]
    have a2 : (Int.floor s : ℚ) < k + 1 := by linarith [h.2]
    have b1 : k - 1 < Int.floor s + 1 := by exact_mod_cast a1
    have b2 : Int.floor s < k + 1 := by exact_mod_cast a2
    omega
  unfold float32.roundEven
  rcases hk with hk | hk
  · have : s - (Int.floor s : ℚ) < 1 / 2 := by rw [hk]; linarith [h.2]
    rw [if_pos this, hk]
  · have hf : (Int.floor s : ℚ) = k - 1 := by rw [hk]; push_cast; ring
    have n1 : ¬ s - (Int.floor s : ℚ) < 1 / 2 := by rw [hf]; linarith [h.1]
    have n2 : 1 / 2 < s - (Int.floor s : ℚ) := by rw [hf]; linarith [h.1]
    rw [if_neg n1, if_pos n2, hk]
    ring

theorem log_eq_of_bounds (q : ℚ) (e : ℤ) (h1 : (2 : ℚ) ^ e ≤ |q|)
    (h2 : |q| < (2 : ℚ) ^ (e + 1)) : Int.log 2 |q| = e := by
  have hpos : 0 < |q| := lt_of_lt_of_le (by positivity) h1
  have a : e ≤ Int.log 2 |q| :=
    (Int.zpow_le_iff_le_log (by norm_num) hpos).mp (by exact_mod_cast h1)
  have b : Int.log 2 |q| < e + 1 :=
    (Int.lt_zpow_iff_log_lt (by norm_num) hpos).mp (by exact_mod_cast h2)
  omega

theorem ofRat_of_bounds (q : ℚ) (e : ℤ) (h1 : (2 : ℚ) ^ e ≤ |q|) (h2 : |q| < (2 : ℚ) ^ (e + 1))
    (he : -126 ≤ e) (k : ℤ) (hk : |q / (2 : ℚ) ^ (e - 23) - k| < 1 / 2)
    (hmax : |(k : ℚ) * (2 : ℚ) ^ (e - 23)| ≤ float32.Max) :
    float32.ofRat q = .finite (k * (2 : ℚ) ^ (e - 23)) := by
  have hpos : 0 < |q| := lt_of_lt_of_le (by positivity) h1
  have hq : q ≠ 0 := abs_pos.mp hpos
  unfold float32.ofRat
  rw [if_neg hq]
  simp only [log_eq_of_bounds q e h1 h2, max_eq_left he, roundEven_eq _ k hk]
  rw [if_neg (not_lt.mpr hmax)]

theorem floor_le_roundEven (s : ℚ) : Int.floor s ≤ float32.roundEven s := by
  unfold float32.roundEven
  split_ifs <;> omega

theorem roundEven_div_error (q : ℚ) (m j : ℕ) (hj : j ≤ m) :
    |(float32.roundEven (q * 2 ^ m) : ℚ) / 2 ^ m - q| ≤ 1 / (2 * 2 ^ j) := by
  have hP : (0 : ℚ) < 2 ^ m := by positivity
  have hJ : (0 : ℚ) < 2 ^ j := by positivity
  have hJP : (2 : ℚ) ^ j ≤ 2 ^ m := pow_le_pow_right₀ (by norm_num) hj
  have herr := roundEven_error (q * 2 ^ m)
  have heq : (float32.roundEven (q * 2 ^ m) : ℚ) / 2 ^ m - q
      = ((float32.roundEven (q * 2 ^ m) : ℚ) - q * 2 ^ m) / 2 ^ m := by
    field_simp
    ring
  rw [heq, abs_div, abs_of_pos hP, div_le_iff₀ hP, div_mul_eq_mul_div,
    le_div_iff₀ (by positivity)]
  have h := mul_le_mul_of_nonneg_right herr (le_of_lt hJ)
  linarith

/-- Below `2^n` in absolute value, with `n + j = 24`, the rounding has a step of at most
`2^-j` and does not overflow. -/
theorem ofRat_small (q : ℚ) (n j : ℕ) (hnj : n + j = 24) (hq : |q| < 2 ^ n) :
    ∃ m : ℕ, j ≤ m
      ∧ float32.ofRat q = .finite ((float32.roundEven (q * 2 ^ m) : ℚ) / 2 ^ m) := by
  by_cases h0 : q = 0
  · refine ⟨j, le_refl j, ?_⟩
    simp [float32.ofRat, h0, float32.roundEven]
  · have hpos : 0 < |q| := abs_pos.mpr h0
    have hlog : Int.log 2 |q| < (n : ℤ) :=
      (Int.lt_zpow_iff_log_lt (by norm_num) hpos).mp (by exact_mod_cast hq)
    have he : max (Int.log 2 |q|) (-126) < (n : ℤ) := by
      rw [max_lt_iff]
      constructor <;> omega
    obtain ⟨m, hm⟩ : ∃ m : ℕ, (m : ℤ) = 23 - max (Int.log 2 |q|) (-126) :=
      ⟨(23 - max (Int.log 2 |q|) (-126)).toNat, Int.toNat_of_nonneg (by omega)⟩
    have hmj : j ≤ m := by omega
    have hu : (2 : ℚ) ^ (max (Int.log 2 |q|) (-126) - 23) = ((2 : ℚ) ^ m)⁻¹ := by
      have h : max (Int.log 2 |q|) (-126) - 23 = -(m : ℤ) := by omega
      rw [h, zpow_neg, zpow_natCast]
    refine ⟨m, hmj, ?_⟩
    unfold float32.ofRat
    rw [if_neg h0]
    simp only []
    rw [hu, div_inv_eq_mul, ← div_eq_mul_inv, if_neg]
    rw [not_lt]
    have herr := roundEven_div_error q m 0 (Nat.zero_le m)
    have habs := abs_sub_abs_le_abs_sub ((float32.roundEven (q * 2 ^ m) : ℚ) / 2 ^ m) q
    have hn : (2 : ℚ) ^ n ≤ 2 ^ 24 := pow_le_pow_right₀ (by norm_num) (by omega)
    have : |(float32.roundEven (q * 2 ^ m) : ℚ) / 2 ^ m| ≤ 2 ^ 24 + 1 / 2 := by
      norm_num at herr
      linarith
    refine le_trans this ?_
    norm_num [float32.Max]

theorem ofRat_error (q : ℚ) (n j : ℕ) (hnj : n + j = 24) (hq : |q| < 2 ^ n) :
    ∃ r, float32.ofRat q = .finite r ∧ |r - q| ≤ 1 / (2 * 2 ^ j) := by
  obtain ⟨m, hm, hr⟩ := ofRat_small q n j hnj hq
  exact ⟨_, hr, roundEven_div_error q m j hm⟩

/-- Below `2^n` in absolute value, with `n + j = 24`, the rounding does not cross an
integer from above, and crosses one from below only from at most `2^-(j+1)` under it. -/
theorem ofRat_floor (q : ℚ) (n j : ℕ) (hnj : n + j = 24) (hq : |q| < 2 ^ n) (k : ℤ)
    (h1 : (k : ℚ) ≤ q) (h2 : q < (k : ℚ) + 1 - 1 / (2 * 2 ^ j)) :
    ∃ r, float32.ofRat q = .finite r ∧ Int.floor r = k := by
  obtain ⟨m, hm, hr⟩ := ofRat_small q n j hnj hq
  refine ⟨_, hr, ?_⟩
  have hP : (0 : ℚ) < 2 ^ m := by positivity
  have hJ : (0 : ℚ) < 2 ^ j := by positivity
  have hJP : (2 : ℚ) ^ j ≤ 2 ^ m := pow_le_pow_right₀ (by norm_num) hm
  have hd : 1 / 2 ≤ 1 / (2 * (2 : ℚ) ^ j) * 2 ^ m := by
    rw [div_mul_eq_mul_div, le_div_iff₀ (by positivity)]
    linarith
  have herr := roundEven_error (q * 2 ^ m)
  rw [abs_le] at herr
  have hlow : ((k * 2 ^ m : ℤ) : ℚ) ≤ q * 2 ^ m := by
    push_cast
    exact mul_le_mul_of_nonneg_right h1 (le_of_lt hP)
  have hfl : k * 2 ^ m ≤ float32.roundEven (q * 2 ^ m) :=
    le_trans (Int.le_floor.mpr hlow) (floor_le_roundEven _)
  have hfl2 : (k : ℚ) * 2 ^ m ≤ (float32.roundEven (q * 2 ^ m) : ℚ) := by
    exact_mod_cast hfl
  have hup : q * 2 ^ m < ((k : ℚ) + 1 - 1 / (2 * 2 ^ j)) * 2 ^ m :=
    mul_lt_mul_of_pos_right h2 hP
  generalize 1 / (2 * (2 : ℚ) ^ j) = d at hd hup
  rw [Int.floor_eq_iff]
  constructor
  · rw [le_div_iff₀ hP]
    exact hfl2
  · rw [div_lt_iff₀ hP]
    linarith [herr.2]

theorem ofRat_micronsAccuracy :
    float32.ofRat micronsAccuracy = .finite micronsAccuracy32 := by
  have h := ofRat_of_bounds (1 / 1000000) (-20) (by norm_num [abs_of_pos])
    (by norm_num [abs_of_pos]) (by norm_num) 8796093 (by norm_num [abs_lt])
    (by norm_num [abs_of_pos, float32.Max])
  rw [micronsAccuracy, micronsAccuracy32, h]
  norm_num

theorem micronsAccuracy32_pos : (0 : ℚ) < micronsAccuracy32 := by
  norm_num [micronsAccuracy32]

theorem micronsAccuracy32_lt : micronsAccuracy32 < micronsAccuracy := by
  norm_num [micronsAccuracy32, micronsAccuracy]

theorem divPos_finite (a : ℚ) :
    float32.divPos (.finite a) micronsAccuracy32 = float32.ofRat (a / micronsAccuracy32) :=
  rfl

/-- The key of a coordinate whose exact quotient by `float32(1e-6)` is below `2^n`, with
`n + j = 24`: the floor, in the `int32` range, of a value within `2^-(j+1)` of the exact
quotient. -/
theorem key_of_bound (n j : ℕ) (hnj : n + j = 24) (a : ℚ)
    (ha : |a / micronsAccuracy32| < 2 ^ n) :
    ∃ r : ℚ, float32.divPos (.finite a) micronsAccuracy32 = .finite r
      ∧ |r - a / micronsAccuracy32| ≤ 1 / (2 * 2 ^ j)
      ∧ inInt32 (Int.floor r)
      ∧ float32.floorInt32 (float32.divPos (.finite a) micronsAccuracy32) = Int.floor r := by
  obtain ⟨r, hr, herr2⟩ := ofRat_error (a / micronsAccuracy32) n j hnj ha
  have hn : (2 : ℚ) ^ n ≤ 2 ^ 24 := pow_le_pow_right₀ (by norm_num) (by omega)
  have hj1 : (1 : ℚ) ≤ 2 ^ j := one_le_pow₀ (by norm_num)
  have hhalf : 1 / (2 * (2 : ℚ) ^ j) ≤ 1 / 2 :=
    one_div_le_one_div_of_le (by norm_num) (by linarith)
  have hrabs : |r| < 2 ^ 24 + 1 := by
    have := abs_sub_abs_le_abs_sub r (a / micronsAccuracy32)
    linarith
  rw [abs_lt] at hrabs
  have hf1 : (-2147483648 : ℤ) ≤ Int.floor r := by
    rw [Int.le_floor]
    push_cast
    linarith [hrabs.1]
  have hf2 : Int.floor r ≤ (2147483647 : ℤ) := by
    have : Int.floor r < 2147483648 := by
      rw [Int.floor_lt]
      push_cast
      linarith [hrabs.2]
    omega
  refine ⟨r, hr, herr2, ⟨hf1, hf2⟩, ?_⟩
  rw [divPos_finite, hr]
  simp only [float32.floorInt32, hf1, hf2, and_self, if_true]

theorem keys_eq_close (n j : ℕ) (hnj : n + j = 24) (a b : ℚ)
    (ha : |a / micronsAccuracy32| < 2 ^ n) (hb : |b / micronsAccuracy32| < 2 ^ n)
    (h : float32.floorInt32 (float32.divPos (.finite a) micronsAccuracy32)
      = float32.floorInt32 (float32.divPos (.finite b) micronsAccuracy32)) :
    |a - b| < (1 + 2 * (1 / (2 * 2 ^ j))) * micronsAccuracy32 := by
  obtain ⟨ra, _, hea, _, hka⟩ := key_of_bound n j hnj a ha
  obtain ⟨rb, _, heb, _, hkb⟩ := key_of_bound n j hnj b hb
  rw [hka, hkb] at h
  have hc := micronsAccuracy32_pos
  have h1 : (Int.floor ra : ℚ) ≤ ra := Int.floor_le ra
  have h2 : ra < Int.floor ra + 1 := Int.lt_floor_add_one ra
  have h3 : (Int.floor rb : ℚ) ≤ rb := Int.floor_le rb
  have h4 : rb < Int.floor rb + 1 := Int.lt_floor_add_one rb
  rw [h] at h1 h2
  rw [abs_le] at hea heb
  generalize 1 / (2 * (2 : ℚ) ^ j) = d at hea heb ⊢
  have hq : |a / micronsAccuracy32 - b / micronsAccuracy32| < 1 + 2 * d := by
    rw [abs_lt]
    constructor <;> linarith [hea.1, hea.2, heb.1, heb.2]
  have heq : a / micronsAccuracy32 - b / micronsAccuracy32 = (a - b) / micronsAccuracy32 := by
    ring
  rw [heq, abs_div, abs_of_pos hc, div_lt_iff₀ hc] at hq
  exact hq

theorem key_of_cell (n j : ℕ) (hnj : n + j = 24) (a : ℚ)
    (ha : |a / micronsAccuracy32| < 2 ^ n) (k : ℤ)
    (h1 : (k : ℚ) * micronsAccuracy32 ≤ a)
    (h2 : a < ((k : ℚ) + 1 - 1 / (2 * 2 ^ j)) * micronsAccuracy32) :
    float32.floorInt32 (float32.divPos (.finite a) micronsAccuracy32) = k := by
  have hc := micronsAccuracy32_pos
  have q1 : (k : ℚ) ≤ a / micronsAccuracy32 := (le_div_iff₀ hc).mpr h1
  have q2 : a / micronsAccuracy32 < (k : ℚ) + 1 - 1 / (2 * 2 ^ j) := (div_lt_iff₀ hc).mpr h2
  obtain ⟨r, hr, hfl⟩ := ofRat_floor (a / micronsAccuracy32) n j hnj ha k q1 q2
  obtain ⟨r2, hr2, _, _, hk⟩ := key_of_bound n j hnj a ha
  rw [divPos_finite, hr] at hr2
  rw [hk, ← float32.finite.inj hr2, hfl]

/-- A coordinate of at most 1 in absolute value has a quotient below `2^20`. -/
theorem unit_bound (a : ℚ) (ha : |a| ≤ 1) : |a / micronsAccuracy32| < 2 ^ 20 := by
  rw [abs_div, abs_of_pos micronsAccuracy32_pos, div_lt_iff₀ micronsAccuracy32_pos]
  refine lt_of_le_of_lt ha ?_
  norm_num [micronsAccuracy32]

/-- A coordinate of at most 16 in absolute value has a quotient below `2^24`. -/
theorem sixteen_bound (a : ℚ) (ha : |a| ≤ 16) : |a / micronsAccuracy32| < 2 ^ 24 := by
  rw [abs_div, abs_of_pos micronsAccuracy32_pos, div_lt_iff₀ micronsAccuracy32_pos]
  refine lt_of_le_of_lt ha ?_
  norm_num [micronsAccuracy32]

theorem unit_keys_eq_close (a b : ℚ) (ha : |a| ≤ 1) (hb : |b| ≤ 1)
    (h : float32.floorInt32 (float32.divPos (.finite a) micronsAccuracy32)
      = float32.floorInt32 (float32.divPos (.finite b) micronsAccuracy32)) :
    |a - b| < 17 / 16 * micronsAccuracy32 := by
  have h2 := keys_eq_close 20 4 rfl a b (unit_bound a ha) (unit_bound b hb) h
  norm_num at h2 ⊢
  exact h2

theorem sixteen_keys_eq_close (a b : ℚ) (ha : |a| ≤ 16) (hb : |b| ≤ 16)
    (h : float32.floorInt32 (float32.divPos (.finite a) micronsAccuracy32)
      = float32.floorInt32 (float32.divPos (.finite b) micronsAccuracy32)) :
    |a - b| < 2 * micronsAccuracy32 := by
  have h2 := keys_eq_close 24 0 rfl a b (sixteen_bound a ha) (sixteen_bound b hb) h
  norm_num at h2 ⊢
  exact h2

theorem unit_key_of_cell (a : ℚ) (ha : |a| ≤ 1) (k : ℤ)
    (h1 : (k : ℚ) * micronsAccuracy32 ≤ a)
    (h2 : a < ((k : ℚ) + 1 - 1 / 32) * micronsAccuracy32) :
    float32.floorInt32 (float32.divPos (.finite a) micronsAccuracy32) = k :=
  key_of_cell 20 4 rfl a (unit_bound a ha) k h1 (by norm_num at h2 ⊢; exact h2)

theorem sixteen_key_of_cell (a : ℚ) (ha : |a| ≤ 16) (k : ℤ)
    (h1 : (k : ℚ) * micronsAccuracy32 ≤ a)
    (h2 : a < ((k : ℚ) + 1 - 1 / 2) * micronsAccuracy32) :
    float32.floorInt32 (float32.divPos (.finite a) micronsAccuracy32) = k :=
  key_of_cell 24 0 rfl a (sixteen_bound a ha) k h1 (by norm_num at h2 ⊢; exact h2)

theorem inRange_of_sixteen (p : Point3D) (a : Fin 3 → ℚ) (hp : ∀ i, p i = .finite (a i))
    (ha : ∀ i, |a i| ≤ 16) : p.inRange := by
  intro i
  obtain ⟨r, hr, _, hin, _⟩ := key_of_bound 24 0 rfl (a i) (sixteen_bound (a i) (ha i))
  exact ⟨r, by rw [hp i]; exact hr, hin⟩

theorem newvec3I_eq_iff (p q : Point3D) :
    newvec3IFromVec3 p = newvec3IFromVec3 q
      ↔ ∀ i : Fin 3, float32.floorInt32 (float32.divPos (p i) micronsAccuracy32)
          = float32.floorInt32 (float32.divPos (q i) micronsAccuracy32) := by
  simp only [newvec3IFromVec3, Point3D.X, Point3D.Y, Point3D.Z, vec3I.mk.injEq]
  constructor
  · rintro ⟨h0, h1, h2⟩ i
    fin_cases i
    · exact h0
    · exact h1
    · exact h2
  · intro h
    exact ⟨h 0, h 1, h 2⟩

theorem newvec3I_of_keys (p : Point3D) (x y z : Int)
    (hx : float32.floorInt32 (float32.divPos (p 0) micronsAccuracy32) = x)
    (hy : float32.floorInt32 (float32.divPos (p 1) micronsAccuracy32) = y)
    (hz : float32.floorInt32 (float32.divPos (p 2) micronsAccuracy32) = z) :
    newvec3IFromVec3 p = { X := x, Y := y, Z := z } := by
  simp only [newvec3IFromVec3, Point3D.X, Point3D.Y, Point3D.Z, hx, hy, hz]

theorem FindVector_after_Add_iff (p q : Point3D) (v : Nat) :
    (vectorTree.empty.AddVector p v).FindVector q = (v, true)
      ↔ newvec3IFromVec3 p = newvec3IFromVec3 q := by
  unfold vectorTree.FindVector vectorTree.AddVector vectorTree.empty
  by_cases h : newvec3IFromVec3 q = newvec3IFromVec3 p
  · simp [h]
  · have h2 : ¬ newvec3IFromVec3 p = newvec3IFromVec3 q := fun h3 => h h3.symm
    simp [h, h2]

theorem FindVector_after_Add_ne (p q : Point3D) (v : Nat)
    (h : newvec3IFromVec3 p ≠ newvec3IFromVec3 q) :
    (vectorTree.empty.AddVector p v).FindVector q = (0, false) := by
  simp [vectorTree.FindVector, vectorTree.AddVector, vectorTree.empty, Ne.symm h]

theorem key_zero : float32.floorInt32 (float32.divPos 0 micronsAccuracy32) = 0 := by
  have h := unit_key_of_cell 0 (by norm_num) 0 (by norm_num)
    (by norm_num [micronsAccuracy32])
  exact h

theorem divPos_far : float32.divPos (.finite (8912907 / 524288)) micronsAccuracy32
    = .finite 17000022 := by
  rw [divPos_finite, micronsAccuracy32]
  have h := ofRat_of_bounds ((8912907 / 524288) / (8796093 / 8796093022208)) 24
    (by norm_num [abs_of_pos]) (by norm_num [abs_of_pos])
    (by norm_num) 8500011 (by norm_num [abs_lt]) (by norm_num [abs_of_pos, float32.Max])
  rw [h]
  norm_num

theorem divPos_farNext : float32.divPos (.finite (8912908 / 524288)) micronsAccuracy32
    = .finite 17000022 := by
  rw [divPos_finite, micronsAccuracy32]
  have h := ofRat_of_bounds ((8912908 / 524288) / (8796093 / 8796093022208)) 24
    (by norm_num [abs_of_pos]) (by norm_num [abs_of_pos])
    (by norm_num) 8500011 (by norm_num [abs_lt]) (by norm_num [abs_of_pos, float32.Max])
  rw [h]
  norm_num

theorem floorInt32_finite (r : ℚ) (k : ℤ) (hk : Int.floor r = k)
    (h1 : -2147483648 ≤ k) (h2 : k ≤ 2147483647) : float32.floorInt32 (.finite r) = k := by
  simp only [float32.floorInt32, hk, h1, h2, and_self, if_true]

theorem newvec3I_pointNear : newvec3IFromVec3 pointNear = { X := 0, Y := 0, Z := 0 } :=
  newvec3I_of_keys pointNear 0 0 0
    (unit_key_of_cell (micronsAccuracy32 / 2) (by norm_num [micronsAccuracy32, abs_le]) 0
      (by norm_num [micronsAccuracy32]) (by norm_num [micronsAccuracy32]))
    key_zero key_zero

theorem newvec3I_pointBelow : newvec3IFromVec3 pointBelow = { X := 0, Y := 0, Z := 0 } :=
  newvec3I_of_keys pointBelow 0 0 0
    (unit_key_of_cell (1 / 1048576) (by norm_num [abs_le]) 0
      (by norm_num [micronsAccuracy32]) (by norm_num [micronsAccuracy32]))
    key_zero key_zero

theorem newvec3I_pointAbove : newvec3IFromVec3 pointAbove = { X := 1, Y := 0, Z := 0 } :=
  newvec3I_of_keys pointAbove 1 0 0
    (unit_key_of_cell (5 / 4194304) (by norm_num [abs_le]) 1
      (by norm_num [micronsAccuracy32]) (by norm_num [micronsAccuracy32]))
    key_zero key_zero

theorem newvec3I_pointFar :
    newvec3IFromVec3 pointFar = { X := 17000022, Y := 0, Z := 0 } :=
  newvec3I_of_keys pointFar 17000022 0 0
    (by
      show float32.floorInt32 (float32.divPos (.finite (8912907 / 524288)) _) = _
      rw [divPos_far]
      exact floorInt32_finite _ 17000022 (by norm_num) (by norm_num) (by norm_num))
    key_zero key_zero

theorem newvec3I_pointFarNext :
    newvec3IFromVec3 pointFarNext = { X := 17000022, Y := 0, Z := 0 } :=
  newvec3I_of_keys pointFarNext 17000022 0 0
    (by
      show float32.floorInt32 (float32.divPos (.finite (8912908 / 524288)) _) = _
      rw [divPos_farNext]
      exact floorInt32_finite _ 17000022 (by norm_num) (by norm_num) (by norm_num))
    key_zero key_zero

/-- The point at `float32(1e-6)` has the key 1 on the X axis: the `float32` quotient is
exactly 1, although the coordinate is less than `1e-6`. -/
theorem newvec3I_pointMicron : newvec3IFromVec3 pointMicron = { X := 1, Y := 0, Z := 0 } :=
  newvec3I_of_keys pointMicron 1 0 0
    (unit_key_of_cell micronsAccuracy32 (by norm_num [micronsAccuracy32, abs_le]) 1
      (by norm_num [micronsAccuracy32]) (by norm_num [micronsAccuracy32]))
    key_zero key_zero

theorem divPos_large : float32.divPos 3000 micronsAccuracy32 = .finite 3000000000 := by
  show float32.ofRat (((3000 : ℕ) : ℚ) / micronsAccuracy32) = _
  rw [micronsAccuracy32]
  have h := ofRat_of_bounds (((3000 : ℕ) : ℚ) / (8796093 / 8796093022208)) 31
    (by norm_num [abs_of_pos]) (by norm_num [abs_of_pos])
    (by norm_num) 11718750 (by norm_num [abs_lt]) (by norm_num [abs_of_pos, float32.Max])
  rw [h]
  norm_num

/-- The point at 3000 has a quotient above the range of `int32`: the conversion gives the
least `int32`. -/
theorem newvec3I_pointLarge :
    newvec3IFromVec3 pointLarge = { X := -2147483648, Y := 0, Z := 0 } :=
  newvec3I_of_keys pointLarge (-2147483648) 0 0
    (by
      show float32.floorInt32 (float32.divPos 3000 _) = _
      rw [divPos_large]
      norm_num [float32.floorInt32])
    key_zero key_zero

theorem divPos_zero : float32.divPos 0 micronsAccuracy32 = .finite 0 := by
  show float32.ofRat (((0 : ℕ) : ℚ) / micronsAccuracy32) = _
  simp [float32.ofRat]

theorem pointBelow_inRange : pointBelow.inRange :=
  inRange_of_sixteen pointBelow ![1 / 1048576, 0, 0] (by intro i; fin_cases i <;> rfl)
    (by intro i; fin_cases i <;> norm_num [abs_le])

theorem pointAbove_inRange : pointAbove.inRange :=
  inRange_of_sixteen pointAbove ![5 / 4194304, 0, 0] (by intro i; fin_cases i <;> rfl)
    (by intro i; fin_cases i <;> norm_num [abs_le])

theorem pointFar_inRange : pointFar.inRange := by
  intro i
  fin_cases i
  · exact ⟨17000022, divPos_far, by norm_num [inInt32]⟩
  · exact ⟨0, divPos_zero, by norm_num [inInt32]⟩
  · exact ⟨0, divPos_zero, by norm_num [inInt32]⟩

theorem pointFarNext_inRange : pointFarNext.inRange := by
  intro i
  fin_cases i
  · exact ⟨17000022, divPos_farNext, by norm_num [inInt32]⟩
  · exact ⟨0, divPos_zero, by norm_num [inInt32]⟩
  · exact ⟨0, divPos_zero, by norm_num [inInt32]⟩

/-- C23 as stated fails: the points at `2^-20` and at `5 * 2^-22` on the X axis, about
0.95 and 1.19 micron from the origin, differ by about 0.24 micron, both are in range, and
their keys are `(0, 0, 0)` and `(1, 0, 0)`, in exact arithmetic as in that of `float32`:
`FindVector` of the second does not find the value added for the first. -/
theorem C23_counterexample :
    (∃ a b : ℚ, pointBelow 0 = .finite a ∧ pointAbove 0 = .finite b
        ∧ |a - b| < micronsAccuracy
        ∧ Int.floor (a / micronsAccuracy) = 0 ∧ Int.floor (b / micronsAccuracy) = 1)
    ∧ pointBelow 1 = pointAbove 1 ∧ pointBelow 2 = pointAbove 2
    ∧ pointBelow.inRange ∧ pointAbove.inRange
    ∧ newvec3IFromVec3 pointBelow = { X := 0, Y := 0, Z := 0 }
    ∧ newvec3IFromVec3 pointAbove = { X := 1, Y := 0, Z := 0 }
    ∧ (vectorTree.empty.AddVector pointBelow 5).FindVector pointAbove = (0, false) := by
  refine ⟨⟨1 / 1048576, 5 / 4194304, by simp [pointBelow], by simp [pointAbove], ?_, ?_, ?_⟩,
    rfl, rfl, pointBelow_inRange, pointAbove_inRange, newvec3I_pointBelow,
    newvec3I_pointAbove, ?_⟩
  · norm_num [micronsAccuracy, abs_lt]
  · norm_num [micronsAccuracy, Int.floor_eq_iff]
  · norm_num [micronsAccuracy, Int.floor_eq_iff]
  · refine FindVector_after_Add_ne pointBelow pointAbove 5 ?_
    rw [newvec3I_pointBelow, newvec3I_pointAbove]
    decide

/-- C23 (amended): jitter inside one grid cell collides. On the empty index,
`AddVector(p, v)` followed by `FindVector(q)` returns `(v, true)` if and only if the keys
of `p` and `q` are equal, that is if and only if on every axis the `float32` quotients
by `float32(1e-6)` have the same floor; on every index, points with equal keys collide.
With `c = float32(1e-6)` and the cells `[k * c, (k + 1) * c)`: for coordinates of at most
1 in absolute value, two points that on every axis lie in the same cell, more than
`c / 32` below its upper end, have equal keys, and points with equal keys are less than
`17 / 16 * c` apart on every axis; for coordinates of at most 16 in absolute value the
same holds with the lower half of the cell and with `2 * c`. -/
theorem C23_same_cell_collides (p q : Point3D) (t : vectorTree) (v : Nat) :
    ((vectorTree.empty.AddVector p v).FindVector q = (v, true)
      ↔ newvec3IFromVec3 p = newvec3IFromVec3 q)
    ∧ (newvec3IFromVec3 p = newvec3IFromVec3 q
      ↔ ∀ i : Fin 3, float32.floorInt32 (float32.divPos (p i) micronsAccuracy32)
          = float32.floorInt32 (float32.divPos (q i) micronsAccuracy32))
    ∧ (newvec3IFromVec3 p = newvec3IFromVec3 q → (t.AddVector p v).FindVector q = (v, true))
    ∧ (∀ a b : Fin 3 → ℚ, (∀ i, p i = .finite (a i)) → (∀ i, q i = .finite (b i)) →
        (∀ i, |a i| ≤ 1) → (∀ i, |b i| ≤ 1) →
        (∀ i : Fin 3, ∃ k : Int,
          (k : ℚ) * micronsAccuracy32 ≤ a i
            ∧ a i < ((k : ℚ) + 1 - 1 / 32) * micronsAccuracy32
            ∧ (k : ℚ) * micronsAccuracy32 ≤ b i
            ∧ b i < ((k : ℚ) + 1 - 1 / 32) * micronsAccuracy32) →
        newvec3IFromVec3 p = newvec3IFromVec3 q
          ∧ (t.AddVector p v).FindVector q = (v, true))
    ∧ (∀ a b : Fin 3 → ℚ, (∀ i, p i = .finite (a i)) → (∀ i, q i = .finite (b i)) →
        (∀ i, |a i| ≤ 1) → (∀ i, |b i| ≤ 1) →
        newvec3IFromVec3 p = newvec3IFromVec3 q →
        ∀ i, |a i - b i| < 17 / 16 * micronsAccuracy32)
    ∧ (∀ a b : Fin 3 → ℚ, (∀ i, p i = .finite (a i)) → (∀ i, q i = .finite (b i)) →
        (∀ i, |a i| ≤ 16) → (∀ i, |b i| ≤ 16) →
        (∀ i : Fin 3, ∃ k : Int,
          (k : ℚ) * micronsAccuracy32 ≤ a i
            ∧ a i < ((k : ℚ) + 1 - 1 / 2) * micronsAccuracy32
            ∧ (k : ℚ) * micronsAccuracy32 ≤ b i
            ∧ b i < ((k : ℚ) + 1 - 1 / 2) * micronsAccuracy32) →
        newvec3IFromVec3 p = newvec3IFromVec3 q
          ∧ (t.AddVector p v).FindVector q = (v, true))
    ∧ (∀ a b : Fin 3 → ℚ, (∀ i, p i = .finite (a i)) → (∀ i, q i = .finite (b i)) →
        (∀ i, |a i| ≤ 16) → (∀ i, |b i| ≤ 16) →
        newvec3IFromVec3 p = newvec3IFromVec3 q →
        ∀ i, |a i - b i| < 2 * micronsAccuracy32) := by
  have hfind : newvec3IFromVec3 p = newvec3IFromVec3 q →
      (t.AddVector p v).FindVector q = (v, true) := by
    intro hkey
    simp [vectorTree.FindVector, vectorTree.AddVector, hkey]
  refine ⟨FindVector_after_Add_iff p q v, newvec3I_eq_iff p q, hfind, ?_, ?_, ?_, ?_⟩
  · intro a b hp hq ha hb hcell
    have hkey : newvec3IFromVec3 p = newvec3IFromVec3 q := by
      rw [newvec3I_eq_iff]
      intro i
      obtain ⟨k, h1, h2, h3, h4⟩ := hcell i
      rw [hp i, hq i, unit_key_of_cell (a i) (ha i) k h1 h2,
        unit_key_of_cell (b i) (hb i) k h3 h4]
    exact ⟨hkey, hfind hkey⟩
  · intro a b hp hq ha hb hkey i
    have h := (newvec3I_eq_iff p q).mp hkey i
    rw [hp i, hq i] at h
    exact unit_keys_eq_close (a i) (b i) (ha i) (hb i) h
  · intro a b hp hq ha hb hcell
    have hkey : newvec3IFromVec3 p = newvec3IFromVec3 q := by
      rw [newvec3I_eq_iff]
      intro i
      obtain ⟨k, h1, h2, h3, h4⟩ := hcell i
      rw [hp i, hq i, sixteen_key_of_cell (a i) (ha i) k h1 h2,
        sixteen_key_of_cell (b i) (hb i) k h3 h4]
    exact ⟨hkey, hfind hkey⟩
  · intro a b hp hq ha hb hkey i
    have h := (newvec3I_eq_iff p q).mp hkey i
    rw [hp i, hq i] at h
    exact sixteen_keys_eq_close (a i) (b i) (ha i) (hb i) h

/-- Witness of the amended C23: the points at `float32(1e-6) / 2` and at `2^-20` lie in
the cell of key 0, away from its upper end. -/
theorem C23_same_cell_collides_witness :
    newvec3IFromVec3 pointNear = newvec3IFromVec3 pointBelow
    ∧ (vectorTree.empty.AddVector pointNear 5).FindVector pointBelow = (5, true) :=
  (C23_same_cell_collides pointNear pointBelow vectorTree.empty 5).2.2.2.1
    ![micronsAccuracy32 / 2, 0, 0] ![1 / 1048576, 0, 0]
    (by intro i; fin_cases i <;> rfl)
    (by intro i; fin_cases i <;> rfl)
    (by intro i; fin_cases i <;> norm_num [micronsAccuracy32, abs_le])
    (by intro i; fin_cases i <;> norm_num [abs_le])
    (by
      intro i
      refine ⟨0, ?_⟩
      fin_cases i <;> simp [micronsAccuracy32] <;> norm_num)

/-- C24 as stated fails: the points at 17.000021 and at 17.000023 on the X axis, the two
`float32` values `17 + 11 * 2^-19` and `17 + 12 * 2^-19`, differ by about 1.9 micron and
are in range, yet both get the key `(17000022, 0, 0)`: near 17000000 the `float32`
quotients are even integers. `AddVector` of the first makes `FindVector` of the second
succeed. -/
theorem C24_counterexample :
    (∃ a b : ℚ, pointFar 0 = .finite a ∧ pointFarNext 0 = .finite b
        ∧ micronsAccuracy ≤ |a - b|)
    ∧ pointFar.inRange ∧ pointFarNext.inRange
    ∧ newvec3IFromVec3 pointFar = { X := 17000022, Y := 0, Z := 0 }
    ∧ newvec3IFromVec3 pointFarNext = { X := 17000022, Y := 0, Z := 0 }
    ∧ (vectorTree.empty.AddVector pointFar 5).FindVector pointFarNext = (5, true) := by
  refine ⟨⟨8912907 / 524288, 8912908 / 524288, by simp [pointFar], by simp [pointFarNext], ?_⟩,
    pointFar_inRange, pointFarNext_inRange, newvec3I_pointFar, newvec3I_pointFarNext, ?_⟩
  · norm_num [micronsAccuracy, le_abs]
  · exact (FindVector_after_Add_iff pointFar pointFarNext 5).mpr
      (newvec3I_pointFar.trans newvec3I_pointFarNext.symm)

/-- C24 (amended): points far enough apart stay distinct, with a distance that depends
on the size of the coordinates. Two points whose coordinates are at most 1 in absolute
value and that differ by at least `17 / 16` micron on some axis have different keys, so
`AddVector(p, v)` on the empty index does not make `FindVector(q)` succeed; for
coordinates of at most 16 in absolute value the same holds for points that differ by at
least 2 micron on some axis. The quotient is the `float32` quotient of the code, which in
these ranges is within 1/32, respectively 1/2, of the exact one. -/
theorem C24_micron_apart_distinct (p q : Point3D) (a b : Fin 3 → ℚ)
    (hp : ∀ i, p i = .finite (a i)) (hq : ∀ i, q i = .finite (b i)) (i : Fin 3) :
    ((∀ i, |a i| ≤ 1) → (∀ i, |b i| ≤ 1) → 17 / 16 * micronsAccuracy ≤ |a i - b i| →
      newvec3IFromVec3 p ≠ newvec3IFromVec3 q
        ∧ (∀ v : Nat, (vectorTree.empty.AddVector p v).FindVector q = (0, false)))
    ∧ ((∀ i, |a i| ≤ 16) → (∀ i, |b i| ≤ 16) → 2 * micronsAccuracy ≤ |a i - b i| →
      newvec3IFromVec3 p ≠ newvec3IFromVec3 q
        ∧ (∀ v : Nat, (vectorTree.empty.AddVector p v).FindVector q = (0, false))) := by
  have hlt := micronsAccuracy32_lt
  constructor
  · intro ha hb h
    have hne : newvec3IFromVec3 p ≠ newvec3IFromVec3 q := by
      intro hkey
      have hk := (newvec3I_eq_iff p q).mp hkey i
      rw [hp i, hq i] at hk
      have hclose := unit_keys_eq_close (a i) (b i) (ha i) (hb i) hk
      linarith
    exact ⟨hne, fun v => FindVector_after_Add_ne p q v hne⟩
  · intro ha hb h
    have hne : newvec3IFromVec3 p ≠ newvec3IFromVec3 q := by
      intro hkey
      have hk := (newvec3I_eq_iff p q).mp hkey i
      rw [hp i, hq i] at hk
      have hclose := sixteen_keys_eq_close (a i) (b i) (ha i) (hb i) hk
      linarith
    exact ⟨hne, fun v => FindVector_after_Add_ne p q v hne⟩

/-- Witness of the amended C24: the points at `float32(1e-6) / 2` and at `2^-19` are
about 1.4 micron apart. -/
theorem C24_micron_apart_distinct_witness :
    newvec3IFromVec3 pointNear ≠ newvec3IFromVec3 pointTwoMicron
    ∧ (∀ v : Nat, (vectorTree.empty.AddVector pointNear v).FindVector pointTwoMicron
        = (0, false)) :=
  (C24_micron_apart_distinct pointNear pointTwoMicron
    ![micronsAccuracy32 / 2, 0, 0] ![1 / 524288, 0, 0]
    (by intro i; fin_cases i <;> rfl)
    (by intro i; fin_cases i <;> rfl) 0).1
    (by intro i; fin_cases i <;> norm_num [micronsAccuracy32, abs_le])
    (by intro i; fin_cases i <;> norm_num [abs_le])
    (by norm_num [micronsAccuracy32, micronsAccuracy, le_abs])

theorem Identity_apply (k : Fin 16) :
    Identity k = if k = 0 ∨ k = 5 ∨ k = 10 ∨ k = 15 then 1 else 0 := by
  revert k
  decide

theorem Matrix_eta (M : Matrix) :
    M = ![M 0, M 1, M 2, M 3, M 4, M 5, M 6, M 7, M 8, M 9, M 10, M 11, M 12, M 13, M 14,
      M 15] := by
  funext i
  fin_cases i <;> rfl

/-- C30: the identity is neutral for `Mul`: `Identity().Mul(M) = M` and
`M.Mul(Identity()) = M`, entries in exact arithmetic. -/
theorem C30_Identity_neutral_for_Mul (M : Matrix) :
    Matrix.Mul Identity M = M ∧ Matrix.Mul M Identity = M := by
  constructor
  · conv_rhs => rw [Matrix_eta M]
    simp [Matrix.Mul, Identity_apply]
  · conv_rhs => rw [Matrix_eta M]
    simp [Matrix.Mul, Identity_apply]

/-! ## Theorems: error lists and beams -/

/-- C25: `ErrorList.Unwrap` returns the first element of the list when the list is not
empty and nil when it is empty; `Len` returns the number of elements. -/
theorem C25_ErrorList_Unwrap_and_Len (es : List GoError) :
    (∀ (first : GoError) (rest : List GoError), es = first :: rest →
        ErrorList.Unwrap es = first)
    ∧ (es = [] → ErrorList.Unwrap es = .nil)
    ∧ (es ≠ [] → some (ErrorList.Unwrap es) = es.head?)
    ∧ ErrorList.Len es = es.length := by
  refine ⟨?_, ?_, ?_, rfl⟩
  · intro first rest h
    rw [h]
    rfl
  · intro h
    rw [h]
    rfl
  · intro h
    cases es with
    | nil => exact absurd rfl h
    | cons a t => rfl

/-- Witness of C25 on a list of two errors and on the empty list. -/
theorem C25_ErrorList_Unwrap_and_Len_witness :
    ErrorList.Unwrap [ErrRecursion, ErrMissingResource] = ErrRecursion
    ∧ ErrorList.Unwrap [] = .nil
    ∧ ErrorList.Len [ErrRecursion, ErrMissingResource] = 2 :=
  ⟨(C25_ErrorList_Unwrap_and_Len [ErrRecursion, ErrMissingResource]).1 _ _ rfl,
   (C25_ErrorList_Unwrap_and_Len []).2.1 rfl,
   (C25_ErrorList_Unwrap_and_Len [ErrRecursion, ErrMissingResource]).2.2.2⟩

theorem formatEach_eq_map (es : List GoError) : formatEach es = es.map fmtS := by
  induction es with
  | nil => simp [formatEach]
  | cons a t ih => simp [formatEach, ih, fmtS]

/-- C26: `ErrorList` rendering. For a list of exactly one error `e`, `Error()` is
`"1 error occurred:\n\t* " + e + "\n\n"`; for a list of `n` errors with `n` different
from 1 it is `n + " errors occurred:\n\t"`, then the entries `"* " + e_k` in list order
joined by `"\n\t"`, then `"\n\n"`; there is one entry per contained error, in list order,
each error rendered with the verb `%s`. -/
theorem C26_ErrorList_rendering (es : List GoError) :
    (∀ e : GoError, (GoError.ErrorList [e]).ErrorText
        = "1 error occurred:\n\t* " ++ fmtS e ++ "\n\n")
    ∧ (es.length ≠ 1 → (GoError.ErrorList es).ErrorText
        = toString es.length ++ " errors occurred:\n\t"
          ++ strings.Join (es.map (fun e => "* " ++ fmtS e)) "\n\t" ++ "\n\n")
    ∧ (es.map (fun e => "* " ++ fmtS e)).length = es.length
    ∧ (∀ k : Nat, (es.map (fun e => "* " ++ fmtS e))[k]? = (es[k]?).map (fun e => "* " ++ fmtS e))
    ∧ (GoError.ErrorList [.errorString "a", .errorString "b"]).ErrorText
        = "2 errors occurred:\n\t* a\n\t* b\n\n" := by
  refine ⟨?_, ?_, by simp, fun k => by simp, by decide⟩
  · intro e
    simp [GoError.ErrorText, format, formatEach, listFormatFunc, fmtS]
  · intro hlen
    simp only [GoError.ErrorText, format, formatEach_eq_map]
    unfold listFormatFunc
    split
    · rename_i e heq
      have : (es.map fmtS).length = 1 := by rw [heq]; rfl
      rw [List.length_map] at this
      exact absurd this hlen
    · simp [List.map_map, Function.comp_def]

/-- Witness of C26 on the empty list. -/
theorem C26_ErrorList_rendering_witness :
    (GoError.ErrorList []).ErrorText = "0 errors occurred:\n\t\n\n" :=
  ((C26_ErrorList_rendering []).2.1 (by decide)).trans (by decide)

theorem beam_ok_iff (beam : beamlattice.Beam) (N : Nat) :
    (!(beam.NodeIndices.1 == beam.NodeIndices.2
      || decide (N ≤ beam.NodeIndices.1) || decide (N ≤ beam.NodeIndices.2))) = true
    ↔ beam.NodeIndices.1 ≠ beam.NodeIndices.2 ∧ beam.NodeIndices.1 < N
          ∧ beam.NodeIndices.2 < N := by
  simp only [Bool.not_eq_true', Bool.or_eq_false_iff, beq_eq_false_iff_ne,
    decide_eq_false_iff_not, not_le, ne_eq, and_assoc]

/-- C27: beam sanity. `checkSanity(N)` returns false if and only if some beam `(n1, n2)`
has `n1 = n2` or `n1 >= N` or `n2 >= N`, true otherwise; beam `(1, 1)` fails, beam
`(2, 1)` with `N = 2` fails, beam `(1, 2)` with `N = 2` fails, beam `(1, 2)` with `N = 3`
passes. -/
theorem C27_beam_sanity (b : beamlattice.BeamLattice) (N : Nat) :
    (b.checkSanity N = false ↔ ∃ beam ∈ b.Beams,
        beam.NodeIndices.1 = beam.NodeIndices.2 ∨ N ≤ beam.NodeIndices.1
          ∨ N ≤ beam.NodeIndices.2)
    ∧ (b.checkSanity N = true ↔ ∀ beam ∈ b.Beams,
        beam.NodeIndices.1 ≠ beam.NodeIndices.2 ∧ beam.NodeIndices.1 < N
          ∧ beam.NodeIndices.2 < N)
    ∧ (∀ n : Nat, beamlattice.BeamLattice.checkSanity { Beams := [{ NodeIndices := (1, 1) }] } n
        = false)
    ∧ beamlattice.BeamLattice.checkSanity { Beams := [{ NodeIndices := (2, 1) }] } 2 = false
    ∧ beamlattice.BeamLattice.checkSanity { Beams := [{ NodeIndices := (1, 2) }] } 2 = false
    ∧ beamlattice.BeamLattice.checkSanity { Beams := [{ NodeIndices := (1, 2) }] } 3 = true := by
  refine ⟨?_, ?_, ?_, by decide, by decide, by decide⟩
  · unfold beamlattice.BeamLattice.checkSanity
    rw [List.all_eq_false]
    constructor
    · rintro ⟨beam, hb, h⟩
      refine ⟨beam, hb, ?_⟩
      rw [beam_ok_iff] at h
      by_contra hcon
      apply h
      refine ⟨?_, ?_, ?_⟩
      · intro h1; exact hcon (Or.inl h1)
      · by_contra h2; exact hcon (Or.inr (Or.inl (by omega)))
      · by_contra h2; exact hcon (Or.inr (Or.inr (by omega)))
    · rintro ⟨beam, hb, h⟩
      refine ⟨beam, hb, ?_⟩
      rw [beam_ok_iff]
      rintro ⟨h1, h2, h3⟩
      rcases h with h | h | h
      · exact h1 h
      · omega
      · omega
  · unfold beamlattice.BeamLattice.checkSanity
    rw [List.all_eq_true]
    constructor
    · intro h beam hb
      exact (beam_ok_iff beam N).mp (h beam hb)
    · intro h beam hb
      exact (beam_ok_iff beam N).mpr (h beam hb)
  · intro n
    simp [beamlattice.BeamLattice.checkSanity]

/-- Witness of C27: with three nodes the beams `(0, 1)` and `(1, 2)` pass, the beams
`(0, 1)` and `(3, 1)` fail. -/
theorem C27_beam_sanity_witness :
    beamlattice.BeamLattice.checkSanity
        { Beams := [{ NodeIndices := (0, 1) }, { NodeIndices := (1, 2) }] } 3 = true
    ∧ beamlattice.BeamLattice.checkSanity
        { Beams := [{ NodeIndices := (0, 1) }, { NodeIndices := (3, 1) }] } 3 = false :=
  ⟨(C27_beam_sanity { Beams := [{ NodeIndices := (0, 1) }, { NodeIndices := (1, 2) }] } 3).2.1.mpr
      (by simp),
   (C27_beam_sanity { Beams := [{ NodeIndices := (0, 1) }, { NodeIndices := (3, 1) }] } 3).1.mpr
      ⟨{ NodeIndices := (3, 1) }, by simp, Or.inr (Or.inl (le_refl 3))⟩⟩

/-! ## Theorems: the blocks of the result of `SliceStack.Validate` -/

open slices go3mf

theorem validateSlices_loop_blocks (path : String) (bz : float32) (ss : List Slice) :
    ∀ (j0 : Nat) (init : float32),
    validateSlices.loop path bz j0 init ss
      = ((List.range ss.length).map (fun k =>
          match ss[k]? with
          | some s => validateSlices.step path bz (prevTopZ init ss k) (j0 + k) s
          | none => [])).flatten := by
  induction ss with
  | nil => intro j0 init; simp [validateSlices.loop]
  | cons s rest ih =>
      intro j0 init
      rw [validateSlices.loop, ih (j0 + 1) s.TopZ, List.length_cons, List.range_succ_eq_map,
        List.map_cons, List.flatten_cons, List.map_map]
      congr 1
      · simp [prevTopZ]
      · congr 1
        apply List.map_congr_left
        intro k hk
        have hlt : k < rest.length := List.mem_range.mp hk
        simp only [Function.comp_apply, Nat.succ_eq_add_one, List.getElem?_cons_succ]
        rw [List.getElem?_eq_getElem hlt]
        simp only []
        rw [prevTopZ_cons init s rest k _ (List.getElem?_eq_getElem hlt)]
        congr 1
        omega

theorem validateRefs_loop_blocks (m : Model) (path : String) (refs : List SliceRef) :
    ∀ (i0 : Nat) (z : float32),
    validateRefs.loop m path i0 z refs
      = ((List.range refs.length).map (fun k =>
          match refs[k]? with
          | some ref =>
              (validateRefs.step m path (validateRefs.lastTopZAt m path i0 z refs k) (i0 + k) ref).1
          | none => [])).flatten := by
  induction refs with
  | nil => intro i0 z; simp [validateRefs.loop]
  | cons ref rest ih =>
      intro i0 z
      rw [validateRefs.loop, ih (i0 + 1) (validateRefs.step m path z i0 ref).2, List.length_cons,
        List.range_succ_eq_map, List.map_cons, List.flatten_cons, List.map_map]
      congr 1
      · simp [validateRefs.lastTopZAt]
      · congr 1
        apply List.map_congr_left
        intro k hk
        have hlt : k < rest.length := List.mem_range.mp hk
        simp only [Function.comp_apply, Nat.succ_eq_add_one, List.getElem?_cons_succ]
        rw [List.getElem?_eq_getElem hlt]
        simp only [validateRefs.lastTopZAt]
        congr 2
        omega

theorem suppress_FindAsset_61 :
    suppressModel.FindAsset otherPath 61 = some (.SliceStack stack61) := by
  simp [Model.FindAsset, Model.FindResources, Resources.FindAsset, suppressModel, Asset.Identify,
    stack61, rootPath, otherPath]

theorem suppress_FindAsset_62 :
    suppressModel.FindAsset otherPath 62 = some (.SliceStack stack62) := by
  simp [Model.FindAsset, Model.FindResources, Resources.FindAsset, suppressModel, Asset.Identify,
    stack61, stack62, rootPath, otherPath]

theorem stack63_refErrors_1 :
    stack63.refErrors suppressModel rootPath 1
      = [NewIndexedAt rootPath typeSliceRef 1 ErrSliceNoMonotonic] := by
  have h1 : otherPath ≠ "" := by decide
  have h2 : otherPath ≠ rootPath := by decide
  have h3 : (3 : float32) ≤ 5 := by decide
  simp [SliceStack.refErrors, validateRefs.lastTopZAt, validateRefs.step, stack63, h1, h2,
    suppress_FindAsset_61, suppress_FindAsset_62, stack61, stack62, h3]

theorem stack64_refErrors_1 : stack64.refErrors suppressModel rootPath 1 = [] := by
  have h1 : otherPath ≠ "" := by decide
  have h2 : otherPath ≠ rootPath := by decide
  have h0 : rootPath ≠ "" := by decide
  have h3 : ¬ ((3 : float32) ≤ float32.finite (-MaxFloat32)) := float32.not_le_neg_max 3
  simp [SliceStack.refErrors, validateRefs.lastTopZAt, validateRefs.step, stack64, h0, h1, h2,
    suppress_FindAsset_62, stack62, h3]

theorem stack64_refErrors_0 :
    stack64.refErrors suppressModel rootPath 0
      = [NewIndexedAt rootPath typeSliceRef 0 ErrSliceRefSamePart] := by
  have h0 : rootPath ≠ "" := by decide
  simp [SliceStack.refErrors, validateRefs.lastTopZAt, validateRefs.step, stack64, h0]

/-- C28 as stated fails for refs: the stacks 63 and 64 have the same second ref, to a
stack with `TopZ` 3, and first refs to the stack with `TopZ` 5; in stack 63 the second ref
gets `SliceNoMonotonic`; in stack 64 the first ref names the part of the stack itself and
gets `SliceRefSamePart`, the iteration is left before `lastTopZ` is updated, and the
second ref gets no error. -/
theorem C28_counterexample :
    stack64.Refs[1]? = stack63.Refs[1]?
    ∧ stack63.refErrors suppressModel rootPath 1
        = [NewIndexedAt rootPath typeSliceRef 1 ErrSliceNoMonotonic]
    ∧ stack64.refErrors suppressModel rootPath 0
        = [NewIndexedAt rootPath typeSliceRef 0 ErrSliceRefSamePart]
    ∧ stack64.refErrors suppressModel rootPath 1 = []
    ∧ NewIndexedAt rootPath typeSliceRef 1 ErrSliceNoMonotonic
        ∈ stack63.Validate suppressModel rootPath
    ∧ NewIndexedAt rootPath typeSliceRef 1 ErrSliceNoMonotonic
        ∉ stack64.Validate suppressModel rootPath := by
  refine ⟨rfl, stack63_refErrors_1, stack64_refErrors_0, stack64_refErrors_1, ?_, ?_⟩
  · have h1 : otherPath ≠ "" := by decide
    have h2 : otherPath ≠ rootPath := by decide
    have h3 : (3 : float32) ≤ 5 := by decide
    have h4 : ¬ ((5 : float32) ≤ float32.finite (-MaxFloat32)) := float32.not_le_neg_max 5
    simp [SliceStack.Validate, SliceStack.validateRefs, SliceStack.validateSlices,
      validateRefs.loop, validateSlices.loop, validateRefs.step, stack63, h1, h2,
      suppress_FindAsset_61, suppress_FindAsset_62, stack61, stack62, h3, h4]
  · have h1 : otherPath ≠ "" := by decide
    have h2 : otherPath ≠ rootPath := by decide
    have h0 : rootPath ≠ "" := by decide
    have h3 : ¬ ((3 : float32) ≤ float32.finite (-MaxFloat32)) := float32.not_le_neg_max 3
    simp [SliceStack.Validate, SliceStack.validateRefs, SliceStack.validateSlices,
      validateRefs.loop, validateSlices.loop, validateRefs.step, stack64, h0, h1, h2,
      suppress_FindAsset_62, stack62, h3, NewIndexedAt, ErrSliceNoMonotonic,
      ErrSliceRefSamePart]

theorem refs_step_snd_rejected (m : Model) (path : String) (z : float32) (i : Nat)
    (ref : SliceRef)
    (h : ¬ ref.wellFormed path
      ∨ ∀ st, m.FindAsset ref.Path ref.SliceStackID ≠ some (.SliceStack st)) :
    (validateRefs.step m path z i ref).2 = z := by
  unfold validateRefs.step SliceRef.wellFormed at *
  dsimp only
  by_cases hv : ref.Path ≠ "" ∧ ref.Path ≠ path ∧ ref.SliceStackID ≠ 0
  · rcases h with h | h
    · exact absurd hv h
    · obtain ⟨h1, h2, h3⟩ := hv
      cases hfa : m.FindAsset ref.Path ref.SliceStackID with
      | none => simp [h1, h2, h3]
      | some a =>
          cases a with
          | Other id => simp [h1, h2, h3]
          | SliceStack st => exact absurd hfa (h st)
  · by_cases h1 : ref.Path = ""
    · simp [h1]
    · by_cases h2 : ref.Path = path
      · simp [h1, h2]
      · have h3 : ref.SliceStackID = 0 := by
          by_contra h3
          exact hv ⟨h1, h2, h3⟩
        simp [h1, h2, h3]

/-- C28 (amended): collect-all in discovery order for a slice stack, with the dependence
of a ref on the refs before it. The result of `SliceStack.Validate` is the optional
`SlicesAndRefs` error, followed by the errors of the refs in ref-index order, followed by
the errors of the slices in slice-index order; no iteration is skipped, so every error of
the iteration of a ref or of a slice is in the result. The errors of slice `j` are the
same in two stacks that agree on `BottomZ`, on slice `j` and on the `TopZ` of slice
`j - 1`. The errors of ref `i` other than `SliceNoMonotonic` depend on ref `i` alone;
`SliceNoMonotonic` is reported on ref `i` if and only if the ref is well formed and
resolves to a stack whose first slice has a `TopZ` less than or equal to the value of
`lastTopZ` left by the refs before it, and a ref that is not well formed or does not
resolve to a slice stack leaves `lastTopZ` as it was: an error on an earlier ref can
remove the `SliceNoMonotonic` of a later one. -/
theorem C28_collect_all_in_discovery_order (r : SliceStack) (m : Model) (path : String) :
    r.Validate m path
      = (if (r.Slices.length ≠ 0 ∧ r.Refs.length ≠ 0) ∨ (r.Slices.length = 0 ∧ r.Refs.length = 0)
          then [ErrSlicesAndRefs] else [])
        ++ ((List.range r.Refs.length).map (r.refErrors m path)).flatten
        ++ ((List.range r.Slices.length).map (r.sliceErrors path)).flatten
    ∧ (∀ i e, e ∈ r.refErrors m path i → e ∈ r.Validate m path)
    ∧ (∀ j e, e ∈ r.sliceErrors path j → e ∈ r.Validate m path)
    ∧ (∀ (r2 : SliceStack) (j : Nat), r2.BottomZ = r.BottomZ → r2.Slices[j]? = r.Slices[j]? →
        (∀ k, j = k + 1 →
          (r2.Slices[k]?).map (fun s => s.TopZ) = (r.Slices[k]?).map (fun s => s.TopZ)) →
        r2.sliceErrors path j = r.sliceErrors path j)
    ∧ (∀ (i : Nat) (ref : SliceRef), r.Refs[i]? = some ref →
        r.refErrors m path i = (validateRefs.step m path
          (validateRefs.lastTopZAt m path 0 (.finite (-MaxFloat32)) r.Refs i) i ref).1)
    ∧ (∀ (z z2 : float32) (i : Nat) (ref : SliceRef) (e : GoError),
        e ≠ NewIndexedAt path typeSliceRef i ErrSliceNoMonotonic →
        (e ∈ (validateRefs.step m path z i ref).1 ↔ e ∈ (validateRefs.step m path z2 i ref).1))
    ∧ (∀ (z : float32) (i : Nat) (ref : SliceRef),
        (NewIndexedAt path typeSliceRef i ErrSliceNoMonotonic ∈ (validateRefs.step m path z i ref).1
          ↔ ref.wellFormed path
            ∧ ∃ st first, m.FindAsset ref.Path ref.SliceStackID = some (.SliceStack st)
              ∧ st.Slices.head? = some first ∧ first.TopZ ≤ z))
    ∧ (∀ (z : float32) (i : Nat) (ref : SliceRef),
        (¬ ref.wellFormed path
          ∨ ∀ st, m.FindAsset ref.Path ref.SliceStackID ≠ some (.SliceStack st)) →
        (validateRefs.step m path z i ref).2 = z) := by
  have hrefs : r.validateRefs m path
      = ((List.range r.Refs.length).map (r.refErrors m path)).flatten := by
    unfold SliceStack.validateRefs
    rw [validateRefs_loop_blocks]
    congr 1
    apply List.map_congr_left
    intro k _
    simp [SliceStack.refErrors]
  have hslices : r.validateSlices m path
      = ((List.range r.Slices.length).map (r.sliceErrors path)).flatten := by
    unfold SliceStack.validateSlices
    rw [validateSlices_loop_blocks]
    congr 1
    apply List.map_congr_left
    intro k _
    simp [SliceStack.sliceErrors]
  have hall : r.Validate m path
      = (if (r.Slices.length ≠ 0 ∧ r.Refs.length ≠ 0) ∨ (r.Slices.length = 0 ∧ r.Refs.length = 0)
          then [ErrSlicesAndRefs] else [])
        ++ ((List.range r.Refs.length).map (r.refErrors m path)).flatten
        ++ ((List.range r.Slices.length).map (r.sliceErrors path)).flatten := by
    rw [← hrefs, ← hslices]
    rfl
  refine ⟨hall, ?_, ?_, ?_, ?_, ?_, ?_, ?_⟩
  · intro i e he
    have hi : i < r.Refs.length := by
      by_contra hcon
      have hnone : r.Refs[i]? = none := List.getElem?_eq_none (by omega)
      simp [SliceStack.refErrors, hnone] at he
    rw [hall]
    apply List.mem_append_left
    apply List.mem_append_right
    exact List.mem_flatten.mpr ⟨_, List.mem_map.mpr ⟨i, List.mem_range.mpr hi, rfl⟩, he⟩
  · intro j e he
    have hj : j < r.Slices.length := by
      by_contra hcon
      have hnone : r.Slices[j]? = none := List.getElem?_eq_none (by omega)
      simp [SliceStack.sliceErrors, hnone] at he
    rw [hall]
    apply List.mem_append_right
    exact List.mem_flatten.mpr ⟨_, List.mem_map.mpr ⟨j, List.mem_range.mpr hj, rfl⟩, he⟩
  · intro r2 j hbz hj hprev
    unfold SliceStack.sliceErrors
    rw [hj, hbz]
    have hp : prevTopZ (.finite (-MaxFloat32)) r2.Slices j = prevTopZ (.finite (-MaxFloat32)) r.Slices j := by
      cases j with
      | zero => rfl
      | succ k =>
          have hk := hprev k rfl
          simp only [prevTopZ]
          cases h2 : r2.Slices[k]? with
          | none =>
              cases h1 : r.Slices[k]? with
              | none => rfl
              | some s1 => simp [h1, h2] at hk
          | some s2 =>
              cases h1 : r.Slices[k]? with
              | none => simp [h1, h2] at hk
              | some s1 => simpa [h1, h2] using hk
    rw [hp]
  · intro i ref hi
    simp [SliceStack.refErrors, hi]
  · intro z z2 i ref e hne
    rw [mem_refs_step, mem_refs_step]
    constructor
    · rintro (h | h | h | ⟨hw, st, hfa, h | ⟨first, _, _, he⟩⟩ | h | h)
      · exact Or.inl h
      · exact Or.inr (Or.inl h)
      · exact Or.inr (Or.inr (Or.inl h))
      · exact Or.inr (Or.inr (Or.inr (Or.inl ⟨hw, st, hfa, Or.inl h⟩)))
      · exact absurd he hne
      · exact Or.inr (Or.inr (Or.inr (Or.inr (Or.inl h))))
      · exact Or.inr (Or.inr (Or.inr (Or.inr (Or.inr h))))
    · rintro (h | h | h | ⟨hw, st, hfa, h | ⟨first, _, _, he⟩⟩ | h | h)
      · exact Or.inl h
      · exact Or.inr (Or.inl h)
      · exact Or.inr (Or.inr (Or.inl h))
      · exact Or.inr (Or.inr (Or.inr (Or.inl ⟨hw, st, hfa, Or.inl h⟩)))
      · exact absurd he hne
      · exact Or.inr (Or.inr (Or.inr (Or.inr (Or.inl h))))
      · exact Or.inr (Or.inr (Or.inr (Or.inr (Or.inr h))))
  · intro z i ref
    rw [mem_refs_step]
    constructor
    · rintro (⟨_, h⟩ | ⟨_, _, h⟩ | ⟨_, h⟩ | ⟨hw, st, hfa, ⟨_, h⟩ | ⟨first, hf, hle, _⟩⟩
        | ⟨_, _, h⟩ | ⟨_, _, h⟩)
      · simp [NewIndexedAt, ErrSliceNoMonotonic] at h
      · simp [NewIndexedAt, ErrSliceNoMonotonic, ErrSliceRefSamePart] at h
      · simp [NewIndexedAt, ErrSliceNoMonotonic] at h
      · simp [NewIndexedAt, ErrSliceNoMonotonic, ErrSliceRefRef] at h
      · exact ⟨hw, st, first, hfa, hf, hle⟩
      · simp [NewIndexedAt, ErrSliceNoMonotonic, ErrNonSliceStack] at h
      · simp [NewIndexedAt, ErrSliceNoMonotonic, ErrMissingResource] at h
    · rintro ⟨hw, st, first, hfa, hf, hle⟩
      exact Or.inr (Or.inr (Or.inr (Or.inl ⟨hw, st, hfa, Or.inr ⟨first, hf, hle, rfl⟩⟩)))
  · intro z i ref h
    exact refs_step_snd_rejected m path z i ref h

/-- Witness of the amended C28: slice 1 of the spec example gets the same errors when
slice 0 is replaced by a slice with the same `TopZ` that has errors of its own. -/
theorem C28_collect_all_in_discovery_order_witness :
    stackThinFirst.sliceErrors rootPath 1 = stackDecreasing.sliceErrors rootPath 1 :=
  (C28_collect_all_in_discovery_order stackDecreasing emptyModel rootPath).2.2.2.1
    stackThinFirst 1 rfl rfl (fun k hk => by
      have h0 : k = 0 := by omega
      subst h0
      rfl)

/-! ## Theorems: no false alarm of the transform walk -/

theorem nonPlanar_true_iff (t : Option Matrix) :
    nonPlanar t = true ↔ ∃ M, t = some M ∧ validTransform M = false := by
  cases t with
  | none => simp [nonPlanar]
  | some M => simp [nonPlanar]

theorem objLoop_false (m : Model) (path : String) (id oID : Nat)
    (recur : Object → Option Bool) (cs : List Component)
    (h : validateObjectTransforms.loop m path id oID recur cs = some false) :
    (∃ c ∈ cs, c.ObjectID = id ∧ c.ObjectPath path = path ∧ nonPlanar c.Transform = true)
    ∨ (∃ c ∈ cs, ∃ o1, m.FindObject (c.ObjectPath path) c.ObjectID = some o1
        ∧ recur o1 = some false) := by
  induction cs with
  | nil => simp [validateObjectTransforms.loop] at h
  | cons c0 rest ih =>
      have lift : ((∃ c ∈ rest, c.ObjectID = id ∧ c.ObjectPath path = path
            ∧ nonPlanar c.Transform = true)
          ∨ (∃ c ∈ rest, ∃ o1, m.FindObject (c.ObjectPath path) c.ObjectID = some o1
            ∧ recur o1 = some false)) →
          ((∃ c ∈ c0 :: rest, c.ObjectID = id ∧ c.ObjectPath path = path
            ∧ nonPlanar c.Transform = true)
          ∨ (∃ c ∈ c0 :: rest, ∃ o1, m.FindObject (c.ObjectPath path) c.ObjectID = some o1
            ∧ recur o1 = some false)) := by
        rintro (⟨c, hc, hb⟩ | ⟨c, hc, o1, h1, h2⟩)
        · exact Or.inl ⟨c, List.mem_cons_of_mem c0 hc, hb⟩
        · exact Or.inr ⟨c, List.mem_cons_of_mem c0 hc, o1, h1, h2⟩
      unfold validateObjectTransforms.loop at h
      by_cases hbad : c0.ObjectID = id ∧ c0.ObjectPath path = path ∧ nonPlanar c0.Transform = true
      · exact Or.inl ⟨c0, List.mem_cons_self c0 rest, hbad⟩
      · rw [if_neg hbad] at h
        by_cases hself : c0.ObjectID = oID ∧ c0.ObjectPath path = path
        · rw [if_pos hself] at h
          simp at h
        · rw [if_neg hself] at h
          cases hfo : m.FindObject (c0.ObjectPath path) c0.ObjectID with
          | none =>
              simp only [hfo] at h
              exact lift (ih h)
          | some o0 =>
              simp only [hfo] at h
              cases hrec : recur o0 with
              | none => simp [hrec] at h
              | some b =>
                  simp only [hrec] at h
                  cases b with
                  | false => exact Or.inr ⟨c0, List.mem_cons_self c0 rest, o0, hfo, hrec⟩
                  | true => exact lift (ih h)

theorem buildLoop_false (m : Model) (path : String) (id fuel : Nat) (items : List Item)
    (h : validateBuildTransforms.loop m path id fuel items = some false) :
    (∃ item ∈ items, item.ObjectID = id ∧ item.ObjectPath path = path
        ∧ nonPlanar item.Transform = true)
    ∨ (∃ item ∈ items, ∃ o, m.FindObject (item.ObjectPath path) item.ObjectID = some o
        ∧ validateObjectTransforms m path id fuel o = some false) := by
  induction items with
  | nil => simp [validateBuildTransforms.loop] at h
  | cons i0 rest ih =>
      have lift : ((∃ item ∈ rest, item.ObjectID = id ∧ item.ObjectPath path = path
            ∧ nonPlanar item.Transform = true)
          ∨ (∃ item ∈ rest, ∃ o, m.FindObject (item.ObjectPath path) item.ObjectID = some o
            ∧ validateObjectTransforms m path id fuel o = some false)) →
          ((∃ item ∈ i0 :: rest, item.ObjectID = id ∧ item.ObjectPath path = path
            ∧ nonPlanar item.Transform = true)
          ∨ (∃ item ∈ i0 :: rest, ∃ o, m.FindObject (item.ObjectPath path) item.ObjectID = some o
            ∧ validateObjectTransforms m path id fuel o = some false)) := by
        rintro (⟨c, hc, hb⟩ | ⟨c, hc, o1, h1, h2⟩)
        · exact Or.inl ⟨c, List.mem_cons_of_mem i0 hc, hb⟩
        · exact Or.inr ⟨c, List.mem_cons_of_mem i0 hc, o1, h1, h2⟩
      unfold validateBuildTransforms.loop at h
      by_cases hbad : i0.ObjectID = id ∧ i0.ObjectPath path = path ∧ nonPlanar i0.Transform = true
      · exact Or.inl ⟨i0, List.mem_cons_self i0 rest, hbad⟩
      · rw [if_neg hbad] at h
        cases hfo : m.FindObject (i0.ObjectPath path) i0.ObjectID with
        | none =>
            simp only [hfo] at h
            exact lift (ih h)
        | some o0 =>
            simp only [hfo] at h
            cases hrec : validateObjectTransforms m path id fuel o0 with
            | none => simp [hrec] at h
            | some b =>
                simp only [hrec] at h
                cases b with
                | false => exact Or.inr ⟨i0, List.mem_cons_self i0 rest, o0, hfo, hrec⟩
                | true => exact lift (ih h)

theorem walk_false_direct (m : Model) (path : String) (id : Nat) :
    ∀ (fuel : Nat) (o : Object), Reached m path o →
      validateObjectTransforms m path id fuel o = some false →
      ∃ o1 c, Reached m path o1 ∧ c ∈ o1.Components ∧ c.ObjectID = id
        ∧ c.ObjectPath path = path ∧ nonPlanar c.Transform = true := by
  intro fuel
  induction fuel with
  | zero => intro o _ h; simp [validateObjectTransforms] at h
  | succ n ih =>
      intro o ho h
      unfold validateObjectTransforms at h
      rcases objLoop_false m path id o.ID _ o.Components h with
        ⟨c, hc, hb⟩ | ⟨c, hc, o1, hfo, hrec⟩
      · exact ⟨o, c, ho, hc, hb⟩
      · exact ih o1 (Reached.component o c o1 ho hc hfo) hrec

theorem build_walk_false_elim (m : Model) (path : String) (id fuel : Nat)
    (h : validateBuildTransforms m path id fuel = some false) :
    (∃ item ∈ m.Build.Items, item.ObjectID = id ∧ item.ObjectPath path = path
        ∧ nonPlanar item.Transform = true)
    ∨ (∃ o c, Reached m path o ∧ c ∈ o.Components ∧ c.ObjectID = id
        ∧ c.ObjectPath path = path ∧ nonPlanar c.Transform = true) := by
  rcases buildLoop_false m path id fuel _ h with hb | ⟨item, hi, o, hfo, hrec⟩
  · exact Or.inl hb
  · exact Or.inr (walk_false_direct m path id fuel o (Reached.item item o hi hfo) hrec)

theorem FindObject_mem_parts (m : Model) (p : String) (id : Nat) (o : Object)
    (h : m.FindObject p id = some o) : ∃ part ∈ m.Parts, o ∈ part.2.Objects := by
  unfold Model.FindObject Model.FindResources at h
  cases hfind : m.Parts.find? (fun part => part.1 = p) with
  | none => simp [hfind] at h
  | some part =>
      simp only [hfind, Option.map_some', Option.some_bind] at h
      unfold Resources.FindObject at h
      exact ⟨part, List.mem_of_find?_eq_some hfind, List.mem_of_find?_eq_some h⟩

theorem Reached_mem_parts (m : Model) (path : String) (o : Object) (h : Reached m path o) :
    ∃ part ∈ m.Parts, o ∈ part.2.Objects := by
  cases h with
  | item item o hi hfo => exact FindObject_mem_parts m _ _ o hfo
  | component o0 c o1 _ _ hfo => exact FindObject_mem_parts m _ _ o hfo

theorem InvalidTranform_not_mem_extErrors (ext : SliceStackInfo) (m : Model) :
    ErrSliceInvalidTranform ∉ ext.extErrors m := by
  unfold SliceStackInfo.extErrors
  split_ifs <;> simp [ErrSliceInvalidTranform, ErrSliceExtRequired]

/-- C29: `InvalidTransform` is never a false alarm. Whenever
`validateBuildTransforms(m, path, id)` returns false, a build item of the model, or a
component of an object of the model that the walk reaches, targets the object
`(path, id)` and carries a transform `t` with `validTransform(t) = false`; on a model in
which every transform of a build item and of a component is absent or planar, no result
of `SliceStackInfo.Validate` holds `InvalidTransform`, and on an acyclic model `Validate`
returns. -/
theorem C29_InvalidTransform_no_false_alarm (m : Model) (path : String) :
    (∀ id fuel, validateBuildTransforms m path id fuel = some false →
      (∃ item ∈ m.Build.Items, item.ObjectID = id ∧ item.ObjectPath path = path
          ∧ ∃ t, item.Transform = some t ∧ validTransform t = false)
      ∨ (∃ o c, (∃ part ∈ m.Parts, o ∈ part.2.Objects) ∧ Reached m path o ∧ c ∈ o.Components
          ∧ c.ObjectID = id ∧ c.ObjectPath path = path
          ∧ ∃ t, c.Transform = some t ∧ validTransform t = false))
    ∧ ((∀ item ∈ m.Build.Items, ∀ t, item.Transform = some t → validTransform t = true) →
       (∀ part ∈ m.Parts, ∀ o ∈ part.2.Objects, ∀ c ∈ o.Components, ∀ t,
          c.Transform = some t → validTransform t = true) →
       ∀ (ext : SliceStackInfo) (e : Element) (fuel : Nat) (errs : List GoError),
         ext.Validate m path e fuel = some errs → ErrSliceInvalidTranform ∉ errs)
    ∧ (∀ (ext : SliceStackInfo) (e : Element) (rank : Object → Nat), Acyclic m path rank →
        ∀ fuel, walkBound m path rank m.Build.Items ≤ fuel →
        ∃ errs, ext.Validate m path e fuel = some errs) := by
  have part1 : ∀ id fuel, validateBuildTransforms m path id fuel = some false →
      (∃ item ∈ m.Build.Items, item.ObjectID = id ∧ item.ObjectPath path = path
          ∧ ∃ t, item.Transform = some t ∧ validTransform t = false)
      ∨ (∃ o c, (∃ part ∈ m.Parts, o ∈ part.2.Objects) ∧ Reached m path o ∧ c ∈ o.Components
          ∧ c.ObjectID = id ∧ c.ObjectPath path = path
          ∧ ∃ t, c.Transform = some t ∧ validTransform t = false) := by
    intro id fuel h
    rcases build_walk_false_elim m path id fuel h with
      ⟨item, hi, h1, h2, h3⟩ | ⟨o, c, ho, hc, h1, h2, h3⟩
    · exact Or.inl ⟨item, hi, h1, h2, (nonPlanar_true_iff _).mp h3⟩
    · exact Or.inr ⟨o, c, Reached_mem_parts m path o ho, ho, hc, h1, h2,
        (nonPlanar_true_iff _).mp h3⟩
  refine ⟨part1, ?_, ?_⟩
  · intro hitems hcomps ext e fuel errs hV
    have hx := InvalidTranform_not_mem_extErrors ext m
    cases e with
    | Other =>
        simp only [SliceStackInfo.Validate, Option.some.injEq] at hV
        subst hV
        simp
    | Object obj =>
        by_cases hid : ext.SliceStackID = 0
        · rw [Validate_missing_id ext m path obj fuel hid, Option.some.injEq] at hV
          subst hV
          intro hmem
          rcases List.mem_append.mp hmem with h | h
          · simp [ErrSliceInvalidTranform] at h
          · exact hx h
        · cases hl : ext.lookup m path with
          | none =>
              rw [Validate_missing_resource ext m path obj fuel hid hl, Option.some.injEq] at hV
              subst hV
              intro hmem
              rcases List.mem_append.mp hmem with h | h
              · simp [ErrSliceInvalidTranform, ErrMissingResource] at h
              · exact hx h
          | some a =>
              cases a with
              | Other k =>
                  rw [Validate_non_stack ext m path obj fuel hid k hl, Option.some.injEq] at hV
                  subst hV
                  intro hmem
                  rcases List.mem_append.mp hmem with h | h
                  · simp [ErrSliceInvalidTranform, ErrNonSliceStack] at h
                  · exact hx h
              | SliceStack r =>
                  rw [Validate_stack ext m path obj fuel hid r hl] at hV
                  cases hw : validateBuildTransforms m path obj.ID fuel with
                  | none => simp [hw] at hV
                  | some ok =>
                      cases ok with
                      | false =>
                          exfalso
                          rcases part1 obj.ID fuel hw with
                            ⟨item, hi, _, _, t, ht, hbad⟩ | ⟨o, c, ⟨part, hp, ho⟩, _, hc, _, _, t, ht, hbad⟩
                          · rw [hitems item hi t ht] at hbad
                            cases hbad
                          · rw [hcomps part hp o ho c hc t ht] at hbad
                            cases hbad
                      | true =>
                          simp only [hw, Option.map_some', Option.some.injEq] at hV
                          subst hV
                          have h2 : ErrSliceInvalidTranform ∉
                              (if (obj.ObjectType = .ObjectTypeModel
                                    ∨ obj.ObjectType = .ObjectTypeSolidSupport)
                                  ∧ checkAllClosed m r = false
                                then [ErrSlicePolygonNotClosed] else []) := by
                            split_ifs <;> simp [ErrSliceInvalidTranform, ErrSlicePolygonNotClosed]
                          simp [hx, h2]
  · intro ext e rank hacyc fuel hfuel
    exact Validate_returns_of_acyclic ext m path e rank hacyc fuel hfuel

theorem planar_lookup_10 : info10Low.lookup planarModel rootPath = some (.SliceStack stack10) := by
  simp [SliceStackInfo.lookup, Model.FindResources, Resources.FindAsset, planarModel, info10Low,
    Asset.Identify, stack10]

theorem planar_FindObject_1 : planarModel.FindObject rootPath 1 = some planarA := by
  simp [Model.FindObject, Model.FindResources, Resources.FindObject, planarModel, planarA]

theorem planar_FindObject_2 : planarModel.FindObject rootPath 2 = some chainO := by
  simp [Model.FindObject, Model.FindResources, Resources.FindObject, planarModel, planarA, chainO]

theorem translate_planar : validTransform (Identity.Translate 1 2 3) = true := by decide

theorem identity_planar : validTransform Identity = true := by decide

theorem planar_Validate (fuel : Nat) :
    info10Low.Validate planarModel rootPath (.Object chainO) (fuel + 2)
      = some [ErrSliceExtRequired] := by
  have hw : validateBuildTransforms planarModel rootPath chainO.ID (fuel + 2) = some true := by
    simp [validateBuildTransforms, validateBuildTransforms.loop, planarModel, Item.ObjectPath,
      nonPlanar, identity_planar, Model.FindObject, Model.FindResources, Resources.FindObject,
      planarA, chainO, validateObjectTransforms, validateObjectTransforms.loop,
      Component.ObjectPath, translate_planar]
  rw [Validate_stack info10Low planarModel rootPath chainO (fuel + 2) (by decide) stack10
    planar_lookup_10, hw]
  simp [SliceStackInfo.extErrors, info10Low, planarModel, chainO, checkAllClosed,
    isSliceStackClosed, stack10]

theorem direct_walk_false :
    validateBuildTransforms directModel rootPath 2 2 = some false := by
  simp [validateBuildTransforms, validateBuildTransforms.loop, directModel, Item.ObjectPath,
    nonPlanar, Model.FindObject, Model.FindResources, Resources.FindObject,
    directA, chainO, validateObjectTransforms, validateObjectTransforms.loop,
    Component.ObjectPath, scaleZ_not_planar]

/-- Witness of C29: on the direct model the walk returns false and the component of
object 1 that targets the sliced object 2 is not planar; on the planar model, where the
build item and the component carry planar transforms, the result of `Validate` for the
sliced object holds the missing-extension error and not `InvalidTransform`. -/
theorem C29_InvalidTransform_no_false_alarm_witness :
    ((∃ item ∈ directModel.Build.Items, item.ObjectID = 2 ∧ item.ObjectPath rootPath = rootPath
          ∧ ∃ t, item.Transform = some t ∧ validTransform t = false)
      ∨ (∃ o c, (∃ part ∈ directModel.Parts, o ∈ part.2.Objects) ∧ Reached directModel rootPath o
          ∧ c ∈ o.Components ∧ c.ObjectID = 2 ∧ c.ObjectPath rootPath = rootPath
          ∧ ∃ t, c.Transform = some t ∧ validTransform t = false))
    ∧ ErrSliceInvalidTranform ∉ [ErrSliceExtRequired] :=
  ⟨(C29_InvalidTransform_no_false_alarm directModel rootPath).1 2 2 direct_walk_false,
   (C29_InvalidTransform_no_false_alarm planarModel rootPath).2.1
      (by
        intro item hi t ht
        simp only [planarModel, List.mem_singleton] at hi
        subst hi
        simp only [Option.some.injEq] at ht
        subst ht
        exact identity_planar)
      (by
        intro part hp o ho c hc t ht
        simp only [planarModel, List.mem_singleton] at hp
        subst hp
        simp only [List.mem_cons, List.mem_singleton, List.not_mem_nil, or_false] at ho
        rcases ho with rfl | rfl
        · simp only [planarA, List.mem_singleton] at hc
          subst hc
          simp only [Option.some.injEq] at ht
          subst ht
          exact translate_planar
        · simp [chainO] at hc)
      info10Low (.Object chainO) 2 _ (planar_Validate 0)⟩

/-! ## Theorems: the encoder -/

theorem ext_eq_find (ns : String) (l : List xml.Name) :
    Encoder.modelToken.ext ns l
      = ((l.find? (fun a => a.Space = ns)).map (fun a => a.Local)).getD "" := by
  induction l with
  | nil => rfl
  | cons b rest ih =>
      by_cases h : b.Space = ns
      · simp [Encoder.modelToken.ext, h]
      · simp [Encoder.modelToken.ext, h, ih]

theorem ext_empty_iff_find (ns : String) (l : List xml.Name) :
    Encoder.modelToken.ext ns l = ""
      ↔ ∀ a, l.find? (fun a => a.Space = ns) = some a → a.Local = "" := by
  rw [ext_eq_find]
  cases l.find? (fun a => a.Space = ns) with
  | none => simp
  | some b => simp

theorem ext_empty_of_no_entry (ns : String) (l : List xml.Name)
    (h : ¬ ∃ a ∈ l, a.Space = ns ∧ a.Local ≠ "") : Encoder.modelToken.ext ns l = "" := by
  induction l with
  | nil => rfl
  | cons b rest ih =>
      have hrest : ¬ ∃ a ∈ rest, a.Space = ns ∧ a.Local ≠ "" := by
        rintro ⟨a, ha, h1⟩
        exact h ⟨a, List.mem_cons_of_mem b ha, h1⟩
      by_cases hb : b.Space = ns
      · simp only [Encoder.modelToken.ext, if_pos hb]
        by_contra hl
        exact h ⟨b, List.mem_cons_self b rest, hb, hl⟩
      · simp only [Encoder.modelToken.ext, if_neg hb]
        exact ih hrest

theorem no_entry_of_ext_empty (ns : String) (l : List xml.Name)
    (hnd : (l.map (fun a => a.Space)).Nodup) (h : Encoder.modelToken.ext ns l = "") :
    ¬ ∃ a ∈ l, a.Space = ns ∧ a.Local ≠ "" := by
  induction l with
  | nil => simp
  | cons b rest ih =>
      rw [List.map_cons, List.nodup_cons] at hnd
      rintro ⟨a, ha, hs, hl⟩
      by_cases hb : b.Space = ns
      · simp only [Encoder.modelToken.ext, if_pos hb] at h
        rcases List.mem_cons.mp ha with rfl | har
        · exact hl h
        · apply hnd.1
          rw [hb, ← hs]
          exact List.mem_map.mpr ⟨a, har, rfl⟩
      · simp only [Encoder.modelToken.ext, if_neg hb] at h
        rcases List.mem_cons.mp ha with rfl | har
        · exact hb hs
        · exact ih hnd.2 h ⟨a, har, hs, hl⟩

theorem exts_ok (l : List xml.Name) (req : List String)
    (h : ∀ ns ∈ req, Encoder.modelToken.ext ns l ≠ "") :
    Encoder.modelToken.exts l req = .ok (req.map (fun ns => Encoder.modelToken.ext ns l)) := by
  induction req with
  | nil => rfl
  | cons n rest ih =>
      have h0 := h n (List.mem_cons_self n rest)
      have hr := ih (fun ns hns => h ns (List.mem_cons_of_mem n hns))
      simp only [Encoder.modelToken.exts, if_neg h0, hr, List.map_cons]

theorem exts_error_first (l : List xml.Name) (pre : List String) (ns : String)
    (post : List String) (hpre : ∀ n ∈ pre, Encoder.modelToken.ext n l ≠ "")
    (hns : Encoder.modelToken.ext ns l = "") :
    Encoder.modelToken.exts l (pre ++ ns :: post)
      = .error (Encoder.modelToken.undefined ns) := by
  induction pre with
  | nil => simp only [List.nil_append, Encoder.modelToken.exts, if_pos hns]
  | cons n rest ih =>
      have h0 := hpre n (List.mem_cons_self n rest)
      have hr := ih (fun k hk => hpre k (List.mem_cons_of_mem n hk))
      simp only [List.cons_append, Encoder.modelToken.exts, if_neg h0, List.append_eq, hr]

theorem exts_error_iff (l : List xml.Name) (req : List String) :
    (∃ msg, Encoder.modelToken.exts l req = .error msg)
      ↔ ∃ ns ∈ req, Encoder.modelToken.ext ns l = "" := by
  induction req with
  | nil => simp [Encoder.modelToken.exts]
  | cons n rest ih =>
      by_cases h0 : Encoder.modelToken.ext n l = ""
      · constructor
        · intro _
          exact ⟨n, List.mem_cons_self n rest, h0⟩
        · intro _
          exact ⟨Encoder.modelToken.undefined n,
            by simp only [Encoder.modelToken.exts, if_pos h0]⟩
      · constructor
        · rintro ⟨msg, hmsg⟩
          simp only [Encoder.modelToken.exts, if_neg h0] at hmsg
          cases hr : Encoder.modelToken.exts l rest with
          | ok exts => simp [hr] at hmsg
          | error err =>
              obtain ⟨ns, hns, he⟩ := ih.mp ⟨err, hr⟩
              exact ⟨ns, List.mem_cons_of_mem n hns, he⟩
        · rintro ⟨ns, hns, he⟩
          rcases List.mem_cons.mp hns with rfl | hr
          · exact absurd he h0
          · obtain ⟨msg, hmsg⟩ := ih.mpr ⟨ns, hr, he⟩
            exact ⟨msg, by simp only [Encoder.modelToken.exts, if_neg h0, hmsg]⟩

theorem modelToken_error_iff (m : Model) (isRoot : Bool) :
    (∃ msg, Encoder.modelToken m isRoot = .error msg)
      ↔ ∃ ns ∈ m.RequiredExtensions, Encoder.modelToken.ext ns m.Namespaces = "" := by
  rw [← exts_error_iff]
  unfold Encoder.modelToken
  by_cases hlen : m.RequiredExtensions.length ≠ 0
  · rw [if_pos hlen]
    cases Encoder.modelToken.exts m.Namespaces m.RequiredExtensions with
    | ok exts => simp
    | error err => simp
  · rw [if_neg hlen]
    have hnil : m.RequiredExtensions = [] := List.length_eq_zero.mp (not_not.mp hlen)
    simp [hnil, Encoder.modelToken.exts]

theorem attrs_filter_reqExt (m : Model) (isRoot : Bool) :
    (Encoder.modelToken.attrs m isRoot).filter
      (fun a => a.Name = xml.Name.mk "" attrReqExt) = [] := by
  rw [List.filter_eq_nil_iff]
  intro a ha
  unfold Encoder.modelToken.attrs at ha
  simp only [List.mem_append, List.mem_cons, List.mem_map, List.not_mem_nil, or_false] at ha
  rcases ha with (ha | ha) | ⟨b, _, rfl⟩
  · rcases ha with rfl | rfl | rfl <;> simp [attrXmlns, attrUnit, attrLang, attrReqExt, nsXML]
  · split_ifs at ha
    · rw [List.mem_singleton] at ha
      subst ha
      simp [attrThumbnail, attrReqExt]
    · simp at ha
  · simp [attrXmlns]

/-- C31 as stated fails: the model requires `urn:ext` and has an entry in `Namespaces`
with that `Space` and the non-empty `Local` `p`, yet `modelToken` returns the error,
because an earlier entry with the same `Space` has an empty `Local`. -/
theorem C31_counterexample :
    (∀ ns ∈ shadowedModel.RequiredExtensions,
        ∃ a ∈ shadowedModel.Namespaces, a.Space = ns ∧ a.Local ≠ "")
    ∧ (∀ isRoot, Encoder.modelToken shadowedModel isRoot
        = .error "go3mf: cannot encode model with undefined required extension 'urn:ext'") := by
  constructor
  · intro ns hns
    simp only [shadowedModel, List.mem_singleton] at hns
    subst hns
    exact ⟨{ Space := "urn:ext", Local := "p" }, by simp [shadowedModel], rfl, by decide⟩
  · intro isRoot
    cases isRoot <;> rfl

/-- C31 (amended): required extensions must be declared first to encode. `modelToken`
returns an error if and only if, for some URI in `m.RequiredExtensions`, the first entry
of `m.Namespaces` with that `Space` has an empty `Local` or there is no entry with that
`Space`; the error is "go3mf: cannot encode model with undefined required extension"
followed by the first such URI in quotes. In particular it returns an error when some
required URI has no entry with that `Space` and a non-empty `Local`, and when the
`Space`s of `m.Namespaces` are pairwise different the two conditions are the same.
Otherwise it succeeds, and among the attributes it builds the `requiredextensions`
attribute is absent when `RequiredExtensions` is empty and is otherwise the last
attribute, once, with the `Local`s of the first entries of the required URIs, in
`RequiredExtensions` order, joined by a space. -/
theorem C31_required_extensions_first_declaration (m : Model) (isRoot : Bool) :
    ((∃ msg, Encoder.modelToken m isRoot = .error msg)
      ↔ ∃ ns ∈ m.RequiredExtensions,
          ∀ a, m.Namespaces.find? (fun a => a.Space = ns) = some a → a.Local = "")
    ∧ (∀ pre ns post, m.RequiredExtensions = pre ++ ns :: post →
        (∀ n ∈ pre, ∃ a, m.Namespaces.find? (fun a => a.Space = n) = some a ∧ a.Local ≠ "") →
        (∀ a, m.Namespaces.find? (fun a => a.Space = ns) = some a → a.Local = "") →
        Encoder.modelToken m isRoot
          = .error ("go3mf: cannot encode model with undefined required extension '"
              ++ ns ++ "'"))
    ∧ ((∃ ns ∈ m.RequiredExtensions, ¬ ∃ a ∈ m.Namespaces, a.Space = ns ∧ a.Local ≠ "") →
        ∃ msg, Encoder.modelToken m isRoot = .error msg)
    ∧ ((m.Namespaces.map (fun a => a.Space)).Nodup →
        ((∃ msg, Encoder.modelToken m isRoot = .error msg)
          ↔ ∃ ns ∈ m.RequiredExtensions, ¬ ∃ a ∈ m.Namespaces, a.Space = ns ∧ a.Local ≠ ""))
    ∧ ((∀ ns ∈ m.RequiredExtensions,
          ∃ a, m.Namespaces.find? (fun a => a.Space = ns) = some a ∧ a.Local ≠ "") →
        ∃ tm, Encoder.modelToken m isRoot = .ok tm
          ∧ tm.Name = xml.Name.mk "" attrModel
          ∧ tm.Attr = Encoder.modelToken.attrs m isRoot
              ++ (if m.RequiredExtensions = [] then []
                  else [xml.Attr.mk (xml.Name.mk "" attrReqExt)
                    (strings.Join (m.RequiredExtensions.map (fun ns =>
                      ((m.Namespaces.find? (fun a => a.Space = ns)).map
                        (fun a => a.Local)).getD "")) " ")])
          ∧ tm.Attr.filter (fun a => a.Name = xml.Name.mk "" attrReqExt)
              = (if m.RequiredExtensions = [] then []
                  else [xml.Attr.mk (xml.Name.mk "" attrReqExt)
                    (strings.Join (m.RequiredExtensions.map (fun ns =>
                      ((m.Namespaces.find? (fun a => a.Space = ns)).map
                        (fun a => a.Local)).getD "")) " ")])) := by
  have hne : ∀ n, (∃ a, m.Namespaces.find? (fun a => a.Space = n) = some a ∧ a.Local ≠ "")
      → Encoder.modelToken.ext n m.Namespaces ≠ "" := by
    rintro n ⟨a, hfa, hl⟩ he
    exact hl ((ext_empty_iff_find n m.Namespaces).mp he a hfa)
  refine ⟨?_, ?_, ?_, ?_, ?_⟩
  · rw [modelToken_error_iff]
    constructor
    · rintro ⟨ns, hns, he⟩
      exact ⟨ns, hns, (ext_empty_iff_find ns m.Namespaces).mp he⟩
    · rintro ⟨ns, hns, he⟩
      exact ⟨ns, hns, (ext_empty_iff_find ns m.Namespaces).mpr he⟩
  · intro pre ns post hreq hpre hns
    have hlen : m.RequiredExtensions.length ≠ 0 := by
      rw [hreq]
      simp
    have hex := exts_error_first m.Namespaces pre ns post (fun n hn => hne n (hpre n hn))
      ((ext_empty_iff_find ns m.Namespaces).mpr hns)
    unfold Encoder.modelToken
    rw [if_pos hlen, hreq, hex]
    rfl
  · rintro ⟨ns, hns, hno⟩
    exact (modelToken_error_iff m isRoot).mpr
      ⟨ns, hns, ext_empty_of_no_entry ns m.Namespaces hno⟩
  · intro hnd
    rw [modelToken_error_iff]
    constructor
    · rintro ⟨ns, hns, he⟩
      exact ⟨ns, hns, no_entry_of_ext_empty ns m.Namespaces hnd he⟩
    · rintro ⟨ns, hns, hno⟩
      exact ⟨ns, hns, ext_empty_of_no_entry ns m.Namespaces hno⟩
  · intro hall
    have hok := exts_ok m.Namespaces m.RequiredExtensions (fun ns hns => hne ns (hall ns hns))
    have hmap : m.RequiredExtensions.map (fun ns => Encoder.modelToken.ext ns m.Namespaces)
        = m.RequiredExtensions.map (fun ns =>
            ((m.Namespaces.find? (fun a => a.Space = ns)).map (fun a => a.Local)).getD "") :=
      List.map_congr_left (fun ns _ => ext_eq_find ns m.Namespaces)
    unfold Encoder.modelToken
    by_cases hnil : m.RequiredExtensions = []
    · have hlen : ¬ m.RequiredExtensions.length ≠ 0 := by simp [hnil]
      rw [if_neg hlen]
      refine ⟨_, rfl, rfl, ?_, ?_⟩
      · simp [hnil]
      · simp only [if_pos hnil]
        exact attrs_filter_reqExt m isRoot
    · have hlen : m.RequiredExtensions.length ≠ 0 := by
        intro h0
        exact hnil (List.length_eq_zero.mp h0)
      rw [if_pos hlen, hok]
      refine ⟨_, rfl, rfl, ?_, ?_⟩
      · simp only [if_neg hnil, hmap]
      · simp only [if_neg hnil, hmap, List.filter_append, attrs_filter_reqExt, List.nil_append]
        simp

/-- Witness of the amended C31: the model that declares `urn:a` as `a` and `urn:b` as `b`
and requires `urn:b` and `urn:a` is encoded, with the attribute value `b a`; the model
whose first declaration of `urn:ext` has no local name is not. -/
theorem C31_required_extensions_first_declaration_witness :
    (∃ tm, Encoder.modelToken declaredModel true = .ok tm
      ∧ tm.Attr.filter (fun a => a.Name = xml.Name.mk "" attrReqExt)
          = [xml.Attr.mk (xml.Name.mk "" attrReqExt) "b a"])
    ∧ (∃ msg, Encoder.modelToken shadowedModel true = .error msg) :=
  ⟨by
    obtain ⟨tm, h1, _, _, h4⟩ :=
      (C31_required_extensions_first_declaration declaredModel true).2.2.2.2 (by
        intro ns hns
        simp only [declaredModel, List.mem_cons, List.mem_singleton, List.not_mem_nil,
          or_false] at hns
        rcases hns with rfl | rfl
        · exact ⟨{ Space := "urn:b", Local := "b" }, by decide, by decide⟩
        · exact ⟨{ Space := "urn:a", Local := "a" }, by decide, by decide⟩)
    refine ⟨tm, h1, ?_⟩
    rw [h4]
    decide,
   (C31_required_extensions_first_declaration shadowedModel true).1.mpr
      ⟨"urn:ext", by simp [shadowedModel], by
        intro a ha
        have hf : shadowedModel.Namespaces.find? (fun a => a.Space = "urn:ext")
            = some { Space := "urn:ext", Local := "" } := by decide
        rw [hf] at ha
        cases ha
        rfl⟩⟩

/-- C32: triangle property attributes written by `writeMesh`. The start element of a face
is a `triangle` whose first three attributes are `v1`, `v2`, `v3`, in that order, with
the three node indices. For a face with `PID = 0` nothing else is written; for
`PID != 0`, if the three property indices are not all equal then `pid`, `p1`, `p2` and
`p3` follow; if they are all equal then only `pid` and `p1` follow when `(PID, p1)`
differs from the `(DefaultPID, DefaultPIndex)` of the object, and nothing follows when it
equals it. The seven attribute names are pairwise different, and the loop hands one such
start element per face to the encoder, in the order of the faces. -/
theorem C32_triangle_property_attributes (r : Object) (v : Face) :
    (Encoder.writeMesh.triangle r v).Name = xml.Name.mk "" attrTriangle
    ∧ (Encoder.writeMesh.triangle r v).Attr.take 3
        = [uintAttr attrV1 (v.NodeIndices 0), uintAttr attrV2 (v.NodeIndices 1),
           uintAttr attrV3 (v.NodeIndices 2)]
    ∧ (v.PID = 0 → (Encoder.writeMesh.triangle r v).Attr
        = [uintAttr attrV1 (v.NodeIndices 0), uintAttr attrV2 (v.NodeIndices 1),
           uintAttr attrV3 (v.NodeIndices 2)])
    ∧ (v.PID ≠ 0 → ¬ (v.PIndex 0 = v.PIndex 1 ∧ v.PIndex 1 = v.PIndex 2) →
        (Encoder.writeMesh.triangle r v).Attr
          = [uintAttr attrV1 (v.NodeIndices 0), uintAttr attrV2 (v.NodeIndices 1),
             uintAttr attrV3 (v.NodeIndices 2), uintAttr attrPID v.PID,
             uintAttr attrP1 (v.PIndex 0), uintAttr attrP2 (v.PIndex 1),
             uintAttr attrP3 (v.PIndex 2)])
    ∧ (v.PID ≠ 0 → (v.PIndex 0 = v.PIndex 1 ∧ v.PIndex 1 = v.PIndex 2) →
        (v.PID, v.PIndex 0) ≠ (r.DefaultPID, r.DefaultPIndex) →
        (Encoder.writeMesh.triangle r v).Attr
          = [uintAttr attrV1 (v.NodeIndices 0), uintAttr attrV2 (v.NodeIndices 1),
             uintAttr attrV3 (v.NodeIndices 2), uintAttr attrPID v.PID,
             uintAttr attrP1 (v.PIndex 0)])
    ∧ (v.PID ≠ 0 → (v.PIndex 0 = v.PIndex 1 ∧ v.PIndex 1 = v.PIndex 2) →
        (v.PID, v.PIndex 0) = (r.DefaultPID, r.DefaultPIndex) →
        (Encoder.writeMesh.triangle r v).Attr
          = [uintAttr attrV1 (v.NodeIndices 0), uintAttr attrV2 (v.NodeIndices 1),
             uintAttr attrV3 (v.NodeIndices 2)])
    ∧ [attrV1, attrV2, attrV3, attrPID, attrP1, attrP2, attrP3].Nodup
    ∧ (∀ m : Mesh, (Encoder.writeMesh.triangles r m).length = m.Faces.length
        ∧ ∀ k : Nat, (Encoder.writeMesh.triangles r m)[k]?
            = (m.Faces[k]?).map (Encoder.writeMesh.triangle r)) := by
  refine ⟨rfl, ?_, ?_, ?_, ?_, ?_, by decide, ?_⟩
  · unfold Encoder.writeMesh.triangle
    simp only []
    split_ifs <;> rfl
  · intro h0
    simp [Encoder.writeMesh.triangle, h0, uintAttr]
  · intro h0 hne
    have hcode : v.PIndex 0 ≠ v.PIndex 1 ∨ v.PIndex 0 ≠ v.PIndex 2 := by
      by_contra hcon
      rw [not_or, not_not, not_not] at hcon
      exact hne ⟨hcon.1, hcon.1.symm.trans hcon.2⟩
    simp only [Encoder.writeMesh.triangle, if_pos h0, if_pos hcode]
    rfl
  · intro h0 heq hdef
    have hcode : ¬ (v.PIndex 0 ≠ v.PIndex 1 ∨ v.PIndex 0 ≠ v.PIndex 2) := by
      rw [not_or, not_not, not_not]
      exact ⟨heq.1, heq.1.trans heq.2⟩
    have hd : v.PID ≠ r.DefaultPID ∨ v.PIndex 0 ≠ r.DefaultPIndex := by
      by_contra hcon
      rw [not_or, not_not, not_not] at hcon
      exact hdef (by rw [hcon.1, hcon.2])
    simp only [Encoder.writeMesh.triangle, if_pos h0, if_neg hcode, if_pos hd]
    rfl
  · intro h0 heq hdef
    have hcode : ¬ (v.PIndex 0 ≠ v.PIndex 1 ∨ v.PIndex 0 ≠ v.PIndex 2) := by
      rw [not_or, not_not, not_not]
      exact ⟨heq.1, heq.1.trans heq.2⟩
    have hd : ¬ (v.PID ≠ r.DefaultPID ∨ v.PIndex 0 ≠ r.DefaultPIndex) := by
      rw [not_or, not_not, not_not]
      exact ⟨congrArg Prod.fst hdef, congrArg Prod.snd hdef⟩
    simp only [Encoder.writeMesh.triangle, if_pos h0, if_neg hcode, if_neg hd]
    rfl
  · intro m
    exact ⟨by simp [Encoder.writeMesh.triangles], fun k => by simp [Encoder.writeMesh.triangles]⟩

/-- Witness of C32 on an object with the default property `(5, 2)`: a face without
property and a face with the default property on its three vertices get the three vertex
attributes only, a face with the indices 2, 3, 4 gets `pid`, `p1`, `p2`, `p3`, a face
with the index 7 on its three vertices gets `pid` and `p1`. -/
theorem C32_triangle_property_attributes_witness :
    (Encoder.writeMesh.triangle paintedObject faceBare).Attr
      = [uintAttr attrV1 0, uintAttr attrV2 1, uintAttr attrV3 2]
    ∧ (Encoder.writeMesh.triangle paintedObject faceMixed).Attr
      = [uintAttr attrV1 0, uintAttr attrV2 1, uintAttr attrV3 2, uintAttr attrPID 5,
         uintAttr attrP1 2, uintAttr attrP2 3, uintAttr attrP3 4]
    ∧ (Encoder.writeMesh.triangle paintedObject faceUniform).Attr
      = [uintAttr attrV1 0, uintAttr attrV2 1, uintAttr attrV3 2, uintAttr attrPID 5,
         uintAttr attrP1 7]
    ∧ (Encoder.writeMesh.triangle paintedObject faceDefault).Attr
      = [uintAttr attrV1 0, uintAttr attrV2 1, uintAttr attrV3 2] :=
  ⟨(C32_triangle_property_attributes paintedObject faceBare).2.2.1 rfl,
   (C32_triangle_property_attributes paintedObject faceMixed).2.2.2.1 (by decide) (by decide),
   (C32_triangle_property_attributes paintedObject faceUniform).2.2.2.2.1 (by decide)
      (by decide) (by decide),
   (C32_triangle_property_attributes paintedObject faceDefault).2.2.2.2.2.1 (by decide)
      (by decide) (by decide)⟩
